import Mathlib

/-!
Shallow embedding of `src/netcpu_ntperf.c`: CPU utilisation computed from two
snapshots of per-processor time counters.

Modelling conventions.

* `LARGE_INTEGER.QuadPart` (`LONGLONG`) and `LONG` values are integers; every
  arithmetic result the program stores is reduced to the two's-complement range
  of its type (`i64`, `i32`).
* `double` and `float` values are modelled by `Dbl = Option ℚ`: `some q` is the
  finite number `q` and `none` is a value that is not a finite number (a NaN or
  an infinity, the outcome of an overflow or of a division by zero).  Every
  conversion and operation rounds its exact result to the nearest number of the
  format, ties to even (`rnd64` for `double`, `rnd32` for `float`).  Every divisor
  in the program is a finite number, so a non-finite operand always gives a
  non-finite result.  The sign of zero is not modelled.  Only the expression of
  the interrupt rate (`interruptRate`) is given in exact arithmetic.
* The arrays `StartInfo`, `EndInfo`, `DeltaInfo`, `TotalCPUTime` are functions of
  the slot index; the slots of the program are `0 .. MAXCPUS`.
* `MAXCPUS` (a constant of `netlib.h`) is a parameter.
* What the environment supplies (processor count, the answer of
  `NtQuerySystemInformation`, the performance counter, `TickHz`, `verbosity`,
  `lib_elapsed`) is passed as an argument.
* `exit(1)` is `Except.error`; an integer division trap or an access outside an
  array is `none` / `Fatal.OutOfBounds`.
* `float` arithmetic is evaluated in `float` precision, and each operation of an
  expression is rounded once, in the order of the C expression.
* The sampler is given twice: `RestartPerfCntrs` on functions of the slot index,
  and `RestartPerfCntrsMem` on arrays of the declared length in which every read
  and write is checked against the bounds and logged; `RestartPerfCntrsMem_ok`
  relates the two.
-/

namespace NetcpuNtperf

/-! ## Machine integers -/

/-- Two's-complement reduction of an integer to a signed word of `w` bits. -/
def wrapS (w : Nat) (x : Int) : Int :=
  (x + 2 ^ (w - 1)) % 2 ^ w - 2 ^ (w - 1)

/-- Value stored in a `LONGLONG` (`LARGE_INTEGER.QuadPart`). -/
def i64 (x : Int) : Int := wrapS 64 x

/-- Value stored in a `LONG` or an `int`. -/
def i32 (x : Int) : Int := wrapS 32 x

/-- Signed 64-bit division `a / b` of C (truncating); `none` when the machine
traps: a zero divisor, or the overflowing quotient of the least value by -1. -/
def sdiv64 (a b : Int) : Option Int :=
  if b = 0 then none
  else if a = -(2 : Int) ^ 63 ∧ b = -1 then none
  else some (Int.tdiv a b)

/-! ## Floating point values -/

/-- A `double` or `float` value: a finite number, or `none` for a value that is
not a finite number. -/
abbrev Dbl := Option ℚ

/-- Rounding of a rational number to the nearest integer, ties to the even one. -/
def roundHalfEven (z : ℚ) : Int :=
  if z - ⌊z⌋ < 1 / 2 then ⌊z⌋
  else if 1 / 2 < z - ⌊z⌋ then ⌊z⌋ + 1
  else if ⌊z⌋ % 2 = 0 then ⌊z⌋ else ⌊z⌋ + 1

/-- Exponent of the unit in the last place of `q` in the binary format with `prec`
significant bits and least normal exponent `emin`. -/
def ulpExp (prec : Nat) (emin : Int) (q : ℚ) : Int :=
  max (Int.log 2 |q|) emin - ((prec : Int) - 1)

/-- The multiple of the unit in the last place nearest to `q`, ties to even. -/
def roundRaw (prec : Nat) (emin : Int) (q : ℚ) : ℚ :=
  (roundHalfEven (q / 2 ^ ulpExp prec emin q) : ℚ) * 2 ^ ulpExp prec emin q

/-- IEEE 754 rounding to nearest, ties to even, in the binary format with `prec`
significant bits and exponents `emin .. emax`; a result of size `2 ^ (emax + 1)`
or more is an infinity. -/
def roundNE (prec : Nat) (emin emax : Int) (q : ℚ) : Dbl :=
  if |roundRaw prec emin q| < 2 ^ (emax + 1) then some (roundRaw prec emin q) else none

/-- Rounding to `double` (binary64). -/
def rnd64 (q : ℚ) : Dbl := roundNE 53 (-1022) 1023 q

/-- Rounding to `float` (binary32). -/
def rnd32 (q : ℚ) : Dbl := roundNE 24 (-126) 127 q

/-- Conversion `(double)x` of an integer. -/
def F64.ofInt (x : Int) : Dbl := rnd64 (x : ℚ)

/-- Subtraction of `double`s. -/
def F64.sub (a b : Dbl) : Dbl :=
  match a, b with
  | some x, some y => rnd64 (x - y)
  | _, _ => none

/-- Multiplication of `double`s. -/
def F64.mul (a b : Dbl) : Dbl :=
  match a, b with
  | some x, some y => rnd64 (x * y)
  | _, _ => none

/-- Division of `double`s; a zero divisor gives a value that is not a finite
number. -/
def F64.div (a b : Dbl) : Dbl :=
  match a, b with
  | some x, some y => if y = 0 then none else rnd64 (x / y)
  | _, _ => none

/-- Conversion `(float)v` of a `double`. -/
def F32.ofF64 (v : Dbl) : Dbl :=
  match v with
  | some x => rnd32 x
  | none => none

/-- Addition of `float`s. -/
def F32.add (a b : Dbl) : Dbl :=
  match a, b with
  | some x, some y => rnd32 (x + y)
  | _, _ => none

/-- Subtraction of `float`s. -/
def F32.sub (a b : Dbl) : Dbl :=
  match a, b with
  | some x, some y => rnd32 (x - y)
  | _, _ => none

/-- Multiplication of `float`s. -/
def F32.mul (a b : Dbl) : Dbl :=
  match a, b with
  | some x, some y => rnd32 (x * y)
  | _, _ => none

/-- Division of `float`s; a zero divisor gives a value that is not a finite
number. -/
def F32.div (a b : Dbl) : Dbl :=
  match a, b with
  | some x, some y => if y = 0 then none else rnd32 (x / y)
  | _, _ => none

/-- Exact conversion of an integer (no rounding). -/
def Dbl.ofInt (x : Int) : Dbl := some (x : ℚ)

/-- Exact multiplication (no rounding). -/
def Dbl.mul (a b : Dbl) : Dbl :=
  match a, b with
  | some x, some y => some (x * y)
  | _, _ => none

/-- Exact division (no rounding); a zero divisor gives a value that is not a
finite number. -/
def Dbl.div (a b : Dbl) : Dbl :=
  match a, b with
  | some x, some y => if y = 0 then none else some (x / y)
  | _, _ => none

/-! ## Data model -/

/-- One processor's counters (`SYSTEM_PROCESSOR_PERFORMANCE_INFORMATION`,
lines 60-68). -/
structure SYSTEM_PROCESSOR_PERFORMANCE_INFORMATION where
  IdleTime : Int
  KernelTime : Int
  UserTime : Int
  DpcTime : Int
  InterruptTime : Int
  InterruptCount : Int
deriving DecidableEq, Repr

/-- Short name of the record type. -/
abbrev SPPI := SYSTEM_PROCESSOR_PERFORMANCE_INFORMATION

/-- A record of zero bytes. -/
def zeroInfo : SPPI :=
  { IdleTime := 0, KernelTime := 0, UserTime := 0, DpcTime := 0, InterruptTime := 0,
    InterruptCount := 0 }

/-- Size in bytes of one record: five 8-byte `LARGE_INTEGER`s and a 4-byte `LONG`,
padded to the 8-byte alignment of the structure. -/
def sizeofSPPI : Nat := 48

/-- The store (`sPerfObj`, lines 101-107): two timestamps and two arrays of
`MAXCPUS + 1` records, indexed by slot. -/
structure PerfObj where
  StartTime : Int
  EndTime : Int
  StartInfo : Nat → SPPI
  EndInfo : Nat → SPPI

/-- What one call of `NtQuerySystemInformation` (lines 339-341) delivers: its
status, the byte count `returnLength`, and the records it wrote to the buffer;
`info i` is record `i`, and `returnLength / sizeofSPPI` whole records are written. -/
structure QueryResult where
  status : Nat
  returnLength : Nat
  info : Nat → SPPI

/-- The ways in which the program stops. -/
inductive Fatal where
  | NotWindowsNT
  | GetProcAddressFailed
  | QueryPerformanceFrequencyFailed
  | NtQueryFailed (status : Nat)
  | NotMultiple (returnLength : Nat)
  | WrongCpuCount (expected returned : Nat)
  | OutOfBounds
deriving DecidableEq, Repr

/-! ## Memory operations -/

/-- `CopyMemory(&dst[0], &src[0], sizeof(record) * n)`. -/
def CopyMemory (dst src : Nat → SPPI) (n : Nat) : Nat → SPPI :=
  fun i => if i < n then src i else dst i

/-- `ZeroMemory(&dst[start], sizeof(record) * n)`. -/
def ZeroMemory (dst : Nat → SPPI) (start n : Nat) : Nat → SPPI :=
  fun i => if start ≤ i ∧ i < start + n then zeroInfo else dst i

/-- The buffer after the source has written `n` records from its first slot. -/
def writeRecords (dst : Nat → SPPI) (info : Nat → SPPI) (n : Nat) : Nat → SPPI :=
  fun i => if i < n then info i else dst i

/-! ## RestartPerfCntrs (lines 309-388) -/

/-- Body of the loop of lines 377-386 for index `i`: the seven assignments in
program order, each on the array left by the one before. -/
def totalStep (MAXCPUS : Nat) (E : Nat → SPPI) (i : Nat) : Nat → SPPI :=
  let E1 := Function.update E i
    { E i with KernelTime := i64 ((E i).KernelTime - (E i).IdleTime) }
  let E2 := Function.update E1 MAXCPUS
    { E1 MAXCPUS with IdleTime := i64 ((E1 MAXCPUS).IdleTime + (E1 i).IdleTime) }
  let E3 := Function.update E2 MAXCPUS
    { E2 MAXCPUS with KernelTime := i64 ((E2 MAXCPUS).KernelTime + (E2 i).KernelTime) }
  let E4 := Function.update E3 MAXCPUS
    { E3 MAXCPUS with UserTime := i64 ((E3 MAXCPUS).UserTime + (E3 i).UserTime) }
  let E5 := Function.update E4 MAXCPUS
    { E4 MAXCPUS with DpcTime := i64 ((E4 MAXCPUS).DpcTime + (E4 i).DpcTime) }
  let E6 := Function.update E5 MAXCPUS
    { E5 MAXCPUS with
      InterruptTime := i64 ((E5 MAXCPUS).InterruptTime + (E5 i).InterruptTime) }
  Function.update E6 MAXCPUS
    { E6 MAXCPUS with
      InterruptCount := i32 ((E6 MAXCPUS).InterruptCount + (E6 i).InterruptCount) }

/-- The loop of lines 377-386: `for (i = 0; i < returnNumCPUs; i++)`. -/
def totalAll (MAXCPUS : Nat) (E : Nat → SPPI) (returnNumCPUs : Nat) : Nat → SPPI :=
  (List.range returnNumCPUs).foldl (totalStep MAXCPUS) E

/-- The sampler `RestartPerfCntrs`, after the processor count has been obtained
(lines 320-329): `numberOfProcessors` is that count, `q` the answer of the
counter source and `Counter` the reading of `ReadPerformanceCounter`. -/
def RestartPerfCntrs (MAXCPUS : Nat) (numberOfProcessors : Nat) (q : QueryResult)
    (Counter : Int) (p : PerfObj) : Except Fatal PerfObj :=
  -- lines 332-336
  let StartInfo := CopyMemory p.StartInfo p.EndInfo (MAXCPUS + 1)
  let StartTime := p.EndTime
  -- lines 339-345
  if q.status ≠ 0 then Except.error (Fatal.NtQueryFailed q.status)
  else
    let EndInfo := writeRecords p.EndInfo q.info (q.returnLength / sizeofSPPI)
    -- line 347
    let EndTime := Counter
    -- lines 350-356
    if q.returnLength % sizeofSPPI ≠ 0 then Except.error (Fatal.NotMultiple q.returnLength)
    else
      -- line 357
      let returnNumCPUs := q.returnLength / sizeofSPPI
      -- lines 359-365
      if returnNumCPUs ≠ numberOfProcessors then
        Except.error (Fatal.WrongCpuCount numberOfProcessors returnNumCPUs)
      -- lines 368-370: the length `MAXCPUS + 1 - returnNumCPUs` is unsigned
      else if MAXCPUS + 1 < returnNumCPUs then Except.error Fatal.OutOfBounds
      else
        let EndInfo := ZeroMemory EndInfo returnNumCPUs (MAXCPUS + 1 - returnNumCPUs)
        -- lines 377-386
        let EndInfo := totalAll MAXCPUS EndInfo returnNumCPUs
        Except.ok
          { StartTime := StartTime, EndTime := EndTime, StartInfo := StartInfo,
            EndInfo := EndInfo }

/-- The store as allocated and zeroed by lines 173-176. -/
def zeroPerfObj : PerfObj :=
  { StartTime := 0, EndTime := 0, StartInfo := fun _ => zeroInfo,
    EndInfo := fun _ => zeroInfo }

/-- The constructor `InitPerfCntrs` (lines 167-214): the zeroed store, the checks of
the environment, and the first sample. -/
def InitPerfCntrs (MAXCPUS : Nat) (NTVersion : Nat) (haveNtQuery haveTickHz : Bool)
    (numberOfProcessors : Nat) (q : QueryResult) (Counter : Int) : Except Fatal PerfObj :=
  if 0x80000000 ≤ NTVersion then Except.error Fatal.NotWindowsNT
  else if !haveNtQuery then Except.error Fatal.GetProcAddressFailed
  else if !haveTickHz then Except.error Fatal.QueryPerformanceFrequencyFailed
  else RestartPerfCntrs MAXCPUS numberOfProcessors q Counter zeroPerfObj

/-! ## ReportPerfCntrs (lines 396-552) -/

/-- Slot `i` of the local array `DeltaInfo` (lines 423-434). -/
def DeltaInfo (p : PerfObj) (i : Nat) : SPPI :=
  { IdleTime := i64 ((p.EndInfo i).IdleTime - (p.StartInfo i).IdleTime),
    KernelTime := i64 ((p.EndInfo i).KernelTime - (p.StartInfo i).KernelTime),
    UserTime := i64 ((p.EndInfo i).UserTime - (p.StartInfo i).UserTime),
    DpcTime := i64 ((p.EndInfo i).DpcTime - (p.StartInfo i).DpcTime),
    InterruptTime := i64 ((p.EndInfo i).InterruptTime - (p.StartInfo i).InterruptTime),
    InterruptCount := i32 ((p.EndInfo i).InterruptCount - (p.StartInfo i).InterruptCount) }

/-- Slot `i` of the local array `TotalCPUTime` (lines 436-439). -/
def TotalCPUTime (p : PerfObj) (i : Nat) : Int :=
  i64 (i64 ((DeltaInfo p i).IdleTime + (DeltaInfo p i).KernelTime) + (DeltaInfo p i).UserTime)

/-- The expression `100.0*(1.0 - (double)DeltaInfo[i].IdleTime/(double)TotalCPUTime[i])`
of lines 445 and 478. -/
def busyPct (p : PerfObj) (i : Nat) : Dbl :=
  F64.mul (some 100)
    (F64.sub (some 1)
      (F64.div (F64.ofInt (DeltaInfo p i).IdleTime) (F64.ofInt (TotalCPUTime p i))))

/-- The expression `100.0*(double)x/(double)TotalCPUTime[i]` of lines 484-530, for
a field value `x` of `DeltaInfo[i]`. -/
def pctOf (p : PerfObj) (x : Int) (i : Nat) : Dbl :=
  F64.div (F64.mul (some 100) (F64.ofInt x)) (F64.ofInt (TotalCPUTime p i))

/-- The expression `(double)DeltaInfo[i].InterruptCount*1000.0/duration` of lines
536 and 543, in exact arithmetic. -/
def interruptRate (p : PerfObj) (duration : Dbl) (i : Nat) : Dbl :=
  Dbl.div (Dbl.mul (Dbl.ofInt (DeltaInfo p i).InterruptCount) (some 1000)) duration

/-- One argument of a `fprintf` call. -/
inductive Arg where
  | dbl (v : Dbl)
  | int (n : Int)
  | intOfDbl (v : Dbl)
deriving DecidableEq, Repr

/-- One call on the report sink `where`. -/
inductive Out where
  | fprintf (fmt : String) (args : List Arg)
  | fflush
deriving DecidableEq, Repr

/-- The loop `if ((int)numberOfProcessors > 1) for (i = 0; i < (int)numberOfProcessors; i++)`
around one `fprintf`. -/
def perCpu (n : Int) (f : Nat → Out) : List Out :=
  if 1 < n then (List.range n.toNat).map f else []

/-- The calls of lines 457-547, made when `verbosity > 1`. -/
def reportLines (MAXCPUS : Nat) (n : Int) (duration : Dbl) (p : PerfObj) : List Out :=
  [Out.fprintf "ActualDuration (ms): %d\n" [Arg.intOfDbl duration]]
  ++ [Out.fprintf "%% CPU    _Total" []]
  ++ perCpu n (fun i => Out.fprintf "\t CPU %i" [Arg.int i])
  ++ [Out.fprintf "\n" []]
  ++ [Out.fprintf "Busy      %5.2f" [Arg.dbl (busyPct p MAXCPUS)]]
  ++ perCpu n (fun i => Out.fprintf "\t %5.2f" [Arg.dbl (busyPct p i)])
  ++ [Out.fprintf "\n" []]
  ++ [Out.fprintf "Kernel    %5.2f"
        [Arg.dbl (pctOf p (DeltaInfo p MAXCPUS).KernelTime MAXCPUS)]]
  ++ perCpu n (fun i => Out.fprintf "\t %5.2f" [Arg.dbl (pctOf p (DeltaInfo p i).KernelTime i)])
  ++ [Out.fprintf "\n" []]
  ++ [Out.fprintf "User      %5.2f"
        [Arg.dbl (pctOf p (DeltaInfo p MAXCPUS).UserTime MAXCPUS)]]
  ++ perCpu n (fun i => Out.fprintf "\t %5.2f" [Arg.dbl (pctOf p (DeltaInfo p i).UserTime i)])
  ++ [Out.fprintf "\n" []]
  ++ [Out.fprintf "Dpc       %5.2f"
        [Arg.dbl (pctOf p (DeltaInfo p MAXCPUS).DpcTime MAXCPUS)]]
  ++ perCpu n (fun i => Out.fprintf "\t %5.2f" [Arg.dbl (pctOf p (DeltaInfo p i).DpcTime i)])
  ++ [Out.fprintf "\n" []]
  ++ [Out.fprintf "Interrupt %5.2f"
        [Arg.dbl (pctOf p (DeltaInfo p MAXCPUS).InterruptTime MAXCPUS)]]
  ++ perCpu n
      (fun i => Out.fprintf "\t %5.2f" [Arg.dbl (pctOf p (DeltaInfo p i).InterruptTime i)])
  ++ [Out.fprintf "\n\n" []]
  ++ [Out.fprintf "Interrupt/Sec. %5.1f" [Arg.dbl (interruptRate p duration MAXCPUS)]]
  ++ perCpu n (fun i => Out.fprintf "\t %5.1f" [Arg.dbl (interruptRate p duration i)])
  ++ [Out.fprintf "\n\n" []]
  ++ [Out.fflush]

/-- The calculator `ReportPerfCntrs`, after the processor count has been obtained
(lines 411-419): the calls made on the sink and the returned `tot_CPU_Util`.
The result is `none` when the division by `TickHz` traps, and when a loop of the
detailed report reads `DeltaInfo` beyond slot `MAXCPUS`. -/
def ReportPerfCntrs (MAXCPUS : Nat) (verbosity : Int) (numberOfProcessors : Nat)
    (TickHz : Int) (p : PerfObj) : Option (List Out × Dbl) :=
  -- line 445
  let tot_CPU_Util := busyPct p MAXCPUS
  -- lines 448-449
  let ActualDuration := i64 (p.EndTime - p.StartTime)
  -- line 452
  match sdiv64 (i64 (ActualDuration * 10000)) TickHz with
  | none => none
  | some ActualDuration =>
    -- line 453
    let duration := F64.div (F64.ofInt ActualDuration) (some 10)
    if 1 < verbosity then
      let n := i32 numberOfProcessors
      if 1 < n ∧ MAXCPUS + 1 < n.toNat then none
      else some (reportLines MAXCPUS n duration p, tot_CPU_Util)
    else some ([], tot_CPU_Util)

/-- The final value of `ActualDuration`, in tenths of a millisecond (lines
448-452); `none` when the division by `TickHz` traps. -/
def ActualDuration (TickHz : Int) (p : PerfObj) : Option Int :=
  sdiv64 (i64 (i64 (p.EndTime - p.StartTime) * 10000)) TickHz

/-- The value of `duration` in milliseconds (line 453). -/
def duration (TickHz : Int) (p : PerfObj) : Option Dbl :=
  (ActualDuration TickHz p).map (fun AD => F64.div (F64.ofInt AD) (some 10))

/-! ## calc_cpu_util_internal (lines 579-608) -/

/-- The value of `correction_factor` (lines 592-598), in `float` arithmetic. -/
def correction_factor (lib_elapsed elapsed_time : Dbl) : Dbl :=
  if elapsed_time ≠ some 0 then
    F32.add (some 1) (F32.div (F32.sub lib_elapsed elapsed_time) elapsed_time)
  else some 1

/-- The corrector `calc_cpu_util_internal`: the calls made on the sink and the
returned `lib_local_cpu_stats.cpu_util`.  `lib_elapsed` and `debug` are globals of
`netlib`. -/
def calc_cpu_util_internal (MAXCPUS : Nat) (verbosity : Int) (numberOfProcessors : Nat)
    (TickHz : Int) (debug : Int) (lib_elapsed : Dbl) (p : PerfObj) (elapsed_time : Dbl) :
    Option (List Out × Dbl) :=
  let factor := correction_factor lib_elapsed elapsed_time
  -- lines 600-602
  let dbg := if debug ≠ 0 then [Out.fprintf "correction factor: %f\n" [Arg.dbl factor]] else []
  -- line 604
  match ReportPerfCntrs MAXCPUS verbosity numberOfProcessors TickHz p with
  | none => none
  | some (out, tot_CPU_Util) =>
    let cpu_util := F32.ofF64 tot_CPU_Util
    -- lines 605-606
    some (dbg ++ out, F32.mul cpu_util factor)

/-! ## CountSetBits (lines 221-235) -/

/-- The loop of lines 228-232 with `k` iterations left, `bitTest` and
`bitSetCount` being the values of the variables. -/
def CountSetBits.loop (bitMask : Nat) : Nat → Nat → Nat → Nat
  | 0, _, bitSetCount => bitSetCount
  | k + 1, bitTest, bitSetCount =>
    CountSetBits.loop bitMask k (bitTest / 2)
      (bitSetCount + (if bitMask &&& bitTest ≠ 0 then 1 else 0))

/-- The helper `CountSetBits`; `bits` is `sizeof(ULONG_PTR) * 8`, the width of the
mask. The loop runs for `i = 0 .. LSHIFT`. -/
def CountSetBits (bits : Nat) (bitMask : Nat) : Nat :=
  let LSHIFT := bits - 1
  CountSetBits.loop bitMask (LSHIFT + 1) (1 <<< LSHIFT) 0

/-- The values of `bitTest` at the successive iterations of the loop of lines
228-232, `k` iterations from the value `bitTest`. -/
def CountSetBits.bitTests : Nat → Nat → List Nat
  | 0, _ => []
  | k + 1, bitTest => bitTest :: CountSetBits.bitTests k (bitTest / 2)

/-! ## The sampler over checked memory (lines 101-107, 309-388) -/

/-- One access to a slot of an array. -/
inductive Access where
  | read (i : Nat)
  | write (i : Nat)
deriving DecidableEq, Repr

/-- The slot of an access. -/
def Access.slot : Access → Nat
  | Access.read i => i
  | Access.write i => i

/-- An array of records in memory: its elements, as many as it was declared with,
and the log of the accesses made to it. -/
structure Arr where
  cells : List SPPI
  log : List Access

/-- The array as a function of the slot index. -/
def Arr.toFun (a : Arr) : Nat → SPPI := fun i => a.cells.getD i zeroInfo

/-- The read of `a[i]`: an access out of bounds when `i` is not an index of the
array. -/
def Arr.rd (a : Arr) (i : Nat) : Except Fatal (SPPI × Arr) :=
  if i < a.cells.length then
    Except.ok (a.cells.getD i zeroInfo, { a with log := a.log ++ [Access.read i] })
  else Except.error Fatal.OutOfBounds

/-- The write `a[i] = v`: an access out of bounds when `i` is not an index of the
array. -/
def Arr.wr (a : Arr) (i : Nat) (v : SPPI) : Except Fatal Arr :=
  if i < a.cells.length then
    Except.ok { cells := a.cells.set i v, log := a.log ++ [Access.write i] }
  else Except.error Fatal.OutOfBounds

/-- A statement `a[i].f = g(a[i])` (line 379): one read and one write of slot `i`. -/
def Arr.update (a : Arr) (i : Nat) (g : SPPI → SPPI) : Except Fatal Arr :=
  match a.rd i with
  | Except.error e => Except.error e
  | Except.ok (e, a) => a.wr i (g e)

/-- A statement `a[k].f += a[i].f` (lines 380-385): reads of the slots `k` and `i`
and one write of slot `k`. -/
def Arr.accum (a : Arr) (k i : Nat) (g : SPPI → SPPI → SPPI) : Except Fatal Arr :=
  match a.rd k with
  | Except.error e => Except.error e
  | Except.ok (t, a) =>
    match a.rd i with
    | Except.error e => Except.error e
    | Except.ok (e, a) => a.wr k (g t e)

/-- `CopyMemory(&dst[0], &src[0], sizeof(record) * n)`, record by record. -/
def CopyMemoryMem (dst src : Arr) (n : Nat) : Except Fatal (Arr × Arr) :=
  (List.range n).foldlM
    (fun (ds : Arr × Arr) i =>
      match ds.2.rd i with
      | Except.error e => Except.error e
      | Except.ok (v, s) =>
        match ds.1.wr i v with
        | Except.error e => Except.error e
        | Except.ok d => Except.ok (d, s))
    (dst, src)

/-- `ZeroMemory(&dst[start], sizeof(record) * n)`, record by record. -/
def ZeroMemoryMem (dst : Arr) (start n : Nat) : Except Fatal Arr :=
  (List.range' start n).foldlM (fun a i => a.wr i zeroInfo) dst

/-- The source writing `n` records from the first slot of the buffer. -/
def writeRecordsMem (dst : Arr) (info : Nat → SPPI) (n : Nat) : Except Fatal Arr :=
  (List.range n).foldlM (fun a i => a.wr i (info i)) dst

/-- Body of the loop of lines 377-386 for index `i`, statement by statement. -/
def totalStepMem (MAXCPUS : Nat) (E : Arr) (i : Nat) : Except Fatal Arr :=
  match E.update i (fun e => { e with KernelTime := i64 (e.KernelTime - e.IdleTime) }) with
  | Except.error e => Except.error e
  | Except.ok E =>
  match E.accum MAXCPUS i (fun t e => { t with IdleTime := i64 (t.IdleTime + e.IdleTime) }) with
  | Except.error e => Except.error e
  | Except.ok E =>
  match E.accum MAXCPUS i
      (fun t e => { t with KernelTime := i64 (t.KernelTime + e.KernelTime) }) with
  | Except.error e => Except.error e
  | Except.ok E =>
  match E.accum MAXCPUS i (fun t e => { t with UserTime := i64 (t.UserTime + e.UserTime) }) with
  | Except.error e => Except.error e
  | Except.ok E =>
  match E.accum MAXCPUS i (fun t e => { t with DpcTime := i64 (t.DpcTime + e.DpcTime) }) with
  | Except.error e => Except.error e
  | Except.ok E =>
  match E.accum MAXCPUS i
      (fun t e => { t with InterruptTime := i64 (t.InterruptTime + e.InterruptTime) }) with
  | Except.error e => Except.error e
  | Except.ok E =>
    E.accum MAXCPUS i
      (fun t e => { t with InterruptCount := i32 (t.InterruptCount + e.InterruptCount) })

/-- The loop of lines 377-386 over checked memory. -/
def totalAllMem (MAXCPUS : Nat) (E : Arr) (returnNumCPUs : Nat) : Except Fatal Arr :=
  (List.range returnNumCPUs).foldlM (totalStepMem MAXCPUS) E

/-- The value of the `DWORD` expression `MAXCPUS + 1 - returnNumCPUs` of line 370. -/
def zeroFillCount (MAXCPUS returnNumCPUs : Nat) : Nat :=
  ((MAXCPUS + 1) % 4294967296 + 4294967296 - returnNumCPUs % 4294967296) % 4294967296

/-- The store in memory: the two timestamps and the two arrays. -/
structure PerfMem where
  StartTime : Int
  EndTime : Int
  StartInfo : Arr
  EndInfo : Arr

/-- The store in memory as a store of functions of the slot index. -/
def PerfMem.toPerfObj (m : PerfMem) : PerfObj :=
  { StartTime := m.StartTime, EndTime := m.EndTime, StartInfo := m.StartInfo.toFun,
    EndInfo := m.EndInfo.toFun }

/-- The sampler `RestartPerfCntrs` over checked memory: every access to `StartInfo`
and `EndInfo` is an access to an array of the declared length. -/
def RestartPerfCntrsMem (MAXCPUS : Nat) (numberOfProcessors : Nat) (q : QueryResult)
    (Counter : Int) (m : PerfMem) : Except Fatal PerfMem :=
  -- lines 332-334
  match CopyMemoryMem m.StartInfo m.EndInfo (MAXCPUS + 1) with
  | Except.error e => Except.error e
  | Except.ok (StartInfo, EndInfo) =>
    -- line 336
    let StartTime := m.EndTime
    -- lines 339-345
    if q.status ≠ 0 then Except.error (Fatal.NtQueryFailed q.status)
    else
      match writeRecordsMem EndInfo q.info (q.returnLength / sizeofSPPI) with
      | Except.error e => Except.error e
      | Except.ok EndInfo =>
        -- line 347
        let EndTime := Counter
        -- lines 350-356
        if q.returnLength % sizeofSPPI ≠ 0 then
          Except.error (Fatal.NotMultiple q.returnLength)
        else
          -- line 357
          let returnNumCPUs := q.returnLength / sizeofSPPI
          -- lines 359-365
          if returnNumCPUs ≠ numberOfProcessors then
            Except.error (Fatal.WrongCpuCount numberOfProcessors returnNumCPUs)
          else
            -- lines 368-370
            match ZeroMemoryMem EndInfo returnNumCPUs (zeroFillCount MAXCPUS returnNumCPUs) with
            | Except.error e => Except.error e
            | Except.ok EndInfo =>
              -- lines 377-386
              match totalAllMem MAXCPUS EndInfo returnNumCPUs with
              | Except.error e => Except.error e
              | Except.ok EndInfo =>
                Except.ok
                  { StartTime := StartTime, EndTime := EndTime, StartInfo := StartInfo,
                    EndInfo := EndInfo }

/-- The accesses to `EndInfo` made by the body of the loop of lines 377-386 for
index `i`, in program order. -/
def totalStepLog (MAXCPUS i : Nat) : List Access :=
  [Access.read i, Access.write i]
  ++ (List.replicate 6 [Access.read MAXCPUS, Access.read i, Access.write MAXCPUS]).flatten

/-- The store in memory with the given contents of the two arrays and empty logs. -/
def memOf (MAXCPUS : Nat) (p : PerfObj) : PerfMem :=
  { StartTime := p.StartTime, EndTime := p.EndTime,
    StartInfo := { cells := (List.range (MAXCPUS + 1)).map p.StartInfo, log := [] },
    EndInfo := { cells := (List.range (MAXCPUS + 1)).map p.EndInfo, log := [] } }

/-! ## Runs of the sampler -/

/-- The inputs of one call of `RestartPerfCntrs`. -/
structure Advance where
  numberOfProcessors : Nat
  q : QueryResult
  Counter : Int

/-- Successive calls of `RestartPerfCntrs`, in order, stopping at the first fatal
error. -/
def runAdvances (MAXCPUS : Nat) : List Advance → PerfObj → Except Fatal PerfObj
  | [], p => Except.ok p
  | a :: rest, p =>
    match RestartPerfCntrs MAXCPUS a.numberOfProcessors a.q a.Counter p with
    | Except.ok p' => runAdvances MAXCPUS rest p'
    | Except.error e => Except.error e

/-! ## Vocabulary of the statements -/

/-- The record after the correction of line 379: idle time taken out of kernel
time. -/
def fixKernel (r : SPPI) : SPPI :=
  { r with KernelTime := i64 (r.KernelTime - r.IdleTime) }

/-- The six fields of a record. -/
inductive Field where
  | IdleTime
  | KernelTime
  | UserTime
  | DpcTime
  | InterruptTime
  | InterruptCount
deriving DecidableEq, Repr

/-- Value of a field of a record. -/
def Field.get (f : Field) (r : SPPI) : Int :=
  match f with
  | Field.IdleTime => r.IdleTime
  | Field.KernelTime => r.KernelTime
  | Field.UserTime => r.UserTime
  | Field.DpcTime => r.DpcTime
  | Field.InterruptTime => r.InterruptTime
  | Field.InterruptCount => r.InterruptCount

/-- Width in bits of a field: `LONG` for the interrupt count, `LONGLONG` for the
times. -/
def Field.bits (f : Field) : Nat :=
  match f with
  | Field.InterruptCount => 32
  | _ => 64

/-- Reduction of an integer to the machine type of a field. -/
def Field.wrap (f : Field) (x : Int) : Int :=
  match f with
  | Field.InterruptCount => i32 x
  | _ => i64 x

/-- Sum over the slots `0 .. N-1` of one field, as an integer. -/
def sumField (f : Field) (D : Nat → SPPI) (N : Nat) : Int :=
  ∑ i in Finset.range N, f.get (D i)

/-- The duration of `ticks` counter ticks at `TickHz` ticks per second, rounded
down to a whole number of tenths of a millisecond, in milliseconds. -/
def tenthsFloor (ticks TickHz : Int) : ℚ :=
  ((⌊((ticks * 10000 : Int) : ℚ) / (TickHz : ℚ)⌋ : Int) : ℚ) / 10

/-- Readings of a clock that are non-negative and non-decreasing. -/
def clockReadings (cs : List Int) : Prop := List.Chain (· ≤ ·) 0 cs

/-! ## Sample inputs -/

/-- A record with idle 300, kernel 500 (idle included) and user 100. -/
def sampleInfo : SPPI :=
  { IdleTime := 300, KernelTime := 500, UserTime := 100, DpcTime := 0, InterruptTime := 0,
    InterruptCount := 0 }

/-- A successful answer of the counter source for one processor. -/
def sampleQuery : QueryResult :=
  { status := 0, returnLength := 48, info := fun _ => sampleInfo }

/-- The store of a run that did not stop, the zeroed store otherwise. -/
def storeOf (r : Except Fatal PerfObj) : PerfObj :=
  match r with
  | Except.ok p => p
  | Except.error _ => zeroPerfObj

/-- The store after one sample of `sampleQuery` taken from the zeroed store, with
`MAXCPUS = 256`. -/
def sampleStore : PerfObj :=
  storeOf (RestartPerfCntrs 256 1 sampleQuery 20000000 zeroPerfObj)

/-- The store after a second sample of the same `sampleQuery`: its two snapshots
are equal. -/
def sampleStoreTwice : PerfObj :=
  storeOf (RestartPerfCntrs 256 1 sampleQuery 30000000 sampleStore)

/-- A later answer of the counter source for the same processor: idle 700, kernel
1200 (idle included), user 300, 7 interrupts. -/
def sampleQueryLater : QueryResult :=
  { status := 0, returnLength := 48,
    info := fun _ =>
      { IdleTime := 700, KernelTime := 1200, UserTime := 300, DpcTime := 40,
        InterruptTime := 20, InterruptCount := 7 } }

/-- The store after `sampleQuery` and then `sampleQueryLater`. -/
def sampleStoreLater : PerfObj :=
  storeOf (RestartPerfCntrs 256 1 sampleQueryLater 30000000 sampleStore)

/-- An answer for two processors, all counters zero. -/
def zeroQuery2 : QueryResult :=
  { status := 0, returnLength := 96, info := fun _ => zeroInfo }

/-- An answer for two processors, each with an interrupt count of `2 ^ 30`. -/
def countQuery2 : QueryResult :=
  { status := 0, returnLength := 96,
    info := fun _ => { zeroInfo with InterruptCount := 1073741824 } }

/-- The store after `zeroQuery2` taken from the zeroed store. -/
def countStore1 : PerfObj :=
  storeOf (RestartPerfCntrs 256 2 zeroQuery2 1 zeroPerfObj)

/-- The store after `zeroQuery2` and then `countQuery2`. -/
def countStore2 : PerfObj :=
  storeOf (RestartPerfCntrs 256 2 countQuery2 2 countStore1)

/-- The store after `countQuery2` and then the one-processor `sampleQuery`. -/
def shrunkStore : PerfObj :=
  storeOf (RestartPerfCntrs 256 1 sampleQuery 3 countStore2)

/-- An answer whose byte count is not a multiple of the record size. -/
def raggedQuery : QueryResult :=
  { status := 0, returnLength := 50, info := fun _ => sampleInfo }

/-- The store after the one-processor `sampleQuery` taken a second time. -/
def shrunkStoreTwice : PerfObj :=
  storeOf (RestartPerfCntrs 256 1 sampleQuery 4 shrunkStore)

/-- One sample taken while the performance counter reads 0. -/
def zeroClockRun : List Advance :=
  [{ numberOfProcessors := 1, q := sampleQuery, Counter := 0 }]

/-- The store after `zeroClockRun` from the zeroed store. -/
def zeroClockStore : PerfObj :=
  storeOf (runAdvances 256 zeroClockRun zeroPerfObj)

/-- Three samples, of two, two and one processors. -/
def sampleRun : List Advance :=
  [{ numberOfProcessors := 2, q := zeroQuery2, Counter := 1 },
   { numberOfProcessors := 2, q := countQuery2, Counter := 2 },
   { numberOfProcessors := 1, q := sampleQuery, Counter := 3 }]

/-- An answer for one processor with idle and user time `2 ^ 62` and a reported
kernel time `2 ^ 62`, all of it idle. -/
def bigQuery : QueryResult :=
  { status := 0, returnLength := 48,
    info := fun _ =>
      { IdleTime := 4611686018427387904, KernelTime := 4611686018427387904,
        UserTime := 4611686018427387904, DpcTime := 0, InterruptTime := 0,
        InterruptCount := 0 } }

/-- The store after `bigQuery` taken from the zeroed store. -/
def bigStore : PerfObj :=
  storeOf (RestartPerfCntrs 256 1 bigQuery 1 zeroPerfObj)

/-- An answer for one processor with idle 1, kernel 1 (all of it idle) and user 5. -/
def sixthQuery : QueryResult :=
  { status := 0, returnLength := 48,
    info := fun _ =>
      { IdleTime := 1, KernelTime := 1, UserTime := 5, DpcTime := 0, InterruptTime := 0,
        InterruptCount := 0 } }

/-- The store after `sixthQuery` taken from the zeroed store: idle 1 out of a total
of 6. -/
def sixthStore : PerfObj :=
  storeOf (RestartPerfCntrs 256 1 sixthQuery 1 zeroPerfObj)

/-- The store after one sample taken from the zeroed store while the performance
counter reads 1000. -/
def tenthStore : PerfObj :=
  storeOf (RestartPerfCntrs 256 1 sampleQuery 1000 zeroPerfObj)

/-! ## Machine integers: lemmas -/

theorem i64_def (x : Int) :
    i64 x = (x + 9223372036854775808) % 18446744073709551616 - 9223372036854775808 := by
  unfold i64 wrapS; norm_num

theorem i32_def (x : Int) : i32 x = (x + 2147483648) % 4294967296 - 2147483648 := by
  unfold i32 wrapS; norm_num

theorem i64_of_inRange (x : Int) (h1 : -(2 : Int) ^ 63 ≤ x) (h2 : x < 2 ^ 63) : i64 x = x := by
  rw [i64_def]; norm_num at h1 h2; omega

theorem i32_of_inRange (x : Int) (h1 : -(2 : Int) ^ 31 ≤ x) (h2 : x < 2 ^ 31) : i32 x = x := by
  rw [i32_def]; norm_num at h1 h2; omega

theorem i64_zero : i64 0 = 0 := by rw [i64_def]; norm_num

theorem i32_zero : i32 0 = 0 := by rw [i32_def]; norm_num

theorem i32_toNat_le (n : Nat) : (i32 (n : Int)).toNat ≤ n := by
  rw [i32_def]; omega

/-! ## Floating point values: lemmas -/

theorem roundHalfEven_intCast (n : Int) : roundHalfEven (n : ℚ) = n := by
  unfold roundHalfEven
  simp

theorem roundHalfEven_eq_of_near (z : ℚ) (n : Int) (h : |z - n| < 1 / 2) :
    roundHalfEven z = n := by
  rw [abs_lt] at h
  unfold roundHalfEven
  have hfl := Int.floor_le z
  have hlt := Int.lt_floor_add_one z
  by_cases h1 : z - ⌊z⌋ < 1 / 2
  · rw [if_pos h1]
    have : (⌊z⌋ : ℚ) - n < 1 := by linarith
    have : (n : ℚ) - ⌊z⌋ < 1 := by linarith
    have a : ⌊z⌋ - n < 1 := by exact_mod_cast ‹(⌊z⌋ : ℚ) - n < 1›
    have b : n - ⌊z⌋ < 1 := by exact_mod_cast ‹(n : ℚ) - ⌊z⌋ < 1›
    omega
  · rw [if_neg h1]
    have h2 : 1 / 2 < z - ⌊z⌋ := by
      rcases lt_or_eq_of_le (not_lt.mp h1) with h2 | h2
      · exact h2
      · exfalso
        -- z = floor + 1/2, then |z - n| < 1/2 impossible
        have hz : z = ⌊z⌋ + 1 / 2 := by linarith
        have a1 : ((⌊z⌋ : ℚ) - n) < 0 := by linarith [h.2]
        have a2 : (-1 : ℚ) < (⌊z⌋ : ℚ) - n := by linarith [h.1]
        have b1 : ⌊z⌋ - n < 0 := by exact_mod_cast a1
        have b2 : -1 < ⌊z⌋ - n := by exact_mod_cast a2
        omega
    rw [if_pos h2]
    have a1 : ((⌊z⌋ : ℚ) + 1 - n) < 1 := by linarith [h.2]
    have a2 : (-1 : ℚ) < (⌊z⌋ : ℚ) + 1 - n := by linarith [h.1]
    have b1 : ⌊z⌋ + 1 - n < 1 := by exact_mod_cast a1
    have b2 : -1 < ⌊z⌋ + 1 - n := by exact_mod_cast a2
    omega

theorem roundHalfEven_sub_le (z : ℚ) : |(roundHalfEven z : ℚ) - z| ≤ 1 / 2 := by
  unfold roundHalfEven
  have hfl := Int.floor_le z
  have hlt := Int.lt_floor_add_one z
  rw [abs_le]
  split_ifs with h1 h2 h3
  · constructor <;> linarith
  · push_cast; constructor <;> linarith
  · have : z - ⌊z⌋ = 1 / 2 := le_antisymm (not_lt.mp h2) (not_lt.mp h1)
    constructor <;> linarith
  · have : z - ⌊z⌋ = 1 / 2 := le_antisymm (not_lt.mp h2) (not_lt.mp h1)
    push_cast; constructor <;> linarith

theorem roundHalfEven_mono {x y : ℚ} (h : x ≤ y) : roundHalfEven x ≤ roundHalfEven y := by
  have hf : ⌊x⌋ ≤ ⌊y⌋ := Int.floor_mono h
  have hx1 : roundHalfEven x ≤ ⌊x⌋ + 1 := by
    unfold roundHalfEven; split_ifs <;> omega
  have hy0 : ⌊y⌋ ≤ roundHalfEven y := by
    unfold roundHalfEven; split_ifs <;> omega
  rcases lt_or_eq_of_le hf with hlt | heq
  · omega
  · unfold roundHalfEven
    rw [heq]
    have hd : x - ⌊y⌋ ≤ y - ⌊y⌋ := by linarith
    split_ifs <;> first | omega | (exfalso; linarith)


theorem two_zpow_pos (e : Int) : (0 : ℚ) < 2 ^ e := zpow_pos (by norm_num) e

theorem log_two_eq (r : ℚ) (E : Int) (hr : 0 < r) (h1 : 2 ^ E ≤ r) (h2 : r < 2 ^ (E + 1)) :
    Int.log 2 r = E := by
  have a : E ≤ Int.log 2 r := by
    rw [← Int.zpow_le_iff_le_log (by norm_num) hr]
    simpa using h1
  have b : Int.log 2 r < E + 1 := by
    rw [← Int.lt_zpow_iff_log_lt (by norm_num) hr]
    simpa using h2
  omega

theorem zpow_log_le (r : ℚ) (hr : 0 < r) : (2 : ℚ) ^ Int.log 2 r ≤ r := by
  have := Int.zpow_log_le_self (b := 2) (r := r) (by norm_num) hr
  simpa using this

theorem lt_zpow_log_succ (r : ℚ) : r < (2 : ℚ) ^ (Int.log 2 r + 1) := by
  have := Int.lt_zpow_succ_log_self (b := 2) (by norm_num) r
  simpa using this

theorem roundRaw_zero (prec : Nat) (emin : Int) : roundRaw prec emin 0 = 0 := by
  unfold roundRaw
  simp [roundHalfEven]

/-- A value whose quotient by its unit in the last place is an integer is not changed. -/
theorem roundRaw_of_int (prec : Nat) (emin : Int) (q : ℚ) (m : Int)
    (h : q / 2 ^ ulpExp prec emin q = m) : roundRaw prec emin q = q := by
  unfold roundRaw
  rw [h, roundHalfEven_intCast, ← h]
  field_simp

/-- The quotient by the unit in the last place is below `2 ^ prec` in size. -/
theorem abs_quot_lt (prec : Nat) (emin : Int) (q : ℚ) (hq : q ≠ 0) :
    |q / 2 ^ ulpExp prec emin q| < 2 ^ prec := by
  have hpos : 0 < |q| := abs_pos.mpr hq
  have h1 := lt_zpow_log_succ |q|
  have h2 : (2 : ℚ) ^ (Int.log 2 |q| + 1) ≤ 2 ^ (max (Int.log 2 |q|) emin + 1) :=
    zpow_le_zpow_right₀ (by norm_num) (by omega)
  have h3 : (2 : ℚ) ^ (max (Int.log 2 |q|) emin + 1)
      = 2 ^ (prec : ℤ) * 2 ^ ulpExp prec emin q := by
    rw [← zpow_add₀ (by norm_num : (2 : ℚ) ≠ 0)]
    congr 1
    unfold ulpExp
    ring
  rw [abs_div, abs_of_pos (two_zpow_pos _), div_lt_iff₀ (two_zpow_pos _), ← zpow_natCast, ← h3]
  exact lt_of_lt_of_le h1 h2


/-- A multiple `n * 2 ^ e0` with `|n| ≤ 2 ^ prec` and `e0` not below the least
exponent is representable: rounding does not change it. -/
theorem roundRaw_dyadic (prec : Nat) (emin : Int) (hp : 1 ≤ prec) (n e0 : Int)
    (hn : |n| ≤ 2 ^ prec) (he : emin - ((prec : Int) - 1) ≤ e0) :
    roundRaw prec emin ((n : ℚ) * 2 ^ e0) = (n : ℚ) * 2 ^ e0 := by
  by_cases hn0 : n = 0
  · subst hn0; simp [roundRaw_zero]
  have h2 : (2 : ℚ) ≠ 0 := by norm_num
  have hq : (n : ℚ) * 2 ^ e0 ≠ 0 :=
    mul_ne_zero (by exact_mod_cast hn0) (ne_of_gt (two_zpow_pos e0))
  have habs : |(n : ℚ) * 2 ^ e0| = (|n| : ℤ) * 2 ^ e0 := by
    rw [abs_mul, abs_of_pos (two_zpow_pos e0)]; push_cast; rfl
  have hpos : 0 < |(n : ℚ) * 2 ^ e0| := abs_pos.mpr hq
  rcases lt_or_eq_of_le hn with hlt | heq
  · -- below the next power of two
    have hltq : ((|n| : ℤ) : ℚ) < 2 ^ (prec : ℤ) := by
      rw [zpow_natCast]; exact_mod_cast hlt
    have hL : Int.log 2 |(n : ℚ) * 2 ^ e0| < prec + e0 := by
      rw [← Int.lt_zpow_iff_log_lt (by norm_num) hpos, habs]
      simp only [Nat.cast_ofNat]
      rw [zpow_add₀ h2]
      exact mul_lt_mul_of_pos_right hltq (two_zpow_pos e0)
    have hu : ulpExp prec emin ((n : ℚ) * 2 ^ e0) ≤ e0 := by
      unfold ulpExp
      have : max (Int.log 2 |(n : ℚ) * 2 ^ e0|) emin ≤ prec + e0 - 1 := max_le (by omega) (by omega)
      omega
    obtain ⟨k, hk⟩ := Int.eq_ofNat_of_zero_le (sub_nonneg.mpr hu)
    apply roundRaw_of_int prec emin _ (n * 2 ^ k)
    rw [mul_div_assoc, ← zpow_sub₀ h2, hk, zpow_natCast]
    push_cast; rfl
  · -- exactly the next power of two
    have heqq : ((|n| : ℤ) : ℚ) = 2 ^ (prec : ℤ) := by
      rw [zpow_natCast]; exact_mod_cast heq
    have hval : |(n : ℚ) * 2 ^ e0| = 2 ^ ((prec : ℤ) + e0) := by
      rw [habs, heqq, zpow_add₀ h2]
    have hL : Int.log 2 |(n : ℚ) * 2 ^ e0| = prec + e0 := by
      apply log_two_eq _ _ hpos
      · rw [hval]
      · rw [hval]; exact zpow_lt_zpow_right₀ (by norm_num) (by omega)
    have hu : ulpExp prec emin ((n : ℚ) * 2 ^ e0) = e0 + 1 := by
      unfold ulpExp
      rw [hL, max_eq_left (by omega)]
      ring
    have hdvd : (2 : ℤ) ∣ n := by
      have h1 : (2 : ℤ) ∣ |n| := by
        rw [heq]; exact dvd_pow_self 2 (by omega)
      exact (dvd_abs 2 n).mp h1
    obtain ⟨m, hm⟩ := hdvd
    apply roundRaw_of_int prec emin _ m
    rw [hu, zpow_add₀ h2, hm]
    push_cast
    field_simp
    ring

theorem roundHalfEven_abs_le (z : ℚ) (B : Int) (h : |z| ≤ B) : |roundHalfEven z| ≤ B := by
  rw [abs_le] at h ⊢
  constructor
  · have := roundHalfEven_mono h.1
    have e : roundHalfEven (-(B : ℚ)) = -B := by
      have := roundHalfEven_intCast (-B)
      push_cast at this
      exact this
    rw [e] at this
    exact this
  · have := roundHalfEven_mono h.2
    rw [roundHalfEven_intCast] at this
    exact this

theorem roundHalfEven_quot_le (prec : Nat) (emin : Int) (q : ℚ) :
    |roundHalfEven (q / 2 ^ ulpExp prec emin q)| ≤ 2 ^ prec := by
  by_cases hq : q = 0
  · subst hq
    simp [roundHalfEven]
  · have h := abs_quot_lt prec emin q hq
    have := roundHalfEven_abs_le (q / 2 ^ ulpExp prec emin q) (2 ^ prec) (by
      push_cast; exact h.le)
    exact this

theorem roundHalfEven_nonneg {z : ℚ} (h : 0 ≤ z) : 0 ≤ roundHalfEven z := by
  have := roundHalfEven_mono h
  have e : roundHalfEven (0 : ℚ) = 0 := by
    have := roundHalfEven_intCast 0
    simpa using this
  rw [e] at this
  exact this

theorem roundRaw_nonneg (prec : Nat) (emin : Int) {q : ℚ} (h : 0 ≤ q) :
    0 ≤ roundRaw prec emin q := by
  unfold roundRaw
  apply mul_nonneg
  · have := roundHalfEven_nonneg (div_nonneg h (two_zpow_pos (ulpExp prec emin q)).le)
    exact_mod_cast this
  · exact (two_zpow_pos _).le

/-- A rounded positive value does not exceed the power of two above it. -/
theorem roundRaw_le_top (prec : Nat) (emin : Int) (q : ℚ) :
    roundRaw prec emin q ≤ 2 ^ (max (Int.log 2 |q|) emin + 1) := by
  have h2 : (2 : ℚ) ≠ 0 := by norm_num
  have hn := roundHalfEven_quot_le prec emin q
  have hn' : (roundHalfEven (q / 2 ^ ulpExp prec emin q) : ℚ) ≤ 2 ^ (prec : ℤ) := by
    rw [zpow_natCast]
    have := (abs_le.mp hn).2
    exact_mod_cast this
  have e : (2 : ℚ) ^ (max (Int.log 2 |q|) emin + 1)
      = 2 ^ (prec : ℤ) * 2 ^ ulpExp prec emin q := by
    rw [← zpow_add₀ h2]
    congr 1
    unfold ulpExp
    ring
  rw [e]
  unfold roundRaw
  exact mul_le_mul_of_nonneg_right hn' (two_zpow_pos _).le

/-- A rounded normal positive value is not below the power of two under it. -/
theorem roundRaw_ge_bot (prec : Nat) (emin : Int) (hp : 1 ≤ prec) (q : ℚ) (hq : 0 < q)
    (hnorm : emin ≤ Int.log 2 |q|) : 2 ^ Int.log 2 |q| ≤ roundRaw prec emin q := by
  have h2 : (2 : ℚ) ≠ 0 := by norm_num
  have hu : ulpExp prec emin q = Int.log 2 |q| - ((prec : ℤ) - 1) := by
    unfold ulpExp; rw [max_eq_left hnorm]
  obtain ⟨k, hk⟩ : ∃ k : ℕ, (prec : ℤ) - 1 = k := ⟨prec - 1, by omega⟩
  have hlow : (2 : ℚ) ^ Int.log 2 |q| ≤ q := by
    have := zpow_log_le |q| (abs_pos.mpr (ne_of_gt hq))
    rwa [abs_of_pos hq] at this ⊢
  have e : (2 : ℚ) ^ Int.log 2 |q| = ((2 ^ k : ℤ) : ℚ) * 2 ^ ulpExp prec emin q := by
    push_cast
    rw [← zpow_natCast, ← zpow_add₀ h2, hu, ← hk]
    congr 1; ring
  have hz : ((2 ^ k : ℤ) : ℚ) ≤ q / 2 ^ ulpExp prec emin q := by
    rw [le_div_iff₀ (two_zpow_pos _), ← e]
    exact hlow
  have hr := roundHalfEven_mono hz
  rw [roundHalfEven_intCast] at hr
  rw [e]
  unfold roundRaw
  apply mul_le_mul_of_nonneg_right _ (two_zpow_pos _).le
  exact_mod_cast hr

/-- Rounding is monotone on the non-negative numbers. -/
theorem roundRaw_mono (prec : Nat) (emin : Int) (hp : 1 ≤ prec) {x y : ℚ} (hx : 0 ≤ x)
    (hxy : x ≤ y) : roundRaw prec emin x ≤ roundRaw prec emin y := by
  rcases eq_or_lt_of_le hx with hx0 | hxpos
  · rw [← hx0, roundRaw_zero]
    exact roundRaw_nonneg prec emin (le_trans hx hxy)
  have hypos : 0 < y := lt_of_lt_of_le hxpos hxy
  have hL : Int.log 2 |x| ≤ Int.log 2 |y| := by
    rw [abs_of_pos hxpos, abs_of_pos hypos]
    exact Int.log_mono_right hxpos hxy
  have hM : max (Int.log 2 |x|) emin ≤ max (Int.log 2 |y|) emin := max_le_max hL (le_refl _)
  rcases eq_or_lt_of_le hM with heq | hlt
  · have hu : ulpExp prec emin x = ulpExp prec emin y := by
      unfold ulpExp; rw [heq]
    unfold roundRaw
    rw [hu]
    apply mul_le_mul_of_nonneg_right _ (two_zpow_pos _).le
    have := roundHalfEven_mono
      (div_le_div_of_nonneg_right hxy (two_zpow_pos (ulpExp prec emin y)).le)
    exact_mod_cast this
  · have hnorm : emin ≤ Int.log 2 |y| := by
      by_contra hc
      rw [max_eq_right (by omega)] at hlt
      have := le_max_right (Int.log 2 |x|) emin
      omega
    have hMy : max (Int.log 2 |y|) emin = Int.log 2 |y| := max_eq_left hnorm
    calc roundRaw prec emin x ≤ 2 ^ (max (Int.log 2 |x|) emin + 1) := roundRaw_le_top prec emin x
      _ ≤ 2 ^ Int.log 2 |y| := zpow_le_zpow_right₀ (by norm_num) (by omega)
      _ ≤ roundRaw prec emin y := roundRaw_ge_bot prec emin hp y hypos hnorm

/-- The rounding error is at most half a unit in the last place. -/
theorem roundRaw_error (prec : Nat) (emin : Int) (q : ℚ) :
    |roundRaw prec emin q - q| ≤ 2 ^ ulpExp prec emin q / 2 := by
  have h := roundHalfEven_sub_le (q / 2 ^ ulpExp prec emin q)
  have hpos := two_zpow_pos (ulpExp prec emin q)
  have e : roundRaw prec emin q - q
      = ((roundHalfEven (q / 2 ^ ulpExp prec emin q) : ℚ) - q / 2 ^ ulpExp prec emin q)
          * 2 ^ ulpExp prec emin q := by
    unfold roundRaw
    field_simp
  rw [e, abs_mul, abs_of_pos hpos]
  calc _ ≤ 1 / 2 * 2 ^ ulpExp prec emin q := mul_le_mul_of_nonneg_right h hpos.le
    _ = 2 ^ ulpExp prec emin q / 2 := by ring

/-- For a normal value the rounding error is at most `2 ^ (-prec)` of the value. -/
theorem roundRaw_rel_error (prec : Nat) (emin : Int) (q : ℚ) (hq : q ≠ 0)
    (hnorm : emin ≤ Int.log 2 |q|) :
    |roundRaw prec emin q - q| ≤ |q| * 2 ^ (-(prec : ℤ)) := by
  have h2 : (2 : ℚ) ≠ 0 := by norm_num
  have h := roundRaw_error prec emin q
  have hu : ulpExp prec emin q = Int.log 2 |q| - ((prec : ℤ) - 1) := by
    unfold ulpExp; rw [max_eq_left hnorm]
  have e : (2 : ℚ) ^ ulpExp prec emin q / 2 = 2 ^ Int.log 2 |q| * 2 ^ (-(prec : ℤ)) := by
    rw [hu, ← zpow_add₀ h2]
    have : Int.log 2 |q| - ((prec : ℤ) - 1) = (Int.log 2 |q| + -(prec : ℤ)) + 1 := by ring
    rw [this, zpow_add_one₀ h2]
    ring
  rw [e] at h
  exact le_trans h
    (mul_le_mul_of_nonneg_right (zpow_log_le |q| (abs_pos.mpr hq)) (two_zpow_pos _).le)

/-- The value of a rounding from the binade and the nearest multiple. -/
theorem roundRaw_eq_of_near (prec : Nat) (emin : Int) (q : ℚ) (E n : Int)
    (h1 : 2 ^ E ≤ |q|) (h2 : |q| < 2 ^ (E + 1))
    (hn : |q / 2 ^ (max E emin - ((prec : ℤ) - 1)) - n| < 1 / 2) :
    roundRaw prec emin q = (n : ℚ) * 2 ^ (max E emin - ((prec : ℤ) - 1)) := by
  have hpos : 0 < |q| := lt_of_lt_of_le (two_zpow_pos E) h1
  have hL := log_two_eq |q| E hpos h1 h2
  have hu : ulpExp prec emin q = max E emin - ((prec : ℤ) - 1) := by
    unfold ulpExp; rw [hL]
  unfold roundRaw
  rw [hu, roundHalfEven_eq_of_near _ n hn]

/-! ## Floating point values: the two formats -/

theorem roundNE_of_lt (prec : Nat) (emin emax : Int) (q : ℚ)
    (h : |roundRaw prec emin q| < 2 ^ (emax + 1)) :
    roundNE prec emin emax q = some (roundRaw prec emin q) := by
  unfold roundNE; rw [if_pos h]

theorem roundNE_eq_some (prec : Nat) (emin emax : Int) (q y : ℚ)
    (h : roundNE prec emin emax q = some y) :
    y = roundRaw prec emin q ∧ |roundRaw prec emin q| < 2 ^ (emax + 1) := by
  unfold roundNE at h
  split_ifs at h with hlt
  exact ⟨(Option.some.inj h).symm, hlt⟩

/-- A multiple `n * 2 ^ e0` with `|n| ≤ 2 ^ prec`, `e0` not below the least
exponent and a size below `2 ^ (emax + 1)` is a number of the format. -/
theorem roundNE_exact (prec : Nat) (emin emax : Int) (hp : 1 ≤ prec) (q : ℚ) (n e0 : Int)
    (hq : q = (n : ℚ) * 2 ^ e0) (hn : |n| ≤ 2 ^ prec)
    (he : emin - ((prec : Int) - 1) ≤ e0) (hfin : |q| < 2 ^ (emax + 1)) :
    roundNE prec emin emax q = some q := by
  have h := roundRaw_dyadic prec emin hp n e0 hn he
  rw [← hq] at h
  unfold roundNE
  rw [h, if_pos hfin]

/-- Rounding is monotone on the non-negative numbers and keeps finite what is
below a finite result. -/
theorem roundNE_mono (prec : Nat) (emin emax : Int) (hp : 1 ≤ prec) {x y y' : ℚ}
    (hx : 0 ≤ x) (hxy : x ≤ y) (hy : roundNE prec emin emax y = some y') :
    ∃ x', roundNE prec emin emax x = some x' ∧ 0 ≤ x' ∧ x' ≤ y' := by
  obtain ⟨hy', hlt⟩ := roundNE_eq_some prec emin emax y y' hy
  have h0 := roundRaw_nonneg prec emin hx
  have hm := roundRaw_mono prec emin hp hx hxy
  have hy0 := roundRaw_nonneg prec emin (le_trans hx hxy)
  refine ⟨roundRaw prec emin x, ?_, h0, by rw [hy']; exact hm⟩
  apply roundNE_of_lt
  rw [abs_of_nonneg h0]
  rw [abs_of_nonneg hy0] at hlt
  exact lt_of_le_of_lt hm hlt

theorem rnd64_exact (q : ℚ) (n e0 : Int) (hq : q = (n : ℚ) * 2 ^ e0)
    (hn : |n| ≤ 2 ^ 53) (he : -1074 ≤ e0) (hfin : |q| < 2 ^ (1024 : ℤ)) :
    rnd64 q = some q :=
  roundNE_exact 53 (-1022) 1023 (by decide) q n e0 hq hn (by norm_num; omega)
    (by norm_num at hfin ⊢; exact hfin)

theorem rnd32_exact (q : ℚ) (n e0 : Int) (hq : q = (n : ℚ) * 2 ^ e0)
    (hn : |n| ≤ 2 ^ 24) (he : -149 ≤ e0) (hfin : |q| < 2 ^ (128 : ℤ)) :
    rnd32 q = some q :=
  roundNE_exact 24 (-126) 127 (by decide) q n e0 hq hn (by norm_num; omega)
    (by norm_num at hfin ⊢; exact hfin)

/-- An integer of at most 53 bits is a `double`. -/
theorem rnd64_int (k : Int) (hk : |k| ≤ 2 ^ 53) : rnd64 (k : ℚ) = some (k : ℚ) := by
  apply rnd64_exact (k : ℚ) k 0 (by simp) hk (by norm_num)
  have h1 : |(k : ℚ)| ≤ 2 ^ 53 := by exact_mod_cast hk
  have h2 : (2 : ℚ) ^ 53 < 2 ^ (1024 : ℤ) := by norm_num
  exact lt_of_le_of_lt h1 h2

/-- An integer of at most 24 bits is a `float`. -/
theorem rnd32_int (k : Int) (hk : |k| ≤ 2 ^ 24) : rnd32 (k : ℚ) = some (k : ℚ) := by
  apply rnd32_exact (k : ℚ) k 0 (by simp) hk (by norm_num)
  have h1 : |(k : ℚ)| ≤ 2 ^ 24 := by exact_mod_cast hk
  have h2 : (2 : ℚ) ^ 24 < 2 ^ (128 : ℤ) := by norm_num
  exact lt_of_le_of_lt h1 h2

theorem rnd64_zero : rnd64 0 = some 0 := by
  have := rnd64_int 0 (by norm_num)
  simpa using this

theorem rnd32_one : rnd32 1 = some 1 := by
  have := rnd32_int 1 (by norm_num)
  simpa using this

theorem F64.ofInt_zero : F64.ofInt 0 = some 0 := by
  unfold F64.ofInt
  simpa using rnd64_zero

theorem F64.div_zero (a : Dbl) : F64.div a (some 0) = none := by
  cases a <;> simp [F64.div]

theorem F64.mul_none (a : Dbl) : F64.mul a none = none := by
  cases a <;> rfl

theorem F64.sub_none (a : Dbl) : F64.sub a none = none := by
  cases a <;> rfl

/-- The rounding error is at most `2 ^ (-prec)` of the size of the value, taken
not smaller than the least normal number. -/
theorem roundRaw_abs_error (prec : Nat) (emin : Int) (q : ℚ) :
    |roundRaw prec emin q - q| ≤ (|q| + 2 ^ emin) * 2 ^ (-(prec : ℤ)) := by
  by_cases hq : q = 0
  · subst hq
    rw [roundRaw_zero]
    simp only [sub_self, abs_zero, zero_add]
    exact (mul_pos (two_zpow_pos _) (two_zpow_pos _)).le
  have h2 : (2 : ℚ) ≠ 0 := by norm_num
  have h := roundRaw_error prec emin q
  have e : (2 : ℚ) ^ ulpExp prec emin q / 2
      = 2 ^ max (Int.log 2 |q|) emin * 2 ^ (-(prec : ℤ)) := by
    unfold ulpExp
    rw [← zpow_add₀ h2]
    have : max (Int.log 2 |q|) emin - ((prec : ℤ) - 1)
        = (max (Int.log 2 |q|) emin + -(prec : ℤ)) + 1 := by ring
    rw [this, zpow_add_one₀ h2]
    ring
  rw [e] at h
  refine le_trans h (mul_le_mul_of_nonneg_right ?_ (two_zpow_pos _).le)
  rcases le_total (Int.log 2 |q|) emin with hle | hle
  · rw [max_eq_right hle]
    linarith [abs_nonneg q]
  · rw [max_eq_left hle]
    have := zpow_log_le |q| (abs_pos.mpr hq)
    linarith [two_zpow_pos emin]

/-- A value of size at least the least normal number has its binary logarithm at
least the least exponent. -/
theorem log_ge_of_le (emin : Int) (q : ℚ) (h : 2 ^ emin ≤ |q|) : emin ≤ Int.log 2 |q| := by
  have hpos : 0 < |q| := lt_of_lt_of_le (two_zpow_pos emin) h
  exact (Int.zpow_le_iff_le_log (R := ℚ) (b := 2) (by norm_num) hpos).mp (by exact_mod_cast h)

/-- Rounding to `double` of a value of moderate size: the result is finite and
within `2 ^ (-53)` of the size of the value, taken not smaller than `2 ^ (-1022)`. -/
theorem rnd64_abs (q : ℚ) (h : |q| ≤ 2 ^ 1000) :
    ∃ y, rnd64 q = some y ∧ |y - q| ≤ (|q| + 1 / 2 ^ 1022) / 2 ^ 53 := by
  have he := roundRaw_abs_error 53 (-1022) q
  have e1 : ((2 : ℚ) ^ (-1022 : ℤ)) = 1 / 2 ^ 1022 := by
    rw [show (-1022 : ℤ) = -((1022 : ℕ) : ℤ) by rfl, zpow_neg, zpow_natCast, one_div]
  have e2 : ((2 : ℚ) ^ (-((53 : ℕ) : ℤ))) = 1 / 2 ^ 53 := by
    rw [zpow_neg, zpow_natCast, one_div]
  rw [e1, e2] at he
  have he2 : |roundRaw 53 (-1022) q - q| ≤ (|q| + 1 / 2 ^ 1022) / 2 ^ 53 := by
    rw [div_eq_mul_one_div]; exact he
  refine ⟨roundRaw 53 (-1022) q, ?_, he2⟩
  apply roundNE_of_lt
  have h3 : |roundRaw 53 (-1022) q| ≤ |q| + |roundRaw 53 (-1022) q - q| := by
    have := abs_add q (roundRaw 53 (-1022) q - q)
    simpa using this
  have h4 : (|q| + 1 / 2 ^ 1022) / 2 ^ 53 ≤ (2 ^ 1000 + 1 : ℚ) := by
    have : (|q| + 1 / 2 ^ 1022) / 2 ^ 53 ≤ |q| + 1 := by
      rw [div_le_iff₀ (by positivity)]
      have h5 : (1 : ℚ) / 2 ^ 1022 ≤ 1 := by
        rw [div_le_iff₀ (by positivity)]; norm_num
      nlinarith [abs_nonneg q]
    linarith
  have h6 : (2 ^ 1000 + (2 ^ 1000 + 1) : ℚ) < 2 ^ ((1023 : ℤ) + 1) := by norm_num
  linarith

/-- Rounding to `double` of zero or of a value of normal size: the result is finite
and within `2 ^ (-53)` of the size of the value. -/
theorem rnd64_rel (q : ℚ) (hq : q = 0 ∨ 1 / 2 ^ 1022 ≤ |q|) (h : |q| ≤ 2 ^ 1000) :
    ∃ y, rnd64 q = some y ∧ |y - q| ≤ |q| / 2 ^ 53 := by
  obtain ⟨y, hy, -⟩ := rnd64_abs q h
  refine ⟨y, hy, ?_⟩
  obtain ⟨hy', -⟩ := roundNE_eq_some 53 (-1022) 1023 q y hy
  rw [hy']
  rcases hq with hq | hq
  · subst hq; rw [roundRaw_zero]; simp
  · have e1 : ((2 : ℚ) ^ (-1022 : ℤ)) = 1 / 2 ^ 1022 := by
      rw [show (-1022 : ℤ) = -((1022 : ℕ) : ℤ) by rfl, zpow_neg, zpow_natCast, one_div]
    have e2 : ((2 : ℚ) ^ (-((53 : ℕ) : ℤ))) = 1 / 2 ^ 53 := by
      rw [zpow_neg, zpow_natCast, one_div]
    have hpos : 0 < |q| := lt_of_lt_of_le (by positivity) hq
    have hr := roundRaw_rel_error 53 (-1022) q (abs_pos.mp hpos)
      (log_ge_of_le (-1022) q (by rw [e1]; exact hq))
    rw [e2] at hr
    rw [div_eq_mul_one_div]; exact hr

/-- The value of a rounding to `double`, from the binade of the argument and the
nearest multiple of the unit in the last place. -/
theorem rnd64_of_near (q v : ℚ) (E n : Int) (h1 : 2 ^ E ≤ |q|) (h2 : |q| < 2 ^ (E + 1))
    (hn : |q / 2 ^ (max E (-1022) - 52) - n| < 1 / 2)
    (hv : v = (n : ℚ) * 2 ^ (max E (-1022) - 52)) (hfin : |v| < 2 ^ (1024 : ℤ)) :
    rnd64 q = some v := by
  have h := roundRaw_eq_of_near 53 (-1022) q E n h1 h2 (by simpa using hn)
  have e : roundRaw 53 (-1022) q = v := by
    rw [h, hv]; simp
  unfold rnd64 roundNE
  rw [e, if_pos (by simpa using hfin)]

/-- The value of a rounding to `float`, from the binade of the argument and the
nearest multiple of the unit in the last place. -/
theorem rnd32_of_near (q v : ℚ) (E n : Int) (h1 : 2 ^ E ≤ |q|) (h2 : |q| < 2 ^ (E + 1))
    (hn : |q / 2 ^ (max E (-126) - 23) - n| < 1 / 2)
    (hv : v = (n : ℚ) * 2 ^ (max E (-126) - 23)) (hfin : |v| < 2 ^ (128 : ℤ)) :
    rnd32 q = some v := by
  have h := roundRaw_eq_of_near 24 (-126) q E n h1 h2 (by simpa using hn)
  have e : roundRaw 24 (-126) q = v := by
    rw [h, hv]; simp
  unfold rnd32 roundNE
  rw [e, if_pos (by simpa using hfin)]

theorem rnd64_tenth : rnd64 (1 / 10) = some (3602879701896397 / 36028797018963968) :=
  rnd64_of_near _ _ (-4) 7205759403792794 (by norm_num [abs_of_pos])
    (by norm_num [abs_of_pos]) (by norm_num [abs_lt]) (by norm_num)
    (by norm_num [abs_of_pos])

theorem rnd64_sixth : rnd64 (1 / 6) = some (6004799503160661 / 36028797018963968) :=
  rnd64_of_near _ _ (-3) 6004799503160661 (by norm_num [abs_of_pos])
    (by norm_num [abs_of_pos]) (by norm_num [abs_lt]) (by norm_num)
    (by norm_num [abs_of_pos])

theorem rnd64_five_sixths :
    rnd64 (1 - 6004799503160661 / 36028797018963968)
      = some (7505999378950827 / 9007199254740992) :=
  rnd64_of_near _ _ (-1) 7505999378950827 (by norm_num [abs_of_pos])
    (by norm_num [abs_of_pos]) (by norm_num [abs_lt]) (by norm_num)
    (by norm_num [abs_of_pos])

theorem rnd64_busy_sixth :
    rnd64 (100 * (7505999378950827 / 9007199254740992))
      = some (5864062014805334 / 70368744177664) :=
  rnd64_of_near _ _ 6 5864062014805334 (by norm_num [abs_of_pos])
    (by norm_num [abs_of_pos]) (by norm_num [abs_lt]) (by norm_num)
    (by norm_num [abs_of_pos])

theorem rnd64_user_sixth :
    rnd64 (500 / 6) = some (5864062014805333 / 70368744177664) :=
  rnd64_of_near _ _ 6 5864062014805333 (by norm_num [abs_of_pos])
    (by norm_num [abs_of_pos]) (by norm_num [abs_lt]) (by norm_num)
    (by norm_num [abs_of_pos])

theorem rnd32_third : rnd32 (1 / 3) = some (11184811 / 33554432) :=
  rnd32_of_near _ _ (-2) 11184811 (by norm_num [abs_of_pos])
    (by norm_num [abs_of_pos]) (by norm_num [abs_lt]) (by norm_num)
    (by norm_num [abs_of_pos])

theorem rnd32_four_thirds : rnd32 (1 + 11184811 / 33554432) = some (11184811 / 8388608) :=
  rnd32_of_near _ _ 0 11184811 (by norm_num [abs_of_pos])
    (by norm_num [abs_of_pos]) (by norm_num [abs_lt]) (by norm_num)
    (by norm_num [abs_of_pos])

theorem rnd32_two_thirds_of_100 :
    rnd32 (50 * (11184811 / 8388608)) = some (4369067 / 65536) :=
  rnd32_of_near _ _ 6 8738134 (by norm_num [abs_of_pos])
    (by norm_num [abs_of_pos]) (by norm_num [abs_lt]) (by norm_num)
    (by norm_num [abs_of_pos])

theorem rnd32_below_top :
    rnd32 (170141183460469231731687303715884105728 - 1 / 2)
      = some 170141183460469231731687303715884105728 :=
  rnd32_of_near _ _ 126 16777216 (by norm_num [abs_of_pos])
    (by norm_num [abs_of_pos]) (by norm_num [abs_lt]) (by norm_num)
    (by norm_num [abs_of_pos])

/-- The quotient `2 ^ 127 / 0.5` is beyond the `float` range. -/
theorem rnd32_overflow : rnd32 (170141183460469231731687303715884105728 / (1 / 2)) = none := by
  have h := roundRaw_dyadic 24 (-126) (by decide) 1 128 (by norm_num) (by norm_num)
  have e : (170141183460469231731687303715884105728 / (1 / 2) : ℚ)
      = ((1 : Int) : ℚ) * 2 ^ (128 : ℤ) := by norm_num
  unfold rnd32 roundNE
  rw [e, h, if_neg]
  norm_num

/-! ## Floating point values: accumulated error -/

/-- A relative error of `ε1` on top of a relative error of `ε2`. -/
theorem rel_trans {z y x ε1 ε2 : ℚ} (h1 : |z - y| ≤ |y| * ε1) (h2 : |y - x| ≤ |x| * ε2)
    (hε1 : 0 ≤ ε1) : |z - x| ≤ |x| * (ε1 + ε2 + ε1 * ε2) := by
  have hy : |y| ≤ |x| + |x| * ε2 := by
    have := abs_sub_abs_le_abs_sub y x
    linarith
  have h3 : |z - x| ≤ |z - y| + |y - x| := abs_sub_le z y x
  have h4 : |y| * ε1 ≤ (|x| + |x| * ε2) * ε1 := mul_le_mul_of_nonneg_right hy hε1
  nlinarith

/-- The size of an approximation from above. -/
theorem rel_abs_le {y q ε : ℚ} (h : |y - q| ≤ |q| * ε) : |y| ≤ |q| * (1 + ε) := by
  have := abs_sub_abs_le_abs_sub y q
  linarith

/-- The size of an approximation from below. -/
theorem rel_abs_ge {y q ε : ℚ} (h : |y - q| ≤ |q| * ε) : |q| * (1 - ε) ≤ |y| := by
  have := abs_sub_abs_le_abs_sub q y
  rw [abs_sub_comm q y] at this
  linarith

/-- The relative error of a product. -/
theorem rel_mul {a a0 b b0 ε1 ε2 : ℚ} (h1 : |a - a0| ≤ |a0| * ε1)
    (h2 : |b - b0| ≤ |b0| * ε2) :
    |a * b - a0 * b0| ≤ |a0 * b0| * (ε1 + ε2 + ε1 * ε2) := by
  have e : a * b - a0 * b0 = (a - a0) * b0 + a0 * (b - b0) + (a - a0) * (b - b0) := by ring
  have t1 : |(a - a0) * b0| ≤ |a0| * ε1 * |b0| := by
    rw [abs_mul]; exact mul_le_mul_of_nonneg_right h1 (abs_nonneg _)
  have t2 : |a0 * (b - b0)| ≤ |a0| * (|b0| * ε2) := by
    rw [abs_mul]; exact mul_le_mul_of_nonneg_left h2 (abs_nonneg _)
  have t3 : |(a - a0) * (b - b0)| ≤ |a0| * ε1 * (|b0| * ε2) := by
    rw [abs_mul]
    exact mul_le_mul h1 h2 (abs_nonneg _) (le_trans (abs_nonneg _) h1)
  have t4 := abs_add ((a - a0) * b0 + a0 * (b - b0)) ((a - a0) * (b - b0))
  have t5 := abs_add ((a - a0) * b0) (a0 * (b - b0))
  rw [e, abs_mul]
  nlinarith

/-- The relative error of a quotient; the approximate divisor is not zero. -/
theorem rel_div {a a0 b b0 ε1 ε2 : ℚ} (h1 : |a - a0| ≤ |a0| * ε1)
    (h2 : |b - b0| ≤ |b0| * ε2) (hb0 : b0 ≠ 0) (hε1 : 0 ≤ ε1) (hε20 : 0 ≤ ε2)
    (hε2 : ε2 < 1) :
    b ≠ 0 ∧ |a / b - a0 / b0| ≤ |a0 / b0| * ((ε1 + ε2) / (1 - ε2)) := by
  have hb0pos : 0 < |b0| := abs_pos.mpr hb0
  have hden : 0 < 1 - ε2 := by linarith
  have hbge : |b0| * (1 - ε2) ≤ |b| := rel_abs_ge h2
  have hbpos : 0 < |b| := lt_of_lt_of_le (mul_pos hb0pos hden) hbge
  have hb : b ≠ 0 := abs_pos.mp hbpos
  refine ⟨hb, ?_⟩
  have e : a / b - a0 / b0 = ((a - a0) * b0 - a0 * (b - b0)) / (b * b0) := by
    field_simp
    ring
  have t1 : |(a - a0) * b0| ≤ |a0| * ε1 * |b0| := by
    rw [abs_mul]; exact mul_le_mul_of_nonneg_right h1 (abs_nonneg _)
  have t2 : |a0 * (b - b0)| ≤ |a0| * (|b0| * ε2) := by
    rw [abs_mul]; exact mul_le_mul_of_nonneg_left h2 (abs_nonneg _)
  have t3 : |(a - a0) * b0 - a0 * (b - b0)| ≤ |(a - a0) * b0| + |a0 * (b - b0)| := by
    have := abs_add ((a - a0) * b0) (-(a0 * (b - b0)))
    rw [abs_neg] at this
    simpa [sub_eq_add_neg] using this
  have hnum : |(a - a0) * b0 - a0 * (b - b0)| ≤ |a0| * |b0| * (ε1 + ε2) := by
    nlinarith
  rw [e, abs_div, abs_mul, abs_div, div_le_iff₀ (mul_pos hbpos hb0pos)]
  have hz : 0 ≤ |a0| := abs_nonneg _
  have hs : 0 ≤ ε1 + ε2 := by linarith
  calc |(a - a0) * b0 - a0 * (b - b0)| ≤ |a0| * |b0| * (ε1 + ε2) := hnum
    _ = |a0| / |b0| * ((ε1 + ε2) / (1 - ε2)) * (|b0| * (1 - ε2) * |b0|) := by
        field_simp
        ring
    _ ≤ |a0| / |b0| * ((ε1 + ε2) / (1 - ε2)) * (|b| * |b0|) := by
        apply mul_le_mul_of_nonneg_left
        · exact mul_le_mul_of_nonneg_right hbge hb0pos.le
        · exact mul_nonneg (div_nonneg hz hb0pos.le) (div_nonneg hs hden.le)

/-- One rounding to `double` of an approximation `y` of `x`, where `x` is zero or of
a size between `L` and `2 ^ 999`: the result is finite and the relative error grows
by `2 ^ (-53)`. -/
theorem rnd64_step (y x ε L : ℚ) (h : |y - x| ≤ |x| * ε) (hε0 : 0 ≤ ε) (hε : ε ≤ 1 / 2)
    (hx : x = 0 ∨ L ≤ |x|) (hL : 1 / 2 ^ 1021 ≤ L) (hU : |x| ≤ 2 ^ 999) :
    ∃ z, rnd64 y = some z ∧ |z - x| ≤ |x| * (1 / 2 ^ 53 + ε + 1 / 2 ^ 53 * ε) := by
  have hup : |y| ≤ 2 ^ 1000 := by
    have := rel_abs_le h
    have h2 : |x| * (1 + ε) ≤ 2 ^ 999 * (1 + 1 / 2) :=
      mul_le_mul hU (by linarith) (by linarith) (by positivity)
    have h3 : (2 : ℚ) ^ 999 * (1 + 1 / 2) ≤ 2 ^ 1000 := by
      rw [pow_succ]; nlinarith [show (0 : ℚ) < 2 ^ 999 by positivity]
    linarith
  have hnorm : y = 0 ∨ 1 / 2 ^ 1022 ≤ |y| := by
    rcases hx with hx | hx
    · left
      rw [hx] at h
      simpa using h
    · right
      have hge := rel_abs_ge h
      have hLpos : (0 : ℚ) < 1 / 2 ^ 1021 := by positivity
      have h2 : L * (1 / 2) ≤ |x| * (1 - ε) :=
        mul_le_mul hx (by linarith) (by norm_num) (abs_nonneg _)
      have h3 : (1 : ℚ) / 2 ^ 1022 = 1 / 2 ^ 1021 * (1 / 2) := by
        rw [pow_succ]; field_simp
      rw [h3]
      nlinarith
  obtain ⟨z, hz, hzerr⟩ := rnd64_rel y hnorm hup
  refine ⟨z, hz, ?_⟩
  have hzerr' : |z - y| ≤ |y| * (1 / 2 ^ 53) := by
    rw [mul_one_div]; exact hzerr
  exact rel_trans hzerr' h (by positivity)

/-- The conversion `(double)k` of a 64-bit integer is finite, with a relative error
of at most `2 ^ (-53)`. -/
theorem F64.ofInt_rel (k : Int) (hk : |k| ≤ 2 ^ 63) :
    ∃ z, F64.ofInt k = some z ∧ |z - (k : ℚ)| ≤ |(k : ℚ)| * (1 / 2 ^ 53) := by
  have hq : |(k : ℚ)| ≤ 2 ^ 63 := by exact_mod_cast hk
  have hx : (k : ℚ) = 0 ∨ (1 : ℚ) ≤ |(k : ℚ)| := by
    by_cases h0 : k = 0
    · left; exact_mod_cast h0
    · right
      have : 1 ≤ |k| := Int.one_le_abs h0
      exact_mod_cast this
  have h63 : (2 : ℚ) ^ 63 ≤ 2 ^ 999 := pow_le_pow_right₀ (by norm_num) (by norm_num)
  have hL : (1 : ℚ) / 2 ^ 1021 ≤ 1 := by
    rw [div_le_iff₀ (by positivity)]
    have : (1 : ℚ) ≤ 2 ^ 1021 := one_le_pow₀ (by norm_num)
    linarith
  obtain ⟨z, hz, he⟩ := rnd64_step (k : ℚ) (k : ℚ) 0 1 (by simp) (le_refl _) (by norm_num) hx
    hL (le_trans hq h63)
  refine ⟨z, hz, ?_⟩
  simpa using he

/-- The `double` evaluation of `100.0 * (double)x / (double)T` for 64-bit integers
`x` and `T ≠ 0` is finite, with a relative error of at most `2 ^ (-50)`. -/
theorem pct_value_bound (x T : Int) (hx : |x| ≤ 2 ^ 63) (hT : |T| ≤ 2 ^ 63) (hT0 : T ≠ 0) :
    ∃ v : ℚ, F64.div (F64.mul (some 100) (F64.ofInt x)) (F64.ofInt T) = some v
      ∧ |v - 100 * (x : ℚ) / (T : ℚ)| ≤ |100 * (x : ℚ) / (T : ℚ)| / 2 ^ 50 := by
  obtain ⟨x', hx', ex⟩ := F64.ofInt_rel x hx
  obtain ⟨T', hT', eT⟩ := F64.ofInt_rel T hT
  have hxq : |(x : ℚ)| ≤ 2 ^ 63 := by exact_mod_cast hx
  have hTq : |(T : ℚ)| ≤ 2 ^ 63 := by exact_mod_cast hT
  have hT0q : (T : ℚ) ≠ 0 := by exact_mod_cast hT0
  have hT1 : (1 : ℚ) ≤ |(T : ℚ)| := by
    have : 1 ≤ |T| := Int.one_le_abs hT0
    exact_mod_cast this
  have hx1 : (x : ℚ) = 0 ∨ (1 : ℚ) ≤ |(x : ℚ)| := by
    by_cases h0 : x = 0
    · left; exact_mod_cast h0
    · right
      have : 1 ≤ |x| := Int.one_le_abs h0
      exact_mod_cast this
  have hL : (1 : ℚ) / 2 ^ 1021 ≤ 1 / 2 ^ 63 :=
    one_div_le_one_div_of_le (by positivity) (pow_le_pow_right₀ (by norm_num) (by norm_num))
  have hL1 : (1 : ℚ) / 2 ^ 63 ≤ 1 := by
    rw [div_le_iff₀ (by positivity)]
    have : (1 : ℚ) ≤ 2 ^ 63 := one_le_pow₀ (by norm_num)
    linarith
  have hbig : (100 : ℚ) * 2 ^ 63 ≤ 2 ^ 999 := by
    have h1 : (100 : ℚ) ≤ 2 ^ 7 := by norm_num
    have h2 : (2 : ℚ) ^ 7 * 2 ^ 63 ≤ 2 ^ 999 := by
      rw [← pow_add]; exact pow_le_pow_right₀ (by norm_num) (by norm_num)
    nlinarith [show (0 : ℚ) < 2 ^ 63 by positivity]
  -- the product 100 * x
  have e2 : |100 * x' - 100 * (x : ℚ)| ≤ |100 * (x : ℚ)| * (1 / 2 ^ 53) := by
    have h100e : |(100 : ℚ) - 100| ≤ |(100 : ℚ)| * 0 := by simp
    have := rel_mul h100e ex
    simpa using this
  have h100 : |100 * (x : ℚ)| = 100 * |(x : ℚ)| := by
    rw [abs_mul]; norm_num
  obtain ⟨m, hm, em⟩ := rnd64_step (100 * x') (100 * (x : ℚ)) (1 / 2 ^ 53) (1 / 2 ^ 63) e2
    (by positivity) (by norm_num)
    (by
      rcases hx1 with h | h
      · left; rw [h]; simp
      · right; rw [h100]; linarith)
    hL (by rw [h100]; linarith)
  have em' : |m - 100 * (x : ℚ)| ≤ |100 * (x : ℚ)| * (3 / 2 ^ 53) :=
    le_trans em (mul_le_mul_of_nonneg_left (by norm_num) (abs_nonneg _))
  -- the quotient by T
  obtain ⟨hT'0, e3⟩ := rel_div em' eT hT0q (by norm_num) (by norm_num) (by norm_num)
  have e3' : |m / T' - 100 * (x : ℚ) / (T : ℚ)| ≤ |100 * (x : ℚ) / (T : ℚ)| * (5 / 2 ^ 53) :=
    le_trans e3 (mul_le_mul_of_nonneg_left (by norm_num) (abs_nonneg _))
  have hq : |100 * (x : ℚ) / (T : ℚ)| = 100 * |(x : ℚ)| / |(T : ℚ)| := by
    rw [abs_div, h100]
  have hTpos : (0 : ℚ) < |(T : ℚ)| := by linarith
  obtain ⟨v, hv, ev⟩ := rnd64_step (m / T') (100 * (x : ℚ) / (T : ℚ)) (5 / 2 ^ 53)
    (1 / 2 ^ 63) e3' (by positivity) (by norm_num)
    (by
      rcases hx1 with h | h
      · left; rw [h]; simp
      · right
        rw [hq, div_le_div_iff₀ (by positivity) hTpos]
        nlinarith)
    hL
    (by
      rw [hq, div_le_iff₀ hTpos]
      nlinarith [show (0 : ℚ) < 2 ^ 999 by positivity])
  refine ⟨v, ?_, ?_⟩
  · simp only [hx', hT', F64.mul, hm, F64.div, if_neg hT'0, hv]
  · have h8 : (1 / 2 ^ 53 + 5 / 2 ^ 53 + 1 / 2 ^ 53 * (5 / 2 ^ 53) : ℚ) ≤ 1 / 2 ^ 50 := by
      norm_num
    have := le_trans ev (mul_le_mul_of_nonneg_left h8 (abs_nonneg _))
    rwa [mul_one_div] at this

/-- The `double` evaluation of `100.0 * (1.0 - (double)I / (double)T)` for 64-bit
integers `I` and `T ≠ 0` is finite and within `(1 + |I / T|) / 2 ^ 43` of the exact
value. -/
theorem busy_value_bound (I T : Int) (hI : |I| ≤ 2 ^ 63) (hT : |T| ≤ 2 ^ 63) (hT0 : T ≠ 0) :
    ∃ v : ℚ, F64.mul (some 100) (F64.sub (some 1) (F64.div (F64.ofInt I) (F64.ofInt T)))
        = some v
      ∧ |v - 100 * (1 - (I : ℚ) / (T : ℚ))| ≤ (1 + |(I : ℚ) / (T : ℚ)|) / 2 ^ 43 := by
  obtain ⟨I', hI', eI⟩ := F64.ofInt_rel I hI
  obtain ⟨T', hT', eT⟩ := F64.ofInt_rel T hT
  have hIq : |(I : ℚ)| ≤ 2 ^ 63 := by exact_mod_cast hI
  have hTq : |(T : ℚ)| ≤ 2 ^ 63 := by exact_mod_cast hT
  have hT0q : (T : ℚ) ≠ 0 := by exact_mod_cast hT0
  have hT1 : (1 : ℚ) ≤ |(T : ℚ)| := by
    have : 1 ≤ |T| := Int.one_le_abs hT0
    exact_mod_cast this
  have hI1 : (I : ℚ) = 0 ∨ (1 : ℚ) ≤ |(I : ℚ)| := by
    by_cases h0 : I = 0
    · left; exact_mod_cast h0
    · right
      have : 1 ≤ |I| := Int.one_le_abs h0
      exact_mod_cast this
  have hL : (1 : ℚ) / 2 ^ 1021 ≤ 1 / 2 ^ 63 :=
    one_div_le_one_div_of_le (by positivity) (pow_le_pow_right₀ (by norm_num) (by norm_num))
  have h63 : (2 : ℚ) ^ 63 ≤ 2 ^ 999 := pow_le_pow_right₀ (by norm_num) (by norm_num)
  have hTpos : (0 : ℚ) < |(T : ℚ)| := by linarith
  have hX : |(I : ℚ) / (T : ℚ)| = |(I : ℚ)| / |(T : ℚ)| := abs_div _ _
  have hXle : |(I : ℚ) / (T : ℚ)| ≤ 2 ^ 63 := by
    rw [hX, div_le_iff₀ hTpos]
    nlinarith [show (0 : ℚ) < 2 ^ 63 by positivity]
  -- the quotient
  obtain ⟨hT'0, e1⟩ := rel_div eI eT hT0q (by norm_num) (by norm_num) (by norm_num)
  have e1' : |I' / T' - (I : ℚ) / (T : ℚ)| ≤ |(I : ℚ) / (T : ℚ)| * (3 / 2 ^ 53) :=
    le_trans e1 (mul_le_mul_of_nonneg_left (by norm_num) (abs_nonneg _))
  obtain ⟨r, hr, er⟩ := rnd64_step (I' / T') ((I : ℚ) / (T : ℚ)) (3 / 2 ^ 53) (1 / 2 ^ 63) e1'
    (by positivity) (by norm_num)
    (by
      rcases hI1 with h | h
      · left; rw [h]; simp
      · right
        rw [hX, div_le_div_iff₀ (by positivity) hTpos]
        nlinarith)
    hL (le_trans hXle h63)
  have er' : |r - (I : ℚ) / (T : ℚ)| ≤ |(I : ℚ) / (T : ℚ)| * (5 / 2 ^ 53) :=
    le_trans er (mul_le_mul_of_nonneg_left (by norm_num) (abs_nonneg _))
  -- the difference and the product
  have hX0 : 0 ≤ |(I : ℚ) / (T : ℚ)| := abs_nonneg _
  have hE := abs_le.mp (le_refl |(I : ℚ) / (T : ℚ)|)
  have hr2 := abs_le.mp er'
  have h64 : (2 : ℚ) ^ 63 * 4 ≤ 2 ^ 999 := by
    have : (2 : ℚ) ^ 63 * 4 = 2 ^ 65 := by norm_num
    rw [this]; exact pow_le_pow_right₀ (by norm_num) (by norm_num)
  have h1r : |1 - r| ≤ 1 + 2 * |(I : ℚ) / (T : ℚ)| := by
    rw [abs_le]; constructor <;> linarith
  have h999 : (2 : ℚ) ^ 999 * 2 = 2 ^ 1000 := by rw [← pow_succ]
  have hpos999 : (0 : ℚ) < 2 ^ 999 := by positivity
  have h1 : (1 : ℚ) ≤ 2 ^ 63 := one_le_pow₀ (by norm_num)
  obtain ⟨s, hs, es⟩ := rnd64_abs (1 - r) (by linarith)
  have heta : (1 : ℚ) / 2 ^ 1022 ≤ 1 := by
    rw [div_le_iff₀ (by positivity)]
    have : (1 : ℚ) ≤ 2 ^ 1022 := one_le_pow₀ (by norm_num)
    linarith
  have es' : |s - (1 - r)| ≤ (2 + 2 * |(I : ℚ) / (T : ℚ)|) / 2 ^ 53 := by
    refine le_trans es ?_
    rw [div_le_div_iff_of_pos_right (by positivity)]
    linarith
  have hs2 := abs_le.mp es'
  have h53 : (0 : ℚ) < 2 ^ 53 := by positivity
  have hsabs : |s| ≤ 2 + 3 * |(I : ℚ) / (T : ℚ)| := by
    rw [abs_le]; constructor <;> linarith
  have h100s : |100 * s| ≤ 200 + 300 * |(I : ℚ) / (T : ℚ)| := by
    rw [abs_mul]; norm_num; linarith
  have h300 : (200 : ℚ) + 300 * 2 ^ 63 ≤ 2 ^ 1000 := by
    have h2 : (2 : ℚ) ^ 9 * 2 ^ 63 ≤ 2 ^ 999 := by
      rw [← pow_add]; exact pow_le_pow_right₀ (by norm_num) (by norm_num)
    nlinarith
  obtain ⟨v, hv, ev⟩ := rnd64_abs (100 * s) (by linarith)
  have ev' : |v - 100 * s| ≤ (201 + 300 * |(I : ℚ) / (T : ℚ)|) / 2 ^ 53 := by
    refine le_trans ev ?_
    rw [div_le_div_iff_of_pos_right (by positivity)]
    linarith
  have hv2 := abs_le.mp ev'
  refine ⟨v, ?_, ?_⟩
  · simp only [hI', hT', F64.div, if_neg hT'0, hr, F64.sub, hs, F64.mul, hv]
  · rw [abs_le]
    constructor <;> linarith

/-- Rounding to `float` of a value of moderate size: the result is finite and
within `2 ^ (-24)` of the size of the value, taken not smaller than `2 ^ (-126)`. -/
theorem rnd32_abs (q : ℚ) (h : |q| ≤ 2 ^ 120) :
    ∃ y, rnd32 q = some y ∧ |y - q| ≤ (|q| + 1 / 2 ^ 126) / 2 ^ 24 := by
  have he := roundRaw_abs_error 24 (-126) q
  have e1 : ((2 : ℚ) ^ (-126 : ℤ)) = 1 / 2 ^ 126 := by
    rw [show (-126 : ℤ) = -((126 : ℕ) : ℤ) by rfl, zpow_neg, zpow_natCast, one_div]
  have e2 : ((2 : ℚ) ^ (-((24 : ℕ) : ℤ))) = 1 / 2 ^ 24 := by
    rw [zpow_neg, zpow_natCast, one_div]
  rw [e1, e2] at he
  have he2 : |roundRaw 24 (-126) q - q| ≤ (|q| + 1 / 2 ^ 126) / 2 ^ 24 := by
    rw [div_eq_mul_one_div]; exact he
  refine ⟨roundRaw 24 (-126) q, ?_, he2⟩
  apply roundNE_of_lt
  have h3 : |roundRaw 24 (-126) q| ≤ |q| + |roundRaw 24 (-126) q - q| := by
    have := abs_add q (roundRaw 24 (-126) q - q)
    simpa using this
  have h4 : (|q| + 1 / 2 ^ 126) / 2 ^ 24 ≤ (2 ^ 120 + 1 : ℚ) := by
    have : (|q| + 1 / 2 ^ 126) / 2 ^ 24 ≤ |q| + 1 := by
      rw [div_le_iff₀ (by positivity)]
      have h5 : (1 : ℚ) / 2 ^ 126 ≤ 1 := by
        rw [div_le_iff₀ (by positivity)]; norm_num
      nlinarith [abs_nonneg q]
    linarith
  have h6 : (2 ^ 120 + (2 ^ 120 + 1) : ℚ) < 2 ^ ((127 : ℤ) + 1) := by norm_num
  linarith

/-- Rounding to `float` of zero or of a value of normal size: the result is finite
and within `2 ^ (-24)` of the size of the value. -/
theorem rnd32_rel (q : ℚ) (hq : q = 0 ∨ 1 / 2 ^ 126 ≤ |q|) (h : |q| ≤ 2 ^ 120) :
    ∃ y, rnd32 q = some y ∧ |y - q| ≤ |q| / 2 ^ 24 := by
  obtain ⟨y, hy, -⟩ := rnd32_abs q h
  refine ⟨y, hy, ?_⟩
  obtain ⟨hy', -⟩ := roundNE_eq_some 24 (-126) 127 q y hy
  rw [hy']
  rcases hq with hq | hq
  · subst hq; rw [roundRaw_zero]; simp
  · have e1 : ((2 : ℚ) ^ (-126 : ℤ)) = 1 / 2 ^ 126 := by
      rw [show (-126 : ℤ) = -((126 : ℕ) : ℤ) by rfl, zpow_neg, zpow_natCast, one_div]
    have e2 : ((2 : ℚ) ^ (-((24 : ℕ) : ℤ))) = 1 / 2 ^ 24 := by
      rw [zpow_neg, zpow_natCast, one_div]
    have hpos : 0 < |q| := lt_of_lt_of_le (by positivity) hq
    have hr := roundRaw_rel_error 24 (-126) q (abs_pos.mp hpos)
      (log_ge_of_le (-126) q (by rw [e1]; exact hq))
    rw [e2] at hr
    rw [div_eq_mul_one_div]; exact hr

/-- One rounding to `float` of an approximation `y` of `x`, where `x` is zero or of
a size between `L` and `2 ^ 119`: the result is finite and the relative error grows
by `2 ^ (-24)`. -/
theorem rnd32_step (y x ε L : ℚ) (h : |y - x| ≤ |x| * ε) (hε0 : 0 ≤ ε) (hε : ε ≤ 1 / 2)
    (hx : x = 0 ∨ L ≤ |x|) (hL : 1 / 2 ^ 125 ≤ L) (hU : |x| ≤ 2 ^ 119) :
    ∃ z, rnd32 y = some z ∧ |z - x| ≤ |x| * (1 / 2 ^ 24 + ε + 1 / 2 ^ 24 * ε) := by
  have hup : |y| ≤ 2 ^ 120 := by
    have := rel_abs_le h
    have h2 : |x| * (1 + ε) ≤ 2 ^ 119 * (1 + 1 / 2) :=
      mul_le_mul hU (by linarith) (by linarith) (by positivity)
    have h3 : (2 : ℚ) ^ 119 * (1 + 1 / 2) ≤ 2 ^ 120 := by
      rw [pow_succ]; nlinarith [show (0 : ℚ) < 2 ^ 119 by positivity]
    linarith
  have hnorm : y = 0 ∨ 1 / 2 ^ 126 ≤ |y| := by
    rcases hx with hx | hx
    · left
      rw [hx] at h
      simpa using h
    · right
      have hge := rel_abs_ge h
      have hLpos : (0 : ℚ) < 1 / 2 ^ 125 := by positivity
      have h2 : L * (1 / 2) ≤ |x| * (1 - ε) :=
        mul_le_mul hx (by linarith) (by norm_num) (abs_nonneg _)
      have h3 : (1 : ℚ) / 2 ^ 126 = 1 / 2 ^ 125 * (1 / 2) := by
        rw [pow_succ]; field_simp
      rw [h3]
      nlinarith
  obtain ⟨z, hz, hzerr⟩ := rnd32_rel y hnorm hup
  refine ⟨z, hz, ?_⟩
  have hzerr' : |z - y| ≤ |y| * (1 / 2 ^ 24) := by
    rw [mul_one_div]; exact hzerr
  exact rel_trans hzerr' h (by positivity)

/-! ## ReportPerfCntrs: lemmas -/

theorem sdiv64_pos (a b : Int) (hb : 0 < b) : sdiv64 a b = some (Int.tdiv a b) := by
  unfold sdiv64
  have h0 : b ≠ 0 := by omega
  have h1 : ¬ (a = -(2 : Int) ^ 63 ∧ b = -1) := by
    intro h; omega
  rw [if_neg h0, if_neg h1]

/-- With a positive tick frequency and a processor count within the arrays the
calculator returns: the sink receives the detailed report exactly when
`verbosity > 1`, and the value is the busy figure of the aggregate slot. -/
theorem ReportPerfCntrs_eq (MAXCPUS : Nat) (verbosity : Int) (numberOfProcessors : Nat)
    (TickHz : Int) (p : PerfObj) (hHz : 0 < TickHz)
    (hn : numberOfProcessors ≤ MAXCPUS + 1) :
    ReportPerfCntrs MAXCPUS verbosity numberOfProcessors TickHz p
      = some
          (if 1 < verbosity then
            reportLines MAXCPUS (i32 (numberOfProcessors : Int))
              (F64.div
                (F64.ofInt (Int.tdiv (i64 (i64 (p.EndTime - p.StartTime) * 10000)) TickHz))
                (some 10)) p
          else [],
          busyPct p MAXCPUS) := by
  unfold ReportPerfCntrs
  simp only [sdiv64_pos _ _ hHz]
  have hb : ¬ (1 < i32 (numberOfProcessors : Int)
      ∧ MAXCPUS + 1 < (i32 (numberOfProcessors : Int)).toNat) := by
    intro h
    have := i32_toNat_le numberOfProcessors
    omega
  by_cases hv : 1 < verbosity
  · rw [if_pos hv, if_neg hb, if_pos hv]
  · rw [if_neg hv, if_neg hv]

/-- The busy figure when none of its three operations and two conversions
rounds. -/
theorem busyPct_exact (p : PerfObj) (i : Nat) (I T : Int)
    (hI : (DeltaInfo p i).IdleTime = I) (hT : TotalCPUTime p i = T) (hT0 : T ≠ 0)
    (h1 : rnd64 (I : ℚ) = some (I : ℚ)) (h2 : rnd64 (T : ℚ) = some (T : ℚ))
    (h3 : rnd64 ((I : ℚ) / (T : ℚ)) = some ((I : ℚ) / (T : ℚ)))
    (h4 : rnd64 (1 - (I : ℚ) / (T : ℚ)) = some (1 - (I : ℚ) / (T : ℚ)))
    (h5 : rnd64 (100 * (1 - (I : ℚ) / (T : ℚ))) = some (100 * (1 - (I : ℚ) / (T : ℚ)))) :
    busyPct p i = some (100 * (1 - (I : ℚ) / (T : ℚ))) := by
  have h0 : (T : ℚ) ≠ 0 := by exact_mod_cast hT0
  unfold busyPct
  rw [hI, hT]
  simp only [F64.ofInt, h1, h2, F64.div, if_neg h0, h3, F64.sub, h4, F64.mul, h5]

/-- A percentage when neither its two operations nor its two conversions round. -/
theorem pctOf_exact (p : PerfObj) (i : Nat) (x T : Int)
    (hT : TotalCPUTime p i = T) (hT0 : T ≠ 0)
    (h1 : rnd64 (x : ℚ) = some (x : ℚ)) (h2 : rnd64 (T : ℚ) = some (T : ℚ))
    (h3 : rnd64 (100 * (x : ℚ)) = some (100 * (x : ℚ)))
    (h4 : rnd64 (100 * (x : ℚ) / (T : ℚ)) = some (100 * (x : ℚ) / (T : ℚ))) :
    pctOf p x i = some (100 * (x : ℚ) / (T : ℚ)) := by
  have h0 : (T : ℚ) ≠ 0 := by exact_mod_cast hT0
  unfold pctOf
  rw [hT]
  simp only [F64.ofInt, h1, h2, F64.mul, h3, F64.div, if_neg h0, h4]

theorem TotalCPUTime_eq (p : PerfObj) (i : Nat) :
    TotalCPUTime p i
      = i64 ((DeltaInfo p i).IdleTime + (DeltaInfo p i).KernelTime + (DeltaInfo p i).UserTime) := by
  unfold TotalCPUTime
  rw [i64_def, i64_def, i64_def]
  omega

theorem i64_abs_le (x : Int) : |i64 x| ≤ 2 ^ 63 := by
  rw [i64_def, abs_le]
  constructor <;> omega

theorem DeltaInfo_IdleTime_abs_le (p : PerfObj) (i : Nat) :
    |(DeltaInfo p i).IdleTime| ≤ 2 ^ 63 := i64_abs_le _

theorem TotalCPUTime_abs_le (p : PerfObj) (i : Nat) : |TotalCPUTime p i| ≤ 2 ^ 63 :=
  i64_abs_le _

/-- With a non-zero total the busy figure of a slot is a finite `double`, within
`(1 + |idle / total|) / 2 ^ 43` of the exact `100 * (1 - idle / total)`. -/
theorem busyPct_bound (p : PerfObj) (i : Nat) (hT : TotalCPUTime p i ≠ 0) :
    ∃ v : ℚ, busyPct p i = some v
      ∧ |v - 100 * (1 - ((DeltaInfo p i).IdleTime : ℚ) / (TotalCPUTime p i : ℚ))|
          ≤ (1 + |((DeltaInfo p i).IdleTime : ℚ) / (TotalCPUTime p i : ℚ)|) / 2 ^ 43 :=
  busy_value_bound _ _ (DeltaInfo_IdleTime_abs_le p i) (TotalCPUTime_abs_le p i) hT

/-- With a non-zero total the percentage of a 64-bit field value is a finite
`double`, with a relative error of at most `2 ^ (-50)`. -/
theorem pctOf_bound (p : PerfObj) (x : Int) (i : Nat) (hx : |x| ≤ 2 ^ 63)
    (hT : TotalCPUTime p i ≠ 0) :
    ∃ v : ℚ, pctOf p x i = some v
      ∧ |v - 100 * (x : ℚ) / (TotalCPUTime p i : ℚ)|
          ≤ |100 * (x : ℚ) / (TotalCPUTime p i : ℚ)| / 2 ^ 50 :=
  pct_value_bound x _ hx (TotalCPUTime_abs_le p i) hT

/-- The correction factor for a measured time not below the requested time, both
between `2 ^ (-20)` and `2 ^ 20`: a finite `float` with a relative error of at most
`5 / 2 ^ 24`. -/
theorem correction_factor_bound (a r : ℚ) (hr : 1 / 2 ^ 20 ≤ r) (hra : r ≤ a)
    (ha : a ≤ 2 ^ 20) :
    ∃ f : ℚ, correction_factor (some a) (some r) = some f
      ∧ |f - (1 + (a - r) / r)| ≤ |1 + (a - r) / r| * (5 / 2 ^ 24) := by
  have hrpos : 0 < r := lt_of_lt_of_le (by positivity) hr
  have hr0 : r ≠ 0 := ne_of_gt hrpos
  have hD0 : 0 ≤ a - r := by linarith
  have hDU : a - r ≤ 2 ^ 20 := by linarith
  have hQ0 : 0 ≤ (a - r) / r := div_nonneg hD0 hrpos.le
  have hQU : (a - r) / r ≤ 2 ^ 40 := by
    rw [div_le_iff₀ hrpos]
    have : (2 : ℚ) ^ 40 * (1 / 2 ^ 20) ≤ 2 ^ 40 * r :=
      mul_le_mul_of_nonneg_left hr (by positivity)
    have e : (2 : ℚ) ^ 40 * (1 / 2 ^ 20) = 2 ^ 20 := by norm_num
    linarith
  obtain ⟨d, hd, ed⟩ := rnd32_abs (a - r) (by
    rw [abs_of_nonneg hD0]
    have : (2 : ℚ) ^ 20 ≤ 2 ^ 120 := pow_le_pow_right₀ (by norm_num) (by norm_num)
    linarith)
  rw [abs_of_nonneg hD0] at ed
  -- the quotient before it is rounded
  have hinv : 1 / 2 ^ 126 / r ≤ (1 : ℚ) / 2 ^ 106 := by
    rw [div_le_iff₀ hrpos]
    have : (1 : ℚ) / 2 ^ 106 * (1 / 2 ^ 20) ≤ 1 / 2 ^ 106 * r :=
      mul_le_mul_of_nonneg_left hr (by positivity)
    have e : (1 : ℚ) / 2 ^ 106 * (1 / 2 ^ 20) = 1 / 2 ^ 126 := by norm_num
    linarith
  have e1 : |d / r - (a - r) / r| ≤ ((a - r) / r + 1 / 2 ^ 106) / 2 ^ 24 := by
    have : d / r - (a - r) / r = (d - (a - r)) / r := by ring
    rw [this, abs_div, abs_of_pos hrpos]
    calc |d - (a - r)| / r ≤ ((a - r + 1 / 2 ^ 126) / 2 ^ 24) / r :=
          div_le_div_of_nonneg_right ed hrpos.le
      _ = ((a - r) / r + 1 / 2 ^ 126 / r) / 2 ^ 24 := by ring
      _ ≤ ((a - r) / r + 1 / 2 ^ 106) / 2 ^ 24 := by
          apply div_le_div_of_nonneg_right _ (by positivity)
          linarith
  have e1' := abs_le.mp e1
  have hdq : |d / r| ≤ 2 ^ 41 := by
    rw [abs_le]
    constructor
    · have : (0 : ℚ) ≤ 2 ^ 41 := by positivity
      nlinarith
    · have h41 : (2 : ℚ) ^ 41 = 2 ^ 40 * 2 := by norm_num
      have h106 : (1 : ℚ) / 2 ^ 106 ≤ 1 := by norm_num
      have h40 : (1 : ℚ) ≤ 2 ^ 40 := one_le_pow₀ (by norm_num)
      have h24 : ((a - r) / r + 1 / 2 ^ 106) / 2 ^ 24 ≤ (a - r) / r + 1 := by
        rw [div_le_iff₀ (by positivity)]
        nlinarith
      linarith
  obtain ⟨q, hq, eq⟩ := rnd32_abs (d / r) (by
    have : (2 : ℚ) ^ 41 ≤ 2 ^ 120 := pow_le_pow_right₀ (by norm_num) (by norm_num)
    linarith)
  have hdq2 : |d / r| ≤ (a - r) / r + ((a - r) / r + 1 / 2 ^ 106) / 2 ^ 24 := by
    rw [abs_le]; constructor <;> linarith
  have eq' := abs_le.mp eq
  -- the sum before it is rounded
  have es : |(1 + q) - (1 + (a - r) / r)| ≤ |1 + (a - r) / r| * (3 / 2 ^ 24) := by
    rw [abs_of_nonneg (by linarith : (0 : ℚ) ≤ 1 + (a - r) / r), abs_le]
    constructor <;> linarith
  have habs : |1 + (a - r) / r| = 1 + (a - r) / r := abs_of_nonneg (by linarith)
  obtain ⟨f, hf, ef⟩ := rnd32_step (1 + q) (1 + (a - r) / r) (3 / 2 ^ 24) 1 es
    (by positivity) (by norm_num) (Or.inr (by rw [habs]; linarith)) (by norm_num)
    (by
      rw [habs]
      have : (2 : ℚ) ^ 40 + 1 ≤ 2 ^ 119 := by norm_num
      linarith)
  refine ⟨f, ?_, le_trans ef (mul_le_mul_of_nonneg_left (by norm_num) (abs_nonneg _))⟩
  have hne : (some r : Dbl) ≠ some 0 := by
    intro h; exact hr0 (Option.some.inj h)
  unfold correction_factor
  rw [if_pos hne]
  simp only [F32.sub, hd, F32.div, if_neg hr0, hq, F32.add, hf]

/-- The product of a value narrowed to `float` and a factor of size between 1 and
`2 ^ 40` known to `5 / 2 ^ 24`: a finite `float` with a relative error of at most
`2 ^ (-21)`. -/
theorem corrected_value_bound (x f F : ℚ) (hx : x = 0 ∨ 1 / 2 ^ 60 ≤ |x|)
    (hxU : |x| ≤ 2 ^ 60) (hf : |f - F| ≤ |F| * (5 / 2 ^ 24)) (hF1 : 1 ≤ |F|)
    (hFU : |F| ≤ 2 ^ 41) :
    ∃ w : ℚ, F32.mul (F32.ofF64 (some x)) (some f) = some w
      ∧ |w - x * F| ≤ |x * F| / 2 ^ 21 := by
  have hL : (1 : ℚ) / 2 ^ 125 ≤ 1 / 2 ^ 60 :=
    one_div_le_one_div_of_le (by positivity) (pow_le_pow_right₀ (by norm_num) (by norm_num))
  obtain ⟨c, hc, ec⟩ := rnd32_step x x 0 (1 / 2 ^ 60) (by simp) (le_refl _) (by norm_num) hx
    hL (le_trans hxU (pow_le_pow_right₀ (by norm_num) (by norm_num)))
  have ec' : |c - x| ≤ |x| * (1 / 2 ^ 24) := by simpa using ec
  have ep := rel_mul ec' hf
  have ep' : |c * f - x * F| ≤ |x * F| * ((13 / 2) / 2 ^ 24) :=
    le_trans ep (mul_le_mul_of_nonneg_left (by norm_num) (abs_nonneg _))
  have hxF : |x * F| = |x| * |F| := abs_mul _ _
  obtain ⟨w, hw, ew⟩ := rnd32_step (c * f) (x * F) ((13 / 2) / 2 ^ 24) (1 / 2 ^ 60) ep'
    (by positivity) (by norm_num)
    (by
      rcases hx with h | h
      · left; rw [h]; simp
      · right
        rw [hxF]
        nlinarith [abs_nonneg x])
    hL
    (by
      rw [hxF]
      have h1 : |x| * |F| ≤ 2 ^ 60 * 2 ^ 41 :=
        mul_le_mul hxU hFU (abs_nonneg _) (by positivity)
      have h2 : (2 : ℚ) ^ 60 * 2 ^ 41 ≤ 2 ^ 119 := by
        rw [← pow_add]; exact pow_le_pow_right₀ (by norm_num) (by norm_num)
      linarith)
  refine ⟨w, ?_, ?_⟩
  · simp only [F32.ofF64, hc, F32.mul, hw]
  · have h8 : (1 / 2 ^ 24 + (13 / 2) / 2 ^ 24 + 1 / 2 ^ 24 * ((13 / 2) / 2 ^ 24) : ℚ)
        ≤ 1 / 2 ^ 21 := by norm_num
    have := le_trans ew (mul_le_mul_of_nonneg_left h8 (abs_nonneg _))
    rwa [mul_one_div] at this

/-- The `double` quotient `(double)AD / 10.0` for a count `0 ≤ AD < 2 ^ 63` of tenths
of a millisecond: a finite number within `2 ^ (-51)` of the size of `AD / 10` from
it, and `AD / 10` itself when neither the conversion nor the division rounds. -/
theorem duration_value_bound (AD : Int) (h0 : 0 ≤ AD) (hU : AD < 2 ^ 63) :
    ∃ d : ℚ, F64.div (F64.ofInt AD) (some 10) = some d
      ∧ |d - (AD : ℚ) / 10| ≤ (AD : ℚ) / 10 / 2 ^ 51
      ∧ (rnd64 (AD : ℚ) = some (AD : ℚ) → rnd64 ((AD : ℚ) / 10) = some ((AD : ℚ) / 10) →
          d = (AD : ℚ) / 10) := by
  have habs : |AD| ≤ 2 ^ 63 := by rw [abs_of_nonneg h0]; omega
  obtain ⟨x, hx, ex⟩ := F64.ofInt_rel AD habs
  have hq0 : (0 : ℚ) ≤ (AD : ℚ) := by exact_mod_cast h0
  have hqU : (AD : ℚ) ≤ 2 ^ 63 := by
    have : AD ≤ 2 ^ 63 := by omega
    exact_mod_cast this
  have ten : |(10 : ℚ) - 10| ≤ |(10 : ℚ)| * 0 := by simp
  obtain ⟨-, e1⟩ := rel_div ex ten (by norm_num) (by positivity) (le_refl _) (by norm_num)
  have e1' : |x / 10 - (AD : ℚ) / 10| ≤ |(AD : ℚ) / 10| * (1 / 2 ^ 53) := by
    simpa using e1
  have hA : |(AD : ℚ) / 10| = (AD : ℚ) / 10 := abs_of_nonneg (by positivity)
  have hL : (1 : ℚ) / 2 ^ 1021 ≤ 1 / 10 :=
    one_div_le_one_div_of_le (by norm_num)
      (le_trans (by norm_num : (10 : ℚ) ≤ 2 ^ 4)
        (pow_le_pow_right₀ (by norm_num) (by norm_num)))
  have h63 : (2 : ℚ) ^ 63 ≤ 2 ^ 999 := pow_le_pow_right₀ (by norm_num) (by norm_num)
  obtain ⟨d, hd, ed⟩ := rnd64_step (x / 10) ((AD : ℚ) / 10) (1 / 2 ^ 53) (1 / 10) e1'
    (by positivity) (by norm_num)
    (by
      by_cases hz : AD = 0
      · left; rw [hz]; simp
      · right
        rw [hA]
        have : (1 : ℤ) ≤ AD := by omega
        have h1 : (1 : ℚ) ≤ (AD : ℚ) := by exact_mod_cast this
        linarith)
    hL (by rw [hA]; linarith)
  have hdiv : F64.div (F64.ofInt AD) (some 10) = some d := by
    rw [hx]
    simp only [F64.div, if_neg (by norm_num : (10 : ℚ) ≠ 0), hd]
  refine ⟨d, hdiv, ?_, ?_⟩
  · have h4 : (1 / 2 ^ 53 + 1 / 2 ^ 53 + 1 / 2 ^ 53 * (1 / 2 ^ 53) : ℚ) ≤ 1 / 2 ^ 51 := by
      norm_num
    have := le_trans ed (mul_le_mul_of_nonneg_left h4 (abs_nonneg _))
    rw [hA, mul_one_div] at this
    exact this
  · intro r1 r2
    have : F64.div (F64.ofInt AD) (some 10) = some ((AD : ℚ) / 10) := by
      simp only [F64.ofInt, r1, F64.div, if_neg (by norm_num : (10 : ℚ) ≠ 0), r2]
    rw [hdiv] at this
    exact Option.some.inj this

/-- The `double` evaluation of `100.0 * (1.0 - (double)I / (double)T)` for
`0 ≤ I ≤ T`, `0 < T < 2 ^ 63` is a finite number between 0 and 100: rounding is
monotone and 0, 1 and 100 are `double`s. -/
theorem busy_value_range (I T : Int) (hI : 0 ≤ I) (hIT : I ≤ T) (hT : 0 < T)
    (hTU : T < 2 ^ 63) :
    ∃ u : ℚ, F64.mul (some 100) (F64.sub (some 1) (F64.div (F64.ofInt I) (F64.ofInt T)))
        = some u
      ∧ 0 ≤ u ∧ u ≤ 100 := by
  have r1 : rnd64 1 = some 1 := by simpa using rnd64_int 1 (by norm_num)
  have r100 : rnd64 100 = some 100 := by simpa using rnd64_int 100 (by norm_num)
  have rtop : rnd64 (2 ^ 63) = some (2 ^ 63) :=
    rnd64_exact _ 1 63 (by norm_num) (by norm_num) (by norm_num) (by norm_num [abs_of_pos])
  have hTq0 : (0 : ℚ) < (T : ℚ) := by exact_mod_cast hT
  have hT1 : (1 : ℚ) ≤ (T : ℚ) := by
    have : (1 : Int) ≤ T := by omega
    exact_mod_cast this
  have hTq : (T : ℚ) ≤ 2 ^ 63 := by
    have : T ≤ 2 ^ 63 := by omega
    exact_mod_cast this
  have hIq0 : (0 : ℚ) ≤ (I : ℚ) := by exact_mod_cast hI
  have hIq : (I : ℚ) ≤ (T : ℚ) := by exact_mod_cast hIT
  obtain ⟨T', hT', -, -⟩ := roundNE_mono 53 (-1022) 1023 (by decide) hTq0.le hTq rtop
  obtain ⟨o, ho, -, hoT⟩ := roundNE_mono 53 (-1022) 1023 (by decide) (by norm_num) hT1 hT'
  have ho1 : o = 1 := by
    have : rnd64 1 = some o := ho
    rw [r1] at this
    exact (Option.some.inj this).symm
  rw [ho1] at hoT
  obtain ⟨I', hI', hI0, hIT'⟩ := roundNE_mono 53 (-1022) 1023 (by decide) hIq0 hIq hT'
  have hT'pos : 0 < T' := by linarith
  have hq0 : 0 ≤ I' / T' := div_nonneg hI0 hT'pos.le
  have hq1 : I' / T' ≤ 1 := (div_le_one hT'pos).mpr hIT'
  obtain ⟨r, hr, hr0, hr1⟩ := roundNE_mono 53 (-1022) 1023 (by decide) hq0 hq1 r1
  obtain ⟨s, hs, hs0, hs1⟩ := roundNE_mono 53 (-1022) 1023 (by decide)
    (by linarith : (0 : ℚ) ≤ 1 - r) (by linarith : 1 - r ≤ 1) r1
  obtain ⟨u, hu, hu0, hu1⟩ := roundNE_mono 53 (-1022) 1023 (by decide)
    (by linarith : (0 : ℚ) ≤ 100 * s) (by linarith : 100 * s ≤ 100) r100
  refine ⟨u, ?_, hu0, hu1⟩
  have hT'' : rnd64 (T : ℚ) = some T' := hT'
  have hI'' : rnd64 (I : ℚ) = some I' := hI'
  have hr' : rnd64 (I' / T') = some r := hr
  have hs' : rnd64 (1 - r) = some s := hs
  have hu' : rnd64 (100 * s) = some u := hu
  simp only [F64.ofInt, hI'', hT'', F64.div, if_neg (ne_of_gt hT'pos), hr', F64.sub, hs',
    F64.mul, hu']

/-! ## RestartPerfCntrs: lemmas -/

theorem wrapS_modEq (w : Nat) (x : Int) : wrapS w x ≡ x [ZMOD 2 ^ w] := by
  unfold wrapS
  have h := (Int.mod_modEq (x + 2 ^ (w - 1)) (2 ^ w)).sub_right (2 ^ (w - 1))
  simpa using h

theorem wrapS_congr (w : Nat) {x y : Int} (h : x ≡ y [ZMOD 2 ^ w]) :
    wrapS w x = wrapS w y := by
  unfold wrapS
  have h2 : (x + 2 ^ (w - 1)) % 2 ^ w = (y + 2 ^ (w - 1)) % 2 ^ w := h.add_right _
  rw [h2]

theorem Field.wrap_eq (f : Field) (x : Int) : f.wrap x = wrapS f.bits x := by
  cases f <;> rfl

theorem Field.wrap_modEq (f : Field) (x : Int) : f.wrap x ≡ x [ZMOD 2 ^ f.bits] := by
  rw [Field.wrap_eq]; exact wrapS_modEq _ _

theorem Field.wrap_congr (f : Field) {x y : Int} (h : x ≡ y [ZMOD 2 ^ f.bits]) :
    f.wrap x = f.wrap y := by
  rw [Field.wrap_eq, Field.wrap_eq]; exact wrapS_congr _ h

theorem Field.wrap_of_inRange (f : Field) (x : Int) (h1 : -(2 : Int) ^ (f.bits - 1) ≤ x)
    (h2 : x < 2 ^ (f.bits - 1)) : f.wrap x = x := by
  cases f
  case InterruptCount => exact i32_of_inRange x h1 h2
  all_goals exact i64_of_inRange x h1 h2

theorem Field.wrap_zero (f : Field) : f.wrap 0 = 0 := by
  cases f
  case InterruptCount => exact i32_zero
  all_goals exact i64_zero

theorem DeltaInfo_get (p : PerfObj) (i : Nat) (f : Field) :
    f.get (DeltaInfo p i) = f.wrap (f.get (p.EndInfo i) - f.get (p.StartInfo i)) := by
  cases f <;> rfl

theorem sumField_succ (f : Field) (D : Nat → SPPI) (N : Nat) :
    sumField f D (N + 1) = sumField f D N + f.get (D N) := by
  unfold sumField; rw [Finset.sum_range_succ]

theorem sumField_congr (f : Field) (D D' : Nat → SPPI) (N : Nat)
    (h : ∀ i, i < N → D i = D' i) : sumField f D N = sumField f D' N := by
  unfold sumField
  apply Finset.sum_congr rfl
  intro i hi
  rw [h i (Finset.mem_range.mp hi)]

theorem totalStep_agg (MAXCPUS : Nat) (E : Nat → SPPI) (i : Nat) (hi : i ≠ MAXCPUS) :
    totalStep MAXCPUS E i MAXCPUS
      = { IdleTime := i64 ((E MAXCPUS).IdleTime + (fixKernel (E i)).IdleTime),
          KernelTime := i64 ((E MAXCPUS).KernelTime + (fixKernel (E i)).KernelTime),
          UserTime := i64 ((E MAXCPUS).UserTime + (fixKernel (E i)).UserTime),
          DpcTime := i64 ((E MAXCPUS).DpcTime + (fixKernel (E i)).DpcTime),
          InterruptTime := i64 ((E MAXCPUS).InterruptTime + (fixKernel (E i)).InterruptTime),
          InterruptCount :=
            i32 ((E MAXCPUS).InterruptCount + (fixKernel (E i)).InterruptCount) } := by
  have hi2 : MAXCPUS ≠ i := fun h => hi h.symm
  simp [totalStep, fixKernel, Function.update, hi, hi2]

theorem totalStep_self (MAXCPUS : Nat) (E : Nat → SPPI) (i : Nat) (hi : i ≠ MAXCPUS) :
    totalStep MAXCPUS E i i = fixKernel (E i) := by
  simp [totalStep, fixKernel, Function.update, hi]

theorem totalStep_other (MAXCPUS : Nat) (E : Nat → SPPI) (i j : Nat) (hj : j ≠ i)
    (hjM : j ≠ MAXCPUS) : totalStep MAXCPUS E i j = E j := by
  simp [totalStep, Function.update, hj, hjM]

theorem totalAll_succ (MAXCPUS : Nat) (E : Nat → SPPI) (N : Nat) :
    totalAll MAXCPUS E (N + 1) = totalStep MAXCPUS (totalAll MAXCPUS E N) N := by
  simp [totalAll, List.range_succ, List.foldl_append]

/-- The loop leaves the slots from `N` on alone, the aggregate slot apart. -/
theorem totalAll_ge (MAXCPUS : Nat) (E : Nat → SPPI) (N j : Nat) (hj : N ≤ j)
    (hjM : j ≠ MAXCPUS) : totalAll MAXCPUS E N j = E j := by
  induction N with
  | zero => rfl
  | succ k ih =>
    rw [totalAll_succ, totalStep_other _ _ _ _ (by omega) hjM]
    exact ih (by omega)

/-- The loop corrects each of the slots below `N` once. -/
theorem totalAll_lt (MAXCPUS : Nat) (E : Nat → SPPI) (N j : Nat) (hN : N ≤ MAXCPUS)
    (hj : j < N) : totalAll MAXCPUS E N j = fixKernel (E j) := by
  induction N with
  | zero => omega
  | succ k ih =>
    rw [totalAll_succ]
    by_cases hjk : j = k
    · subst hjk
      rw [totalStep_self _ _ _ (by omega), totalAll_ge _ _ _ _ (le_refl _) (by omega)]
    · rw [totalStep_other _ _ _ _ hjk (by omega)]
      exact ih (by omega) (by omega)

/-- The loop leaves in a zeroed aggregate slot, for each field, the sum of the
corrected records reduced to the width of the field. -/
theorem totalAll_agg (MAXCPUS : Nat) (E : Nat → SPPI) (N : Nat) (hN : N ≤ MAXCPUS)
    (hz : E MAXCPUS = zeroInfo) (f : Field) :
    f.get (totalAll MAXCPUS E N MAXCPUS)
      = f.wrap (sumField f (fun j => fixKernel (E j)) N) := by
  induction N with
  | zero =>
    have h0 : totalAll MAXCPUS E 0 = E := rfl
    rw [h0, hz]
    simp only [sumField, Finset.range_zero, Finset.sum_empty, Field.wrap_zero]
    cases f <;> rfl
  | succ k ih =>
    have ihk := ih (by omega)
    rw [totalAll_succ, totalStep_agg _ _ _ (by omega),
      totalAll_ge _ _ _ _ (le_refl _) (by omega), sumField_succ]
    have step : f.wrap (f.get (totalAll MAXCPUS E k MAXCPUS) + f.get (fixKernel (E k)))
        = f.wrap (sumField f (fun j => fixKernel (E j)) k + f.get (fixKernel (E k))) := by
      apply Field.wrap_congr
      rw [ihk]
      exact (Field.wrap_modEq f _).add_right _
    rw [← step]
    cases f <;> rfl

/-- What a successful call has checked and what it leaves in the store. -/
theorem RestartPerfCntrs_ok (MAXCPUS : Nat) (numberOfProcessors : Nat) (q : QueryResult)
    (Counter : Int) (p p' : PerfObj)
    (h : RestartPerfCntrs MAXCPUS numberOfProcessors q Counter p = Except.ok p') :
    q.status = 0 ∧ q.returnLength % sizeofSPPI = 0
    ∧ q.returnLength / sizeofSPPI = numberOfProcessors
    ∧ numberOfProcessors ≤ MAXCPUS + 1
    ∧ p'.StartTime = p.EndTime ∧ p'.EndTime = Counter
    ∧ p'.StartInfo = CopyMemory p.StartInfo p.EndInfo (MAXCPUS + 1)
    ∧ p'.EndInfo
        = totalAll MAXCPUS
            (ZeroMemory (writeRecords p.EndInfo q.info numberOfProcessors) numberOfProcessors
              (MAXCPUS + 1 - numberOfProcessors))
            numberOfProcessors := by
  unfold RestartPerfCntrs at h
  simp only at h
  split_ifs at h with h1 h2 h3 h4
  injection h with h
  subst h
  have e1 : q.status = 0 := by
    by_contra hne; exact h1 hne
  have e2 : q.returnLength % sizeofSPPI = 0 := by
    by_contra hne; exact h2 hne
  have e3 : q.returnLength / sizeofSPPI = numberOfProcessors := by
    by_contra hne; exact h3 hne
  refine ⟨e1, e2, e3, ?_, rfl, rfl, rfl, ?_⟩
  · omega
  · simp only [e3]

/-- A call whose checks pass returns a store. -/
theorem RestartPerfCntrs_succeeds (MAXCPUS : Nat) (numberOfProcessors : Nat)
    (q : QueryResult) (Counter : Int) (p : PerfObj) (h1 : q.status = 0)
    (h2 : q.returnLength % sizeofSPPI = 0)
    (h3 : q.returnLength / sizeofSPPI = numberOfProcessors)
    (h4 : numberOfProcessors ≤ MAXCPUS + 1) :
    ∃ p', RestartPerfCntrs MAXCPUS numberOfProcessors q Counter p = Except.ok p' := by
  unfold RestartPerfCntrs
  simp only
  have h5 : ¬ (MAXCPUS + 1 < q.returnLength / sizeofSPPI) := by omega
  have h1n : ¬ (q.status ≠ 0) := fun hc => hc h1
  have h2n : ¬ (q.returnLength % sizeofSPPI ≠ 0) := fun hc => hc h2
  have h3n : ¬ (q.returnLength / sizeofSPPI ≠ numberOfProcessors) := fun hc => hc h3
  rw [if_neg h1n, if_neg h2n, if_neg h3n, if_neg h5]
  exact ⟨_, rfl⟩

theorem RestartPerfCntrs_start (MAXCPUS : Nat) (numberOfProcessors : Nat) (q : QueryResult)
    (Counter : Int) (p p' : PerfObj)
    (h : RestartPerfCntrs MAXCPUS numberOfProcessors q Counter p = Except.ok p')
    (i : Nat) (hi : i ≤ MAXCPUS) : p'.StartInfo i = p.EndInfo i := by
  obtain ⟨-, -, -, -, -, -, hS, -⟩ := RestartPerfCntrs_ok _ _ _ _ _ _ h
  have : i < MAXCPUS + 1 := by omega
  rw [hS]; simp [CopyMemory, this]

theorem RestartPerfCntrs_end_lt (MAXCPUS : Nat) (N : Nat) (q : QueryResult)
    (Counter : Int) (p p' : PerfObj)
    (h : RestartPerfCntrs MAXCPUS N q Counter p = Except.ok p') (hN : N ≤ MAXCPUS)
    (i : Nat) (hi : i < N) : p'.EndInfo i = fixKernel (q.info i) := by
  obtain ⟨-, -, -, -, -, -, -, hE⟩ := RestartPerfCntrs_ok _ _ _ _ _ _ h
  have hn : ¬ (N ≤ i ∧ i < N + (MAXCPUS + 1 - N)) := by omega
  rw [hE, totalAll_lt _ _ _ _ hN hi]
  simp [ZeroMemory, writeRecords, hn, hi]

theorem RestartPerfCntrs_end_zero (MAXCPUS : Nat) (N : Nat) (q : QueryResult)
    (Counter : Int) (p p' : PerfObj)
    (h : RestartPerfCntrs MAXCPUS N q Counter p = Except.ok p')
    (i : Nat) (hi1 : N ≤ i) (hi2 : i < MAXCPUS) : p'.EndInfo i = zeroInfo := by
  obtain ⟨-, -, -, -, -, -, -, hE⟩ := RestartPerfCntrs_ok _ _ _ _ _ _ h
  have hn : N ≤ i ∧ i < N + (MAXCPUS + 1 - N) := by omega
  rw [hE, totalAll_ge _ _ _ _ hi1 (by omega)]
  simp [ZeroMemory, hn]

theorem RestartPerfCntrs_end_agg (MAXCPUS : Nat) (N : Nat) (q : QueryResult)
    (Counter : Int) (p p' : PerfObj)
    (h : RestartPerfCntrs MAXCPUS N q Counter p = Except.ok p') (hN : N ≤ MAXCPUS)
    (f : Field) : f.get (p'.EndInfo MAXCPUS) = f.wrap (sumField f p'.EndInfo N) := by
  obtain ⟨-, -, -, -, -, -, -, hE⟩ := RestartPerfCntrs_ok _ _ _ _ _ _ h
  have hz : ZeroMemory (writeRecords p.EndInfo q.info N) N (MAXCPUS + 1 - N) MAXCPUS
      = zeroInfo := by
    have hn : N ≤ MAXCPUS ∧ MAXCPUS < N + (MAXCPUS + 1 - N) := by omega
    simp [ZeroMemory, hn]
  have hs : sumField f p'.EndInfo N
      = sumField f
          (fun j => fixKernel
            (ZeroMemory (writeRecords p.EndInfo q.info N) N (MAXCPUS + 1 - N) j)) N := by
    apply sumField_congr
    intro j hj
    rw [hE, totalAll_lt _ _ _ _ hN hj]
  rw [hs, ← totalAll_agg _ _ _ hN hz f, hE]

/-- A sum of reduced terms is congruent to the sum of the terms. -/
theorem sum_wrap_modEq (f : Field) (a : Nat → Int) (N : Nat) :
    (∑ i in Finset.range N, f.wrap (a i)) ≡ (∑ i in Finset.range N, a i)
      [ZMOD 2 ^ f.bits] := by
  induction N with
  | zero => simp [Int.ModEq]
  | succ k ih =>
    rw [Finset.sum_range_succ, Finset.sum_range_succ]
    exact ih.add (Field.wrap_modEq f _)

/-- After two successful samples of `N` processors the delta of the aggregate slot
is, in each field, the sum of the deltas of the slots `0 .. N-1` reduced to the
width of the field. -/
theorem aggregate_delta (MAXCPUS N : Nat) (q1 q2 : QueryResult) (c1 c2 : Int)
    (p0 p1 p2 : PerfObj) (hN : N ≤ MAXCPUS)
    (h1 : RestartPerfCntrs MAXCPUS N q1 c1 p0 = Except.ok p1)
    (h2 : RestartPerfCntrs MAXCPUS N q2 c2 p1 = Except.ok p2) (f : Field) :
    f.get (DeltaInfo p2 MAXCPUS) = f.wrap (sumField f (DeltaInfo p2) N) := by
  have hS : ∀ i, i ≤ MAXCPUS → p2.StartInfo i = p1.EndInfo i :=
    RestartPerfCntrs_start _ _ _ _ _ _ h2
  have a1 := RestartPerfCntrs_end_agg _ _ _ _ _ _ h1 hN f
  have a2 := RestartPerfCntrs_end_agg _ _ _ _ _ _ h2 hN f
  rw [DeltaInfo_get, hS MAXCPUS (le_refl _), a1, a2]
  apply Field.wrap_congr
  have e1 : sumField f p1.EndInfo N = sumField f p2.StartInfo N :=
    sumField_congr f _ _ N (fun i hi => (hS i (by omega)).symm)
  have hsum : sumField f (DeltaInfo p2) N
      ≡ sumField f p2.EndInfo N - sumField f p2.StartInfo N [ZMOD 2 ^ f.bits] := by
    unfold sumField
    rw [← Finset.sum_sub_distrib]
    simp only [DeltaInfo_get]
    exact sum_wrap_modEq f _ N
  rw [e1]
  exact (((Field.wrap_modEq f _).sub (Field.wrap_modEq f _)).trans hsum.symm)

/-- The busy figure of the aggregate slot of the sample store is 50. -/
theorem sampleStore_busy : busyPct sampleStore 256 = some 50 := by
  have h := busyPct_exact sampleStore 256 300 600 (by decide) (by decide) (by decide)
    (rnd64_int 300 (by norm_num)) (rnd64_int 600 (by norm_num))
    (rnd64_exact _ 1 (-1) (by norm_num) (by norm_num) (by norm_num) (by norm_num [abs_of_pos]))
    (rnd64_exact _ 1 (-1) (by norm_num) (by norm_num) (by norm_num) (by norm_num [abs_of_pos]))
    (rnd64_exact _ 50 0 (by norm_num) (by norm_num) (by norm_num) (by norm_num [abs_of_pos]))
  rw [h]
  norm_num

/-- The sample store gives a quiet report with the busy figure 50. -/
theorem sampleStore_report :
    ReportPerfCntrs 256 0 1 10000000 sampleStore = some ([], some 50) := by
  rw [ReportPerfCntrs_eq 256 0 1 10000000 sampleStore (by decide) (by decide),
    sampleStore_busy]
  rfl

set_option maxRecDepth 100000 in
/-- The two snapshots of the twice-sampled store are equal in every slot. -/
theorem sampleStoreTwice_snapshots_equal :
    ∀ i, i ≤ 256 → sampleStoreTwice.EndInfo i = sampleStoreTwice.StartInfo i := by
  decide

/-- Two records with the same six fields are equal. -/
theorem SPPI_eq_of_get (a b : SPPI) (h : ∀ f : Field, f.get a = f.get b) : a = b := by
  cases a
  cases b
  have h1 := h Field.IdleTime
  have h2 := h Field.KernelTime
  have h3 := h Field.UserTime
  have h4 := h Field.DpcTime
  have h5 := h Field.InterruptTime
  have h6 := h Field.InterruptCount
  simp only [Field.get] at h1 h2 h3 h4 h5 h6
  subst h1 h2 h3 h4 h5 h6
  rfl

/-- A slot whose two snapshots are equal has a zero delta, a zero total and
quotients by zero for its busy, kernel and user figures. -/
theorem slot_of_equal_snapshots (p : PerfObj) (i : Nat) (h : p.EndInfo i = p.StartInfo i) :
    DeltaInfo p i = zeroInfo
    ∧ TotalCPUTime p i = 0
    ∧ busyPct p i = none
    ∧ pctOf p (DeltaInfo p i).KernelTime i = none
    ∧ pctOf p (DeltaInfo p i).UserTime i = none := by
  have hD : DeltaInfo p i = zeroInfo := by
    simp [DeltaInfo, h, zeroInfo, i64_zero, i32_zero]
  have hT : TotalCPUTime p i = 0 := by
    simp [TotalCPUTime, hD, zeroInfo, i64_zero]
  refine ⟨hD, hT, ?_, ?_, ?_⟩
  · simp [busyPct, hT, F64.ofInt_zero, F64.div_zero, F64.sub_none, F64.mul_none]
  · simp [pctOf, hT, F64.ofInt_zero, F64.div_zero]
  · simp [pctOf, hT, F64.ofInt_zero, F64.div_zero]

/-- Two successive successful samples of the same `N ≤ MAXCPUS` records leave a
store whose two snapshots are equal in every slot. -/
theorem RestartPerfCntrs_same_records (MAXCPUS N : Nat) (q1 q2 : QueryResult) (c1 c2 : Int)
    (p0 p1 p2 : PerfObj) (hN : N ≤ MAXCPUS)
    (h1 : RestartPerfCntrs MAXCPUS N q1 c1 p0 = Except.ok p1)
    (h2 : RestartPerfCntrs MAXCPUS N q2 c2 p1 = Except.ok p2)
    (hsame : ∀ i, i < N → q2.info i = q1.info i) :
    ∀ i, i ≤ MAXCPUS → p2.EndInfo i = p2.StartInfo i := by
  have hlt : ∀ i, i < N → p2.EndInfo i = p1.EndInfo i := by
    intro i hi
    rw [RestartPerfCntrs_end_lt _ _ _ _ _ _ h2 hN i hi,
      RestartPerfCntrs_end_lt _ _ _ _ _ _ h1 hN i hi, hsame i hi]
  intro i hi
  rw [RestartPerfCntrs_start _ _ _ _ _ _ h2 i hi]
  by_cases hiN : i < N
  · exact hlt i hiN
  · by_cases hiM : i < MAXCPUS
    · rw [RestartPerfCntrs_end_zero _ _ _ _ _ _ h2 i (by omega) hiM,
        RestartPerfCntrs_end_zero _ _ _ _ _ _ h1 i (by omega) hiM]
    · have hiE : i = MAXCPUS := by omega
      subst hiE
      apply SPPI_eq_of_get
      intro f
      rw [RestartPerfCntrs_end_agg _ _ _ _ _ _ h2 hN f,
        RestartPerfCntrs_end_agg _ _ _ _ _ _ h1 hN f,
        sumField_congr f p2.EndInfo p1.EndInfo N hlt]

/-- Whatever `ReportPerfCntrs` returns, its value is the busy figure of the
aggregate slot. -/
theorem ReportPerfCntrs_value (MAXCPUS : Nat) (verbosity : Int) (numberOfProcessors : Nat)
    (TickHz : Int) (p : PerfObj) (r : List Out × Dbl)
    (h : ReportPerfCntrs MAXCPUS verbosity numberOfProcessors TickHz p = some r) :
    r.2 = busyPct p MAXCPUS := by
  unfold ReportPerfCntrs at h
  simp only at h
  cases hs : sdiv64 (i64 (i64 (p.EndTime - p.StartTime) * 10000)) TickHz with
  | none => rw [hs] at h; cases h
  | some a =>
    rw [hs] at h
    simp only at h
    split_ifs at h
    all_goals rw [← Option.some.inj h]

/-- The integer duration without overflow: the floor of the tick count times 10000
over the frequency. -/
theorem ActualDuration_eq (TickHz : Int) (p : PerfObj) (hle : p.StartTime ≤ p.EndTime)
    (hHz : 0 < TickHz) (hov : (p.EndTime - p.StartTime) * 10000 < 2 ^ 63) :
    ActualDuration TickHz p
      = some ⌊(((p.EndTime - p.StartTime) * 10000 : Int) : ℚ) / (TickHz : ℚ)⌋ := by
  have h0 : 0 ≤ p.EndTime - p.StartTime := by omega
  have e1 : i64 (p.EndTime - p.StartTime) = p.EndTime - p.StartTime := by
    apply i64_of_inRange <;> norm_num at hov ⊢ <;> omega
  have e2 : i64 ((p.EndTime - p.StartTime) * 10000) = (p.EndTime - p.StartTime) * 10000 := by
    apply i64_of_inRange <;> norm_num at hov ⊢ <;> omega
  have h1 : 0 ≤ (p.EndTime - p.StartTime) * 10000 := by omega
  obtain ⟨k, hk⟩ := Int.eq_ofNat_of_zero_le hHz.le
  have e3 : (⌊(((p.EndTime - p.StartTime) * 10000 : Int) : ℚ) / (TickHz : ℚ)⌋ : Int)
      = (p.EndTime - p.StartTime) * 10000 / TickHz := by
    rw [hk, Int.cast_natCast]
    exact Rat.floor_intCast_div_natCast _ _
  unfold ActualDuration
  rw [e1, e2, sdiv64_pos _ _ hHz, Int.tdiv_eq_ediv h1 hHz.le, e3]

/-- The floor of a non-negative tick count over a positive frequency is a
non-negative integer below `2 ^ 63` when the numerator is. -/
theorem floor_ticks_range (a TickHz : Int) (ha : 0 ≤ a) (hHz : 0 < TickHz)
    (hov : a < 2 ^ 63) :
    0 ≤ ⌊((a : Int) : ℚ) / (TickHz : ℚ)⌋ ∧ ⌊((a : Int) : ℚ) / (TickHz : ℚ)⌋ < 2 ^ 63 := by
  obtain ⟨k, hk⟩ := Int.eq_ofNat_of_zero_le hHz.le
  have e3 : (⌊((a : Int) : ℚ) / (TickHz : ℚ)⌋ : Int) = a / TickHz := by
    rw [hk, Int.cast_natCast]
    exact Rat.floor_intCast_div_natCast _ _
  rw [e3]
  constructor
  · exact Int.ediv_nonneg ha hHz.le
  · have : a / TickHz ≤ a := Int.ediv_le_self _ ha
    omega

theorem tenthsFloor_bounds (ticks TickHz : Int) (hHz : 0 < TickHz) :
    tenthsFloor ticks TickHz ≤ (ticks : ℚ) * 1000 / (TickHz : ℚ)
    ∧ (ticks : ℚ) * 1000 / (TickHz : ℚ) - tenthsFloor ticks TickHz < 1 / 10 := by
  unfold tenthsFloor
  have hq : (0 : ℚ) < (TickHz : ℚ) := by exact_mod_cast hHz
  have hx : (ticks : ℚ) * 1000 / (TickHz : ℚ)
      = ((ticks * 10000 : Int) : ℚ) / (TickHz : ℚ) / 10 := by
    push_cast
    field_simp
    ring
  have hfl := Int.floor_le (((ticks * 10000 : Int) : ℚ) / (TickHz : ℚ))
  have hlt := Int.lt_floor_add_one (((ticks * 10000 : Int) : ℚ) / (TickHz : ℚ))
  rw [hx]
  constructor
  · linarith
  · linarith

/-- Without overflow the total is the plain sum of the three deltas. -/
theorem TotalCPUTime_of_inRange (p : PerfObj) (i : Nat)
    (hlo : -(2 : Int) ^ 63 ≤ (DeltaInfo p i).IdleTime + (DeltaInfo p i).KernelTime
      + (DeltaInfo p i).UserTime)
    (hhi : (DeltaInfo p i).IdleTime + (DeltaInfo p i).KernelTime + (DeltaInfo p i).UserTime
      < 2 ^ 63) :
    TotalCPUTime p i
      = (DeltaInfo p i).IdleTime + (DeltaInfo p i).KernelTime + (DeltaInfo p i).UserTime := by
  rw [TotalCPUTime_eq, i64_of_inRange _ hlo hhi]

/-- The figures of the store `bigStore`, whose total overflows. -/
theorem bigStore_figures (i : Nat) (hi : i = 0 ∨ i = 256) :
    (DeltaInfo bigStore i).IdleTime = 4611686018427387904
    ∧ (DeltaInfo bigStore i).KernelTime = 0
    ∧ (DeltaInfo bigStore i).UserTime = 4611686018427387904
    ∧ TotalCPUTime bigStore i = -9223372036854775808
    ∧ busyPct bigStore i = some 150
    ∧ pctOf bigStore (DeltaInfo bigStore i).KernelTime i = some 0
    ∧ pctOf bigStore (DeltaInfo bigStore i).UserTime i = some (-50) := by
  have hI : (DeltaInfo bigStore i).IdleTime = 4611686018427387904 := by
    rcases hi with h | h <;> subst h <;> decide
  have hK : (DeltaInfo bigStore i).KernelTime = 0 := by
    rcases hi with h | h <;> subst h <;> decide
  have hU : (DeltaInfo bigStore i).UserTime = 4611686018427387904 := by
    rcases hi with h | h <;> subst h <;> decide
  have hT : TotalCPUTime bigStore i = -9223372036854775808 := by
    rcases hi with h | h <;> subst h <;> decide
  have e62 : ((4611686018427387904 : Int) : ℚ) = ((1 : Int) : ℚ) * 2 ^ (62 : ℤ) := by norm_num
  have e63 : ((-9223372036854775808 : Int) : ℚ) = ((-1 : Int) : ℚ) * 2 ^ (63 : ℤ) := by
    norm_num
  have r62 : rnd64 ((4611686018427387904 : Int) : ℚ) = some ((4611686018427387904 : Int) : ℚ) :=
    rnd64_exact _ 1 62 e62 (by norm_num) (by norm_num) (by norm_num [abs_of_pos])
  have r63 : rnd64 ((-9223372036854775808 : Int) : ℚ)
      = some ((-9223372036854775808 : Int) : ℚ) :=
    rnd64_exact _ (-1) 63 e63 (by norm_num) (by norm_num) (by norm_num [abs_of_neg])
  refine ⟨hI, hK, hU, hT, ?_, ?_, ?_⟩
  · rw [busyPct_exact bigStore i _ _ hI hT (by decide) r62 r63
      (rnd64_exact _ (-1) (-1) (by norm_num) (by norm_num) (by norm_num)
        (by norm_num [abs_of_neg]))
      (rnd64_exact _ 3 (-1) (by norm_num) (by norm_num) (by norm_num)
        (by norm_num [abs_of_pos]))
      (rnd64_exact _ 150 0 (by norm_num) (by norm_num) (by norm_num)
        (by norm_num [abs_of_pos]))]
    norm_num
  · rw [hK, pctOf_exact bigStore i 0 _ hT (by decide) (rnd64_int 0 (by norm_num)) r63
      (rnd64_exact _ 0 0 (by norm_num) (by norm_num) (by norm_num) (by norm_num))
      (rnd64_exact _ 0 0 (by norm_num) (by norm_num) (by norm_num) (by norm_num))]
    norm_num
  · rw [hU, pctOf_exact bigStore i _ _ hT (by decide) r62 r63
      (rnd64_exact _ 25 64 (by norm_num) (by norm_num) (by norm_num)
        (by norm_num [abs_of_pos]))
      (rnd64_exact _ (-50) 0 (by norm_num) (by norm_num) (by norm_num)
        (by norm_num [abs_of_neg]))]
    norm_num

/-- The busy figure from the values of its two conversions and three operations. -/
theorem busyPct_eval (p : PerfObj) (i : Nat) (I T : Int) (I' T' r s v : ℚ)
    (hI : (DeltaInfo p i).IdleTime = I) (hT : TotalCPUTime p i = T) (hT0 : T' ≠ 0)
    (h1 : rnd64 (I : ℚ) = some I') (h2 : rnd64 (T : ℚ) = some T')
    (h3 : rnd64 (I' / T') = some r) (h4 : rnd64 (1 - r) = some s)
    (h5 : rnd64 (100 * s) = some v) :
    busyPct p i = some v := by
  unfold busyPct
  rw [hI, hT]
  simp only [F64.ofInt, h1, h2, F64.div, if_neg hT0, h3, F64.sub, h4, F64.mul, h5]

/-- A percentage from the values of its two conversions and two operations. -/
theorem pctOf_eval (p : PerfObj) (i : Nat) (x T : Int) (x' T' m v : ℚ)
    (hT : TotalCPUTime p i = T) (hT0 : T' ≠ 0)
    (h1 : rnd64 (x : ℚ) = some x') (h2 : rnd64 (T : ℚ) = some T')
    (h3 : rnd64 (100 * x') = some m) (h4 : rnd64 (m / T') = some v) :
    pctOf p x i = some v := by
  unfold pctOf
  rw [hT]
  simp only [F64.ofInt, h1, h2, F64.mul, h3, F64.div, if_neg hT0, h4]

/-- The figures of `sixthStore` in slot 0 and in the aggregate slot: idle 1 out of
6, a busy figure above and a user figure below the exact `250 / 3`. -/
theorem sixthStore_figures (i : Nat) (hi : i = 0 ∨ i = 256) :
    (DeltaInfo sixthStore i).IdleTime = 1
    ∧ (DeltaInfo sixthStore i).KernelTime = 0
    ∧ (DeltaInfo sixthStore i).UserTime = 5
    ∧ TotalCPUTime sixthStore i = 6
    ∧ busyPct sixthStore i = some (5864062014805334 / 70368744177664)
    ∧ pctOf sixthStore (DeltaInfo sixthStore i).KernelTime i = some 0
    ∧ pctOf sixthStore (DeltaInfo sixthStore i).UserTime i
        = some (5864062014805333 / 70368744177664) := by
  have hI : (DeltaInfo sixthStore i).IdleTime = 1 := by rcases hi with h | h <;> subst h <;> decide
  have hK : (DeltaInfo sixthStore i).KernelTime = 0 := by
    rcases hi with h | h <;> subst h <;> decide
  have hU : (DeltaInfo sixthStore i).UserTime = 5 := by rcases hi with h | h <;> subst h <;> decide
  have hT : TotalCPUTime sixthStore i = 6 := by rcases hi with h | h <;> subst h <;> decide
  have r1 : rnd64 ((1 : Int) : ℚ) = some 1 := by
    simpa using rnd64_int 1 (by norm_num)
  have r6 : rnd64 ((6 : Int) : ℚ) = some 6 := by
    simpa using rnd64_int 6 (by norm_num)
  have r0 : rnd64 ((0 : Int) : ℚ) = some 0 := by
    simpa using rnd64_int 0 (by norm_num)
  have r5 : rnd64 ((5 : Int) : ℚ) = some 5 := by
    simpa using rnd64_int 5 (by norm_num)
  refine ⟨hI, hK, hU, hT, ?_, ?_, ?_⟩
  · exact busyPct_eval sixthStore i 1 6 1 6 _ _ _ hI hT (by norm_num) r1 r6 rnd64_sixth
      rnd64_five_sixths rnd64_busy_sixth
  · rw [hK]
    exact pctOf_eval sixthStore i 0 6 0 6 0 0 hT (by norm_num) r0 r6
      (by simpa using rnd64_zero) (by simpa using rnd64_zero)
  · rw [hU]
    exact pctOf_eval sixthStore i 5 6 5 6 500 _ hT (by norm_num) r5 r6
      (by norm_num; simpa using rnd64_int 500 (by norm_num)) rnd64_user_sixth

/-- The value of the corrector: the value of the calculator narrowed to `float` and
multiplied by the correction factor. -/
theorem calc_cpu_util_internal_value (MAXCPUS : Nat) (verbosity : Int)
    (numberOfProcessors : Nat) (TickHz : Int) (debug : Int) (lib_elapsed : Dbl)
    (p : PerfObj) (elapsed_time : Dbl) :
    (calc_cpu_util_internal MAXCPUS verbosity numberOfProcessors TickHz debug lib_elapsed p
        elapsed_time).map Prod.snd
      = (ReportPerfCntrs MAXCPUS verbosity numberOfProcessors TickHz p).map
          (fun r => F32.mul (F32.ofF64 r.2) (correction_factor lib_elapsed elapsed_time)) := by
  unfold calc_cpu_util_internal
  cases ReportPerfCntrs MAXCPUS verbosity numberOfProcessors TickHz p with
  | none => rfl
  | some r => rfl

theorem F32.mul_nonfinite (a : Dbl) : F32.mul a none = none := by
  cases a <;> rfl

/-- A measured time of `2 ^ 127` against a requested time of `1 / 2`: the quotient
overflows and the correction factor is not a finite number. -/
theorem correction_factor_overflow :
    correction_factor (some 170141183460469231731687303715884105728) (some (1 / 2)) = none := by
  have hne : (some (1 / 2) : Dbl) ≠ some 0 := by simp
  have u1 : F32.sub (some 170141183460469231731687303715884105728) (some (1 / 2))
      = some 170141183460469231731687303715884105728 := by
    simp only [F32.sub, rnd32_below_top]
  have u2 : F32.div (some 170141183460469231731687303715884105728) (some (1 / 2)) = none := by
    simp only [F32.div, if_neg (by norm_num : (1 / 2 : ℚ) ≠ 0), rnd32_overflow]
  unfold correction_factor
  rw [if_pos hne, u1, u2]
  rfl

/-- A measured time of 4 against a requested time of 3: the correction factor is
the `float` nearest to `1 + 11184811 / 2 ^ 25`. -/
theorem correction_factor_four_thirds :
    correction_factor (some 4) (some 3) = some (11184811 / 8388608) := by
  have hne : (some 3 : Dbl) ≠ some 0 := by simp
  have h1 : rnd32 ((4 : ℚ) - 3) = some 1 := by
    norm_num; exact rnd32_one
  unfold correction_factor
  rw [if_pos hne]
  simp only [F32.sub, h1, F32.div, if_neg (by norm_num : (3 : ℚ) ≠ 0), rnd32_third,
    F32.add, rnd32_four_thirds]

/-! ## Runs: lemmas -/

theorem runAdvances_cons_ok (MAXCPUS : Nat) (a : Advance) (rest : List Advance)
    (p p' : PerfObj) (h : runAdvances MAXCPUS (a :: rest) p = Except.ok p') :
    ∃ p1, RestartPerfCntrs MAXCPUS a.numberOfProcessors a.q a.Counter p = Except.ok p1
      ∧ runAdvances MAXCPUS rest p1 = Except.ok p' := by
  simp only [runAdvances] at h
  cases hr : RestartPerfCntrs MAXCPUS a.numberOfProcessors a.q a.Counter p with
  | error e => rw [hr] at h; cases h
  | ok p1 => rw [hr] at h; exact ⟨p1, rfl, h⟩

/-- A run against a non-decreasing clock that starts at or after `EndTime` keeps
`StartTime ≤ EndTime`. -/
theorem runAdvances_times (MAXCPUS : Nat) (steps : List Advance) :
    ∀ (p p' : PerfObj), p.StartTime ≤ p.EndTime →
      List.Chain (· ≤ ·) p.EndTime (steps.map Advance.Counter) →
      runAdvances MAXCPUS steps p = Except.ok p' → p'.StartTime ≤ p'.EndTime := by
  induction steps with
  | nil =>
    intro p p' h _ hr
    simp only [runAdvances] at hr
    cases hr
    exact h
  | cons a rest ih =>
    intro p p' _ hc hr
    obtain ⟨p1, h1, h2⟩ := runAdvances_cons_ok _ _ _ _ _ hr
    obtain ⟨-, -, -, -, hS, hE, -, -⟩ := RestartPerfCntrs_ok _ _ _ _ _ _ h1
    rw [List.map_cons, List.chain_cons] at hc
    apply ih p1 p' _ _ h2
    · rw [hS, hE]; exact hc.1
    · rw [hE]; exact hc.2

/-- After a non-empty run with positive readings `EndTime` is positive. -/
theorem runAdvances_endTime_pos (MAXCPUS : Nat) (steps : List Advance) :
    ∀ (p p' : PerfObj), (∀ a, a ∈ steps → 0 < a.Counter) → steps ≠ [] →
      runAdvances MAXCPUS steps p = Except.ok p' → 0 < p'.EndTime := by
  induction steps with
  | nil => intro p p' _ hne _; exact absurd rfl hne
  | cons a rest ih =>
    intro p p' hpos _ hr
    obtain ⟨p1, h1, h2⟩ := runAdvances_cons_ok _ _ _ _ _ hr
    obtain ⟨-, -, -, -, -, hE, -, -⟩ := RestartPerfCntrs_ok _ _ _ _ _ _ h1
    by_cases hrest : rest = []
    · subst hrest
      simp only [runAdvances] at h2
      cases h2
      rw [hE]
      exact hpos a (List.mem_cons_self _ _)
    · exact ih p1 p' (fun b hb => hpos b (List.mem_cons_of_mem _ hb)) hrest h2

/-- A successful `InitPerfCntrs` is the run of one sample from the zeroed store. -/
theorem InitPerfCntrs_ok (MAXCPUS NTVersion : Nat) (haveNtQuery haveTickHz : Bool)
    (numberOfProcessors : Nat) (q : QueryResult) (Counter : Int) (p : PerfObj)
    (h : InitPerfCntrs MAXCPUS NTVersion haveNtQuery haveTickHz numberOfProcessors q Counter
      = Except.ok p) :
    runAdvances MAXCPUS
      [{ numberOfProcessors := numberOfProcessors, q := q, Counter := Counter }] zeroPerfObj
      = Except.ok p := by
  unfold InitPerfCntrs at h
  split_ifs at h
  simp only [runAdvances, h]

/-! ## The aggregate invariant: lemmas -/

/-- Zero slots from `n` on do not change a sum. -/
theorem sumField_zero_tail (f : Field) (D : Nat → SPPI) (n : Nat) :
    ∀ M, n ≤ M → (∀ i, n ≤ i → i < M → D i = zeroInfo) →
      sumField f D M = sumField f D n := by
  intro M hM
  induction M, hM using Nat.le_induction with
  | base => intro _; rfl
  | succ k hk ih =>
    intro hz
    rw [sumField_succ, ih (fun i h1 h2 => hz i h1 (by omega)), hz k hk (by omega)]
    have : f.get zeroInfo = 0 := by cases f <;> rfl
    rw [this, add_zero]

/-- When the aggregate slot of both snapshots is the reduced sum of `K` slots, so
is the aggregate delta. -/
theorem DeltaInfo_agg_of_sums (MAXCPUS K : Nat) (p : PerfObj) (f : Field)
    (hS : f.get (p.StartInfo MAXCPUS) = f.wrap (sumField f p.StartInfo K))
    (hE : f.get (p.EndInfo MAXCPUS) = f.wrap (sumField f p.EndInfo K)) :
    f.get (DeltaInfo p MAXCPUS) = f.wrap (sumField f (DeltaInfo p) K) := by
  rw [DeltaInfo_get, hS, hE]
  apply Field.wrap_congr
  have hsum : sumField f (DeltaInfo p) K
      ≡ sumField f p.EndInfo K - sumField f p.StartInfo K [ZMOD 2 ^ f.bits] := by
    unfold sumField
    rw [← Finset.sum_sub_distrib]
    simp only [DeltaInfo_get]
    exact sum_wrap_modEq f _ K
  exact (((Field.wrap_modEq f _).sub (Field.wrap_modEq f _)).trans hsum.symm)

/-- One successful sample within the buffer keeps the aggregate slot of both
snapshots equal to the reduced sum of the `MAXCPUS` real slots. -/
theorem RestartPerfCntrs_keeps_sums (MAXCPUS : Nat) (numberOfProcessors : Nat)
    (q : QueryResult) (Counter : Int) (p p' : PerfObj)
    (h : RestartPerfCntrs MAXCPUS numberOfProcessors q Counter p = Except.ok p')
    (hfit : q.returnLength ≤ sizeofSPPI * MAXCPUS)
    (hE : ∀ f : Field, f.get (p.EndInfo MAXCPUS) = f.wrap (sumField f p.EndInfo MAXCPUS)) :
    ∀ f : Field,
      f.get (p'.StartInfo MAXCPUS) = f.wrap (sumField f p'.StartInfo MAXCPUS)
      ∧ f.get (p'.EndInfo MAXCPUS) = f.wrap (sumField f p'.EndInfo MAXCPUS) := by
  intro f
  obtain ⟨-, -, hcnt, -, -, -, -, -⟩ := RestartPerfCntrs_ok _ _ _ _ _ _ h
  have hN : numberOfProcessors ≤ MAXCPUS := by
    have h48 : sizeofSPPI = 48 := rfl
    rw [← hcnt]
    rw [h48] at hfit ⊢
    omega
  constructor
  · rw [RestartPerfCntrs_start _ _ _ _ _ _ h MAXCPUS (le_refl _),
      sumField_congr f p'.StartInfo p.EndInfo MAXCPUS
        (fun i hi => RestartPerfCntrs_start _ _ _ _ _ _ h i (by omega))]
    exact hE f
  · rw [RestartPerfCntrs_end_agg _ _ _ _ _ _ h hN f,
      sumField_zero_tail f p'.EndInfo numberOfProcessors MAXCPUS hN
        (fun i h1 h2 => RestartPerfCntrs_end_zero _ _ _ _ _ _ h i h1 h2)]

theorem sumField_zero (f : Field) (M : Nat) : sumField f (fun _ => zeroInfo) M = 0 := by
  unfold sumField
  apply Finset.sum_eq_zero
  intro i _
  cases f <;> rfl

/-- A run within the buffer keeps the aggregate slot of both snapshots equal to the
reduced sum of the `MAXCPUS` real slots. -/
theorem runAdvances_keeps_sums (MAXCPUS : Nat) (steps : List Advance) :
    ∀ (p p' : PerfObj),
      (∀ a, a ∈ steps → a.q.returnLength ≤ sizeofSPPI * MAXCPUS) →
      (∀ f : Field,
        f.get (p.StartInfo MAXCPUS) = f.wrap (sumField f p.StartInfo MAXCPUS)
        ∧ f.get (p.EndInfo MAXCPUS) = f.wrap (sumField f p.EndInfo MAXCPUS)) →
      runAdvances MAXCPUS steps p = Except.ok p' →
      ∀ f : Field,
        f.get (p'.StartInfo MAXCPUS) = f.wrap (sumField f p'.StartInfo MAXCPUS)
        ∧ f.get (p'.EndInfo MAXCPUS) = f.wrap (sumField f p'.EndInfo MAXCPUS) := by
  induction steps with
  | nil =>
    intro p p' _ hinv hr
    simp only [runAdvances] at hr
    cases hr
    exact hinv
  | cons a rest ih =>
    intro p p' hfit hinv hr
    obtain ⟨p1, h1, h2⟩ := runAdvances_cons_ok _ _ _ _ _ hr
    exact ih p1 p' (fun b hb => hfit b (List.mem_cons_of_mem _ hb))
      (RestartPerfCntrs_keeps_sums _ _ _ _ _ _ h1 (hfit a (List.mem_cons_self _ _))
        (fun f => (hinv f).2)) h2

theorem zeroPerfObj_sums (MAXCPUS : Nat) (f : Field) :
    f.get (zeroPerfObj.StartInfo MAXCPUS) = f.wrap (sumField f zeroPerfObj.StartInfo MAXCPUS)
    ∧ f.get (zeroPerfObj.EndInfo MAXCPUS)
        = f.wrap (sumField f zeroPerfObj.EndInfo MAXCPUS) := by
  have h0 : f.get zeroInfo = 0 := by cases f <;> rfl
  simp only [zeroPerfObj, sumField_zero, Field.wrap_zero, h0, and_self]

/-! ## CountSetBits: lemmas -/

/-- The count of the loop is the count on entry plus the number of visited values
of `bitTest` that meet the mask. -/
theorem CountSetBits.loop_eq (bitMask : Nat) :
    ∀ (k bitTest bitSetCount : Nat),
      CountSetBits.loop bitMask k bitTest bitSetCount
        = bitSetCount
          + ((CountSetBits.bitTests k bitTest).filter (fun t => bitMask &&& t ≠ 0)).length := by
  intro k
  induction k with
  | zero => intro b c; simp [CountSetBits.loop, CountSetBits.bitTests]
  | succ k ih =>
    intro b c
    rw [CountSetBits.loop, ih, CountSetBits.bitTests, List.filter_cons]
    by_cases hb : bitMask &&& b ≠ 0
    · simp [hb]; omega
    · simp [hb]

/-- From the top bit the loop visits the powers of two downwards, each once. -/
theorem CountSetBits.bitTests_top (k : Nat) :
    CountSetBits.bitTests (k + 1) (2 ^ k)
      = ((List.range (k + 1)).reverse).map (fun i => 2 ^ i) := by
  induction k with
  | zero => rfl
  | succ k ih =>
    have h2 : 2 ^ (k + 1) / 2 = 2 ^ k := by
      rw [pow_succ]; exact Nat.mul_div_cancel _ (by decide)
    rw [CountSetBits.bitTests, h2, ih, List.range_succ (k + 1), List.reverse_append]
    simp

theorem and_two_pow_ne_zero (m i : Nat) : (m &&& 2 ^ i ≠ 0) ↔ m.testBit i = true := by
  rw [Nat.and_two_pow]
  cases h : m.testBit i <;> simp

/-- The helper counts the set bits below the width. -/
theorem CountSetBits_eq (bits m : Nat) (hb : 0 < bits) :
    CountSetBits bits m = ((List.range bits).filter (fun i => m.testBit i)).length := by
  obtain ⟨k, rfl⟩ : ∃ k, bits = k + 1 := ⟨bits - 1, by omega⟩
  unfold CountSetBits
  simp only [Nat.add_sub_cancel, Nat.one_shiftLeft]
  rw [CountSetBits.loop_eq, CountSetBits.bitTests_top, Nat.zero_add, List.filter_map,
    List.length_map, List.filter_reverse, List.length_reverse]
  congr 1
  apply List.filter_congr
  intro i _
  simp only [Function.comp]
  by_cases h : m.testBit i = true
  · simp [h, (and_two_pow_ne_zero m i).mpr h]
  · have h' : ¬ (m &&& 2 ^ i ≠ 0) := fun hc => h ((and_two_pow_ne_zero m i).mp hc)
    simp only [ne_eq, Decidable.not_not] at h'
    simp [h, h']



/-! ## The sampler over checked memory: lemmas -/

theorem Arr.rd_ok (a : Arr) (i : Nat) (h : i < a.cells.length) :
    a.rd i = Except.ok (a.toFun i, { a with log := a.log ++ [Access.read i] }) := by
  unfold Arr.rd Arr.toFun
  rw [if_pos h]

theorem Arr.wr_ok (a : Arr) (i : Nat) (v : SPPI) (h : i < a.cells.length) :
    a.wr i v = Except.ok { cells := a.cells.set i v, log := a.log ++ [Access.write i] } := by
  unfold Arr.wr
  rw [if_pos h]

/-- A write within the array updates the slot and no other. -/
theorem Arr.toFun_set (cells : List SPPI) (l l2 : List Access) (i : Nat) (v : SPPI)
    (h : i < cells.length) :
    Arr.toFun { cells := cells.set i v, log := l }
      = Function.update (Arr.toFun { cells := cells, log := l2 }) i v := by
  funext j
  unfold Arr.toFun
  by_cases hj : j = i
  · subst hj
    simp [List.getD_eq_getElem?_getD, h]
  · simp [List.getD_eq_getElem?_getD, Function.update_noteq hj, List.getElem?_set_ne (Ne.symm hj)]

/-- A successful statement `a[i] = g(a[i])`. -/
theorem Arr.update_ok (a : Arr) (i : Nat) (g : SPPI → SPPI) (h : i < a.cells.length) :
    ∃ b, a.update i g = Except.ok b
      ∧ b.cells.length = a.cells.length
      ∧ b.toFun = Function.update a.toFun i (g (a.toFun i))
      ∧ b.log = a.log ++ [Access.read i, Access.write i] := by
  refine ⟨{ cells := a.cells.set i (g (a.toFun i)),
            log := a.log ++ [Access.read i] ++ [Access.write i] }, ?_, ?_, ?_, ?_⟩
  · unfold Arr.update
    rw [Arr.rd_ok a i h]
    exact Arr.wr_ok { cells := a.cells, log := a.log ++ [Access.read i] } i _ h
  · simp
  · exact Arr.toFun_set a.cells _ a.log i _ h
  · simp

/-- A successful statement `a[k].f += a[i].f`. -/
theorem Arr.accum_ok (a : Arr) (k i : Nat) (g : SPPI → SPPI → SPPI)
    (hk : k < a.cells.length) (hi : i < a.cells.length) :
    ∃ b, a.accum k i g = Except.ok b
      ∧ b.cells.length = a.cells.length
      ∧ b.toFun = Function.update a.toFun k (g (a.toFun k) (a.toFun i))
      ∧ b.log = a.log ++ [Access.read k, Access.read i, Access.write k] := by
  refine ⟨{ cells := a.cells.set k (g (a.toFun k) (a.toFun i)),
            log := a.log ++ [Access.read k] ++ [Access.read i] ++ [Access.write k] },
    ?_, ?_, ?_, ?_⟩
  · unfold Arr.accum
    rw [Arr.rd_ok a k hk]
    simp only
    rw [Arr.rd_ok { cells := a.cells, log := a.log ++ [Access.read k] } i hi]
    exact Arr.wr_ok { cells := a.cells, log := a.log ++ [Access.read k] ++ [Access.read i] }
      k _ hk
  · simp
  · exact Arr.toFun_set a.cells _ a.log k _ hk
  · simp
/-- A successful pass through the body of the loop: the array is updated as by
`totalStep` and the accesses are those of `totalStepLog`. -/
theorem totalStepMem_ok (MAXCPUS : Nat) (E : Arr) (i : Nat) (hi : i < E.cells.length)
    (hM : MAXCPUS < E.cells.length) :
    ∃ E', totalStepMem MAXCPUS E i = Except.ok E'
      ∧ E'.cells.length = E.cells.length
      ∧ E'.toFun = totalStep MAXCPUS E.toFun i
      ∧ E'.log = E.log ++ totalStepLog MAXCPUS i := by
  obtain ⟨E1, h1, l1, f1, g1⟩ := Arr.update_ok E i
    (fun e => { e with KernelTime := i64 (e.KernelTime - e.IdleTime) }) hi
  obtain ⟨E2, h2, l2, f2, g2⟩ := Arr.accum_ok E1 MAXCPUS i
    (fun t e => { t with IdleTime := i64 (t.IdleTime + e.IdleTime) })
    (by rw [l1]; exact hM) (by rw [l1]; exact hi)
  obtain ⟨E3, h3, l3, f3, g3⟩ := Arr.accum_ok E2 MAXCPUS i
    (fun t e => { t with KernelTime := i64 (t.KernelTime + e.KernelTime) })
    (by rw [l2, l1]; exact hM) (by rw [l2, l1]; exact hi)
  obtain ⟨E4, h4, l4, f4, g4⟩ := Arr.accum_ok E3 MAXCPUS i
    (fun t e => { t with UserTime := i64 (t.UserTime + e.UserTime) })
    (by rw [l3, l2, l1]; exact hM) (by rw [l3, l2, l1]; exact hi)
  obtain ⟨E5, h5, l5, f5, g5⟩ := Arr.accum_ok E4 MAXCPUS i
    (fun t e => { t with DpcTime := i64 (t.DpcTime + e.DpcTime) })
    (by rw [l4, l3, l2, l1]; exact hM) (by rw [l4, l3, l2, l1]; exact hi)
  obtain ⟨E6, h6, l6, f6, g6⟩ := Arr.accum_ok E5 MAXCPUS i
    (fun t e => { t with InterruptTime := i64 (t.InterruptTime + e.InterruptTime) })
    (by rw [l5, l4, l3, l2, l1]; exact hM) (by rw [l5, l4, l3, l2, l1]; exact hi)
  obtain ⟨E7, h7, l7, f7, g7⟩ := Arr.accum_ok E6 MAXCPUS i
    (fun t e => { t with InterruptCount := i32 (t.InterruptCount + e.InterruptCount) })
    (by rw [l6, l5, l4, l3, l2, l1]; exact hM) (by rw [l6, l5, l4, l3, l2, l1]; exact hi)
  refine ⟨E7, ?_, ?_, ?_, ?_⟩
  · unfold totalStepMem
    simp only [h1, h2, h3, h4, h5, h6, h7]
  · rw [l7, l6, l5, l4, l3, l2, l1]
  · rw [f7, f6, f5, f4, f3, f2, f1]
    rfl
  · rw [g7, g6, g5, g4, g3, g2, g1]
    simp [totalStepLog]

/-- The loop over checked memory succeeds when its indices and the aggregate slot
are within the array. -/
theorem totalAllMem_ok (MAXCPUS : Nat) (E : Arr) (hM : MAXCPUS < E.cells.length) (N : Nat)
    (hN : N ≤ E.cells.length) :
    ∃ E', totalAllMem MAXCPUS E N = Except.ok E'
      ∧ E'.cells.length = E.cells.length
      ∧ E'.toFun = totalAll MAXCPUS E.toFun N
      ∧ E'.log = E.log ++ (List.range N).flatMap (totalStepLog MAXCPUS) := by
  induction N with
  | zero => exact ⟨E, rfl, rfl, rfl, by simp⟩
  | succ n ih =>
    obtain ⟨E1, h1, l1, f1, g1⟩ := ih (by omega)
    obtain ⟨E2, h2, l2, f2, g2⟩ := totalStepMem_ok MAXCPUS E1 n (by rw [l1]; omega)
      (by rw [l1]; exact hM)
    refine ⟨E2, ?_, by rw [l2, l1], ?_, ?_⟩
    · unfold totalAllMem at h1 ⊢
      rw [List.range_succ, List.foldlM_append, h1]
      simp only [bind, Except.bind, List.foldlM_cons, List.foldlM_nil, h2]
      rfl
    · rw [f2, f1, totalAll_succ]
    · rw [g2, g1, List.range_succ, List.flatMap_append]
      simp
/-- A zero-fill within the array succeeds: the array is updated as by `ZeroMemory`
and the writes go to the slots `start .. start + n - 1`. -/
theorem ZeroMemoryMem_ok (E : Arr) (start n : Nat) (h : start + n ≤ E.cells.length) :
    ∃ E', ZeroMemoryMem E start n = Except.ok E'
      ∧ E'.cells.length = E.cells.length
      ∧ E'.toFun = ZeroMemory E.toFun start n
      ∧ E'.log = E.log ++ (List.range' start n).map Access.write := by
  induction n with
  | zero =>
    refine ⟨E, rfl, rfl, ?_, by simp⟩
    funext j
    unfold ZeroMemory
    rw [if_neg (by omega)]
  | succ k ih =>
    obtain ⟨E1, h1, l1, f1, g1⟩ := ih (by omega)
    have hk : start + k < E1.cells.length := by rw [l1]; omega
    refine ⟨{ cells := E1.cells.set (start + k) zeroInfo,
              log := E1.log ++ [Access.write (start + k)] }, ?_, ?_, ?_, ?_⟩
    · unfold ZeroMemoryMem at h1 ⊢
      rw [List.range'_concat, List.foldlM_append, h1]
      simp only [bind, Except.bind, List.foldlM_cons, List.foldlM_nil, Nat.one_mul,
        Arr.wr_ok E1 (start + k) zeroInfo hk]
      rfl
    · simp [l1]
    · rw [Arr.toFun_set E1.cells _ E1.log (start + k) zeroInfo hk]
      show Function.update E1.toFun (start + k) zeroInfo = _
      rw [f1]
      funext j
      unfold ZeroMemory
      by_cases hj : j = start + k
      · subst hj
        simp
      · rw [Function.update_noteq hj]
        by_cases h2 : start ≤ j ∧ j < start + k
        · rw [if_pos h2, if_pos (by omega)]
        · rw [if_neg h2, if_neg (by omega)]
    · simp [g1, List.range'_concat]

/-- The source writing `n` records within the array. -/
theorem writeRecordsMem_ok (E : Arr) (info : Nat → SPPI) (n : Nat)
    (h : n ≤ E.cells.length) :
    ∃ E', writeRecordsMem E info n = Except.ok E'
      ∧ E'.cells.length = E.cells.length
      ∧ E'.toFun = writeRecords E.toFun info n
      ∧ E'.log = E.log ++ (List.range n).map Access.write := by
  induction n with
  | zero =>
    refine ⟨E, rfl, rfl, ?_, by simp⟩
    funext j
    simp [writeRecords]
  | succ k ih =>
    obtain ⟨E1, h1, l1, f1, g1⟩ := ih (by omega)
    have hk : k < E1.cells.length := by rw [l1]; omega
    refine ⟨{ cells := E1.cells.set k (info k), log := E1.log ++ [Access.write k] },
      ?_, ?_, ?_, ?_⟩
    · unfold writeRecordsMem at h1 ⊢
      rw [List.range_succ, List.foldlM_append, h1]
      simp only [bind, Except.bind, List.foldlM_cons, List.foldlM_nil,
        Arr.wr_ok E1 k (info k) hk]
      rfl
    · simp [l1]
    · rw [Arr.toFun_set E1.cells _ E1.log k (info k) hk]
      show Function.update E1.toFun k (info k) = _
      rw [f1]
      funext j
      unfold writeRecords
      by_cases hj : j = k
      · subst hj
        simp
      · rw [Function.update_noteq hj]
        by_cases h2 : j < k
        · rw [if_pos h2, if_pos (by omega)]
        · rw [if_neg h2, if_neg (by omega)]
    · simp [g1, List.range_succ]

/-- A copy of `n` records within both arrays. -/
theorem CopyMemoryMem_ok (dst src : Arr) (n : Nat) (hd : n ≤ dst.cells.length)
    (hs : n ≤ src.cells.length) :
    ∃ d s, CopyMemoryMem dst src n = Except.ok (d, s)
      ∧ d.cells.length = dst.cells.length
      ∧ s.cells = src.cells
      ∧ d.toFun = CopyMemory dst.toFun src.toFun n
      ∧ d.log = dst.log ++ (List.range n).map Access.write
      ∧ s.log = src.log ++ (List.range n).map Access.read := by
  induction n with
  | zero =>
    refine ⟨dst, src, rfl, rfl, rfl, ?_, by simp, by simp⟩
    funext j
    simp [CopyMemory]
  | succ k ih =>
    obtain ⟨d1, s1, h1, l1, c1, f1, g1, r1⟩ := ih (by omega) (by omega)
    have hk : k < d1.cells.length := by rw [l1]; omega
    have hk2 : k < s1.cells.length := by rw [c1]; omega
    refine ⟨{ cells := d1.cells.set k (s1.toFun k), log := d1.log ++ [Access.write k] },
      { s1 with log := s1.log ++ [Access.read k] }, ?_, ?_, ?_, ?_, ?_, ?_⟩
    · unfold CopyMemoryMem at h1 ⊢
      rw [List.range_succ, List.foldlM_append, h1]
      simp only [bind, Except.bind, List.foldlM_cons, List.foldlM_nil, Arr.rd_ok s1 k hk2,
        Arr.wr_ok d1 k _ hk]
      rfl
    · simp [l1]
    · exact c1
    · rw [Arr.toFun_set d1.cells _ d1.log k _ hk]
      show Function.update d1.toFun k (s1.toFun k) = _
      have hsf : s1.toFun = src.toFun := by unfold Arr.toFun; rw [c1]
      rw [f1, hsf]
      funext j
      unfold CopyMemory
      by_cases hj : j = k
      · subst hj
        simp
      · rw [Function.update_noteq hj]
        by_cases h2 : j < k
        · rw [if_pos h2, if_pos (by omega)]
        · rw [if_neg h2, if_neg (by omega)]
    · simp [g1, List.range_succ]
    · simp [r1, List.range_succ]

/-- The `DWORD` length of the zero-fill without wrap-around. -/
theorem zeroFillCount_eq (MAXCPUS N : Nat) (hN : N ≤ MAXCPUS + 1)
    (hM : MAXCPUS + 1 < 4294967296) : zeroFillCount MAXCPUS N = MAXCPUS + 1 - N := by
  unfold zeroFillCount
  omega

/-- With arrays of the declared length `MAXCPUS + 1` and a record count
`N ≤ MAXCPUS + 1` that passes the checks, the sampler over checked memory returns:
no access is out of bounds, the store it leaves is the one `RestartPerfCntrs` gives,
and the accesses to the two arrays are those of the copy, of the source, of the
zero-fill and of the loop, in this order. -/
theorem RestartPerfCntrsMem_ok (MAXCPUS N : Nat) (q : QueryResult) (Counter : Int)
    (m : PerfMem) (hS : m.StartInfo.cells.length = MAXCPUS + 1)
    (hE : m.EndInfo.cells.length = MAXCPUS + 1) (hM : MAXCPUS + 1 < 4294967296)
    (hst : q.status = 0) (hmult : q.returnLength % sizeofSPPI = 0)
    (hcnt : q.returnLength / sizeofSPPI = N) (hN : N ≤ MAXCPUS + 1) :
    ∃ m', RestartPerfCntrsMem MAXCPUS N q Counter m = Except.ok m'
      ∧ m'.StartInfo.cells.length = MAXCPUS + 1
      ∧ m'.EndInfo.cells.length = MAXCPUS + 1
      ∧ RestartPerfCntrs MAXCPUS N q Counter m.toPerfObj = Except.ok m'.toPerfObj
      ∧ m'.StartInfo.log
          = m.StartInfo.log ++ (List.range (MAXCPUS + 1)).map Access.write
      ∧ m'.EndInfo.log
          = m.EndInfo.log ++ (List.range (MAXCPUS + 1)).map Access.read
            ++ (List.range N).map Access.write
            ++ (List.range' N (MAXCPUS + 1 - N)).map Access.write
            ++ (List.range N).flatMap (totalStepLog MAXCPUS) := by
  obtain ⟨d, s, h1, l1, c1, f1, g1, r1⟩ := CopyMemoryMem_ok m.StartInfo m.EndInfo (MAXCPUS + 1)
    (by omega) (by omega)
  have ls : s.cells.length = MAXCPUS + 1 := by rw [c1]; exact hE
  obtain ⟨E2, h2, l2, f2, g2⟩ := writeRecordsMem_ok s q.info N (by omega)
  obtain ⟨E3, h3, l3, f3, g3⟩ := ZeroMemoryMem_ok E2 N (MAXCPUS + 1 - N)
    (by rw [l2, ls]; omega)
  obtain ⟨E4, h4, l4, f4, g4⟩ := totalAllMem_ok MAXCPUS E3 (by rw [l3, l2, ls]; omega) N
    (by rw [l3, l2, ls]; omega)
  have h1n : ¬ (q.status ≠ 0) := fun hc => hc hst
  have h2n : ¬ (q.returnLength % sizeofSPPI ≠ 0) := fun hc => hc hmult
  have h3n : ¬ (q.returnLength / sizeofSPPI ≠ N) := fun hc => hc hcnt
  have h5 : ¬ (MAXCPUS + 1 < q.returnLength / sizeofSPPI) := by omega
  have hsf : s.toFun = m.EndInfo.toFun := by unfold Arr.toFun; rw [c1]
  refine ⟨{ StartTime := m.EndTime, EndTime := Counter, StartInfo := d, EndInfo := E4 },
    ?_, by rw [l1, hS], by rw [l4, l3, l2, ls], ?_, g1, ?_⟩
  · unfold RestartPerfCntrsMem
    rw [h1]
    simp only
    rw [if_neg h1n, hcnt, h2]
    simp only
    rw [if_neg h2n, if_neg (fun hc => hc rfl), zeroFillCount_eq MAXCPUS N hN hM, h3]
    simp only
    rw [h4]
  · unfold RestartPerfCntrs
    simp only
    rw [if_neg h1n, if_neg h2n, if_neg h3n, if_neg h5, hcnt]
    unfold PerfMem.toPerfObj
    simp only [f1, f4, f3, f2, hsf]
  · rw [g4, g3, g2, r1]
/-- The accesses of one pass through the body of the loop go to the slots `i` and
`MAXCPUS`. -/
theorem mem_totalStepLog (MAXCPUS i : Nat) (a : Access) (h : a ∈ totalStepLog MAXCPUS i) :
    a.slot = i ∨ a.slot = MAXCPUS := by
  simp only [totalStepLog, List.replicate, List.flatten, List.append_nil, List.cons_append,
    List.nil_append, List.mem_cons, List.mem_singleton, List.not_mem_nil, or_false] at h
  rcases h with h | h | h | h | h | h | h | h | h | h | h | h | h | h | h | h | h | h | h | h
  all_goals subst h
  all_goals simp [Access.slot]

/-- The accesses of the copy, of the source, of the zero-fill and of the loop for a
record count `N ≤ MAXCPUS + 1` go to slots `0 .. MAXCPUS`. -/
theorem sampler_accesses_in_range (MAXCPUS N : Nat) (hN : N ≤ MAXCPUS + 1) (a : Access)
    (h : a ∈ (List.range (MAXCPUS + 1)).map Access.read
            ++ (List.range N).map Access.write
            ++ (List.range' N (MAXCPUS + 1 - N)).map Access.write
            ++ (List.range N).flatMap (totalStepLog MAXCPUS)) :
    a.slot ≤ MAXCPUS := by
  simp only [List.mem_append, List.mem_map, List.mem_range, List.mem_range'_1,
    List.mem_flatMap] at h
  rcases h with ((⟨i, hi, rfl⟩ | ⟨i, hi, rfl⟩) | ⟨i, hi, rfl⟩) | ⟨i, hi, ha⟩
  · simp only [Access.slot]; omega
  · simp only [Access.slot]; omega
  · simp only [Access.slot]; omega
  · rcases mem_totalStepLog MAXCPUS i a ha with h | h <;> omega

/-- The store in memory made from a store has arrays of the declared length. -/
theorem memOf_length (MAXCPUS : Nat) (p : PerfObj) :
    (memOf MAXCPUS p).StartInfo.cells.length = MAXCPUS + 1
    ∧ (memOf MAXCPUS p).EndInfo.cells.length = MAXCPUS + 1 := by
  simp [memOf]
/-- A zero-fill that runs one slot beyond the end of the array is an access out of
bounds. -/
theorem ZeroMemoryMem_beyond (E : Arr) (start n : Nat) (h : start + n = E.cells.length) :
    ZeroMemoryMem E start (n + 1) = Except.error Fatal.OutOfBounds := by
  obtain ⟨E1, h1, l1, -, -⟩ := ZeroMemoryMem_ok E start n (by omega)
  have hk : ¬ (start + n < E1.cells.length) := by rw [l1]; omega
  unfold ZeroMemoryMem at h1 ⊢
  rw [List.range'_concat, List.foldlM_append, h1]
  simp only [bind, Except.bind, List.foldlM_cons, List.foldlM_nil, Nat.one_mul, Arr.wr,
    if_neg hk]

/-! ## Claims -/

/-- C1, counterexample. In `bigStore` the aggregate deltas of idle, kernel and user
time are `2 ^ 62`, 0 and `2 ^ 62`: their sum is not zero and the formula of the claim
with that sum as total gives 50, but `ReportPerfCntrs` returns 150, the total of the
program being the 64-bit sum `-2 ^ 63`.  In `sixthStore`, idle 1 out of a total of 6
without overflow, `ReportPerfCntrs` returns the `double` `5864062014805334 / 2 ^ 46`,
which is not `100 * (1 - 1 / 6)`. -/
theorem C1_report_busy_counterexample :
    RestartPerfCntrs 256 1 bigQuery 1 zeroPerfObj = Except.ok bigStore
    ∧ (DeltaInfo bigStore 256).IdleTime = 4611686018427387904
    ∧ (DeltaInfo bigStore 256).KernelTime = 0
    ∧ (DeltaInfo bigStore 256).UserTime = 4611686018427387904
    ∧ (ReportPerfCntrs 256 0 1 10000000 bigStore).map Prod.snd = some (some 150)
    ∧ (100 * (1 - (4611686018427387904 : ℚ)
          / (4611686018427387904 + 0 + 4611686018427387904)) : ℚ) = 50
    ∧ RestartPerfCntrs 256 1 sixthQuery 1 zeroPerfObj = Except.ok sixthStore
    ∧ (DeltaInfo sixthStore 256).IdleTime = 1
    ∧ (DeltaInfo sixthStore 256).KernelTime = 0
    ∧ (DeltaInfo sixthStore 256).UserTime = 5
    ∧ (ReportPerfCntrs 256 0 1 10000000 sixthStore).map Prod.snd
        = some (some (5864062014805334 / 70368744177664))
    ∧ (5864062014805334 / 70368744177664 : ℚ) ≠ 100 * (1 - 1 / (1 + 0 + 5)) := by
  have hb := bigStore_figures 256 (Or.inr rfl)
  have hs := sixthStore_figures 256 (Or.inr rfl)
  refine ⟨rfl, hb.1, hb.2.1, hb.2.2.1, ?_, by norm_num, rfl, hs.1, hs.2.1, hs.2.2.1, ?_,
    by norm_num⟩
  · rw [ReportPerfCntrs_eq 256 0 1 10000000 bigStore (by decide) (by decide), hb.2.2.2.2.1]
    rfl
  · rw [ReportPerfCntrs_eq 256 0 1 10000000 sixthStore (by decide) (by decide),
      hs.2.2.2.2.1]
    rfl

/-- C1, amended. Let `I`, `K`, `U` be the 64-bit differences of the idle, kernel and
user time of the aggregate slot `MAXCPUS` between the end and the start snapshot,
and `T` the 64-bit sum `I + K + U` (the plain sum whenever that is representable);
DPC and interrupt time are not part of `T`.  With a positive tick frequency and a
processor count within the arrays, when `T ≠ 0` the calculator returns a finite
`double`: the value of `100.0 * (1.0 - (double)I / (double)T)` with each conversion
and operation rounded to nearest.  It lies within `(1 + |I / T|) / 2 ^ 43` of
`100 * (1 - I / T)` and is exactly that number when none of the five steps rounds. -/
theorem C1_report_busy_formula (MAXCPUS : Nat) (verbosity : Int) (numberOfProcessors : Nat)
    (TickHz : Int) (p : PerfObj) (I K U T : Int) (hHz : 0 < TickHz)
    (hn : numberOfProcessors ≤ MAXCPUS + 1)
    (hI : I = i64 ((p.EndInfo MAXCPUS).IdleTime - (p.StartInfo MAXCPUS).IdleTime))
    (hK : K = i64 ((p.EndInfo MAXCPUS).KernelTime - (p.StartInfo MAXCPUS).KernelTime))
    (hU : U = i64 ((p.EndInfo MAXCPUS).UserTime - (p.StartInfo MAXCPUS).UserTime))
    (hT : T = i64 (I + K + U)) (htot : T ≠ 0) :
    ∃ v : ℚ,
      (ReportPerfCntrs MAXCPUS verbosity numberOfProcessors TickHz p).map Prod.snd
        = some (some v)
      ∧ F64.mul (some 100) (F64.sub (some 1) (F64.div (F64.ofInt I) (F64.ofInt T))) = some v
      ∧ |v - 100 * (1 - (I : ℚ) / (T : ℚ))| ≤ (1 + |(I : ℚ) / (T : ℚ)|) / 2 ^ 43
      ∧ (rnd64 (I : ℚ) = some (I : ℚ) → rnd64 (T : ℚ) = some (T : ℚ) →
          rnd64 ((I : ℚ) / (T : ℚ)) = some ((I : ℚ) / (T : ℚ)) →
          rnd64 (1 - (I : ℚ) / (T : ℚ)) = some (1 - (I : ℚ) / (T : ℚ)) →
          rnd64 (100 * (1 - (I : ℚ) / (T : ℚ))) = some (100 * (1 - (I : ℚ) / (T : ℚ))) →
          v = 100 * (1 - (I : ℚ) / (T : ℚ)))
      ∧ (-(2 : Int) ^ 63 ≤ I + K + U → I + K + U < 2 ^ 63 → T = I + K + U) := by
  have eI : (DeltaInfo p MAXCPUS).IdleTime = I := by rw [hI]; rfl
  have eK : (DeltaInfo p MAXCPUS).KernelTime = K := by rw [hK]; rfl
  have eU : (DeltaInfo p MAXCPUS).UserTime = U := by rw [hU]; rfl
  have eT : TotalCPUTime p MAXCPUS = T := by rw [TotalCPUTime_eq, eI, eK, eU, hT]
  have htot' : TotalCPUTime p MAXCPUS ≠ 0 := by rw [eT]; exact htot
  obtain ⟨v, hv, hb⟩ := busyPct_bound p MAXCPUS htot'
  rw [eI, eT] at hb
  have hv' : F64.mul (some 100) (F64.sub (some 1) (F64.div (F64.ofInt I) (F64.ofInt T)))
      = some v := by
    rw [← hv]; unfold busyPct; rw [eI, eT]
  refine ⟨v, ?_, hv', hb, ?_, ?_⟩
  · rw [ReportPerfCntrs_eq MAXCPUS verbosity numberOfProcessors TickHz p hHz hn, hv]
    rfl
  · intro h1 h2 h3 h4 h5
    have := busyPct_exact p MAXCPUS I T eI eT htot h1 h2 h3 h4 h5
    rw [hv] at this
    exact Option.some.inj this
  · intro h1 h2
    rw [hT, i64_of_inRange _ h1 h2]

/-- C1, witness. From the zeroed store, one processor reported with idle 300,
kernel 500 and user 100 gives the corrected kernel time 200, the total 600 and the
busy figure 50. -/
theorem C1_report_busy_formula_witness :
    RestartPerfCntrs 256 1 sampleQuery 20000000 zeroPerfObj = Except.ok sampleStore
    ∧ (sampleStore.EndInfo 0).KernelTime = 200
    ∧ (0 : Int) < 10000000 ∧ 1 ≤ 256 + 1
    ∧ (300 : Int)
        = i64 ((sampleStore.EndInfo 256).IdleTime - (sampleStore.StartInfo 256).IdleTime)
    ∧ (200 : Int)
        = i64 ((sampleStore.EndInfo 256).KernelTime - (sampleStore.StartInfo 256).KernelTime)
    ∧ (100 : Int)
        = i64 ((sampleStore.EndInfo 256).UserTime - (sampleStore.StartInfo 256).UserTime)
    ∧ (600 : Int) = i64 (300 + 200 + 100)
    ∧ (600 : Int) ≠ 0
    ∧ (ReportPerfCntrs 256 0 1 10000000 sampleStore).map Prod.snd = some (some 50) := by
  obtain ⟨v, h1, -, -, h4, -⟩ := C1_report_busy_formula 256 0 1 10000000 sampleStore
    300 200 100 600 (by decide) (by decide) (by decide) (by decide) (by decide) (by decide)
    (by decide)
  have hv : v = 50 := by
    rw [h4 (rnd64_int 300 (by norm_num)) (rnd64_int 600 (by norm_num))
      (rnd64_exact _ 1 (-1) (by norm_num) (by norm_num) (by norm_num)
        (by norm_num [abs_of_pos]))
      (rnd64_exact _ 1 (-1) (by norm_num) (by norm_num) (by norm_num)
        (by norm_num [abs_of_pos]))
      (rnd64_exact _ 50 0 (by norm_num) (by norm_num) (by norm_num)
        (by norm_num [abs_of_pos]))]
    norm_num
  rw [hv] at h1
  exact ⟨rfl, by decide, by decide, by decide, by decide, by decide, by decide, by decide,
    by decide, h1⟩

/-- C2, counterexample. The same answer of the counter source sampled twice gives a
store whose snapshots are equal; there the returned busy figure, and the busy,
kernel and user figures of processor 0 and of the aggregate, are not finite
numbers: none of them is the value 0. -/
theorem C2_zero_elapsed_counterexample :
    RestartPerfCntrs 256 1 sampleQuery 30000000 sampleStore = Except.ok sampleStoreTwice
    ∧ sampleStoreTwice.EndInfo 0 = sampleStoreTwice.StartInfo 0
    ∧ sampleStoreTwice.EndInfo 256 = sampleStoreTwice.StartInfo 256
    ∧ (ReportPerfCntrs 256 0 1 10000000 sampleStoreTwice).map Prod.snd = some none
    ∧ (ReportPerfCntrs 256 0 1 10000000 sampleStoreTwice).map Prod.snd ≠ some (some 0)
    ∧ busyPct sampleStoreTwice 0 = none
    ∧ pctOf sampleStoreTwice (DeltaInfo sampleStoreTwice 0).KernelTime 0 = none
    ∧ pctOf sampleStoreTwice (DeltaInfo sampleStoreTwice 0).UserTime 0 = none
    ∧ pctOf sampleStoreTwice (DeltaInfo sampleStoreTwice 256).KernelTime 256 = none
    ∧ pctOf sampleStoreTwice (DeltaInfo sampleStoreTwice 256).UserTime 256 = none := by
  have h0 := slot_of_equal_snapshots sampleStoreTwice 0 (by decide)
  have hM := slot_of_equal_snapshots sampleStoreTwice 256 (by decide)
  have hr : (ReportPerfCntrs 256 0 1 10000000 sampleStoreTwice).map Prod.snd = some none := by
    rw [ReportPerfCntrs_eq 256 0 1 10000000 sampleStoreTwice (by decide) (by decide),
      hM.2.2.1]
    rfl
  refine ⟨rfl, by decide, by decide, hr, ?_, h0.2.2.1, h0.2.2.2.1, h0.2.2.2.2, hM.2.2.2.1,
    hM.2.2.2.2⟩
  rw [hr]
  simp

/-- C2, amended. When the two snapshots of the store are equal in every slot
`0 .. MAXCPUS`, every delta and every `TotalCPUTime[i]` is zero and nothing guards
the divisions: with a positive tick frequency and a processor count within the
arrays `ReportPerfCntrs` still returns, but its value and the busy, kernel and user
figures of every slot are quotients by zero, values that are not finite numbers. -/
theorem C2_zero_elapsed_not_finite (MAXCPUS : Nat) (verbosity : Int)
    (numberOfProcessors : Nat) (TickHz : Int) (p : PerfObj) (hHz : 0 < TickHz)
    (hn : numberOfProcessors ≤ MAXCPUS + 1)
    (heq : ∀ i, i ≤ MAXCPUS → p.EndInfo i = p.StartInfo i) :
    (ReportPerfCntrs MAXCPUS verbosity numberOfProcessors TickHz p).map Prod.snd = some none
    ∧ ∀ i, i ≤ MAXCPUS →
        DeltaInfo p i = zeroInfo
        ∧ TotalCPUTime p i = 0
        ∧ busyPct p i = none
        ∧ pctOf p (DeltaInfo p i).KernelTime i = none
        ∧ pctOf p (DeltaInfo p i).UserTime i = none := by
  have key : ∀ i, i ≤ MAXCPUS →
      DeltaInfo p i = zeroInfo
        ∧ TotalCPUTime p i = 0
        ∧ busyPct p i = none
        ∧ pctOf p (DeltaInfo p i).KernelTime i = none
        ∧ pctOf p (DeltaInfo p i).UserTime i = none :=
    fun i hi => slot_of_equal_snapshots p i (heq i hi)
  refine ⟨?_, key⟩
  rw [ReportPerfCntrs_eq MAXCPUS verbosity numberOfProcessors TickHz p hHz hn,
    (key MAXCPUS (le_refl _)).2.2.1]
  rfl

/-- C2, witness: the amended statement at the twice-sampled store. -/
theorem C2_zero_elapsed_not_finite_witness :
    (0 : Int) < 10000000 ∧ 1 ≤ 256 + 1
    ∧ (∀ i, i ≤ 256 → sampleStoreTwice.EndInfo i = sampleStoreTwice.StartInfo i)
    ∧ ((ReportPerfCntrs 256 2 1 10000000 sampleStoreTwice).map Prod.snd = some none
      ∧ ∀ i, i ≤ 256 →
        DeltaInfo sampleStoreTwice i = zeroInfo
        ∧ TotalCPUTime sampleStoreTwice i = 0
        ∧ busyPct sampleStoreTwice i = none
        ∧ pctOf sampleStoreTwice (DeltaInfo sampleStoreTwice i).KernelTime i = none
        ∧ pctOf sampleStoreTwice (DeltaInfo sampleStoreTwice i).UserTime i = none) :=
  ⟨by decide, by decide, sampleStoreTwice_snapshots_equal,
    C2_zero_elapsed_not_finite 256 2 1 10000000 sampleStoreTwice (by decide) (by decide)
      sampleStoreTwice_snapshots_equal⟩

/-- C3. After every successful call of `RestartPerfCntrs` the start snapshot equals
the end snapshot of before the call in each of the `MAXCPUS + 1` slots (the
aggregate slot `MAXCPUS` included), and `StartTime` equals the former `EndTime`. -/
theorem C3_start_is_previous_end (MAXCPUS : Nat) (numberOfProcessors : Nat)
    (q : QueryResult) (Counter : Int) (p p' : PerfObj)
    (h : RestartPerfCntrs MAXCPUS numberOfProcessors q Counter p = Except.ok p') :
    (∀ i, i ≤ MAXCPUS → p'.StartInfo i = p.EndInfo i) ∧ p'.StartTime = p.EndTime := by
  unfold RestartPerfCntrs at h
  simp only at h
  split_ifs at h
  injection h with h
  subst h
  refine ⟨?_, rfl⟩
  intro i hi
  have : i < MAXCPUS + 1 := by omega
  simp [CopyMemory, this]

/-- C3, witness: the second sample of the sample run. -/
theorem C3_start_is_previous_end_witness :
    RestartPerfCntrs 256 1 sampleQuery 30000000 sampleStore = Except.ok sampleStoreTwice
    ∧ ((∀ i, i ≤ 256 → sampleStoreTwice.StartInfo i = sampleStore.EndInfo i)
      ∧ sampleStoreTwice.StartTime = sampleStore.EndTime) :=
  ⟨rfl, C3_start_is_previous_end 256 1 sampleQuery 30000000 sampleStore sampleStoreTwice rfl⟩

/-- C4, counterexample. Two successive samples of two processors, the second with
an interrupt count of `2 ^ 30` on each: the two deltas sum to `2 ^ 31`, the delta of
the aggregate slot is `-2 ^ 31`. -/
theorem C4_aggregate_exact_sum_counterexample :
    RestartPerfCntrs 256 2 zeroQuery2 1 zeroPerfObj = Except.ok countStore1
    ∧ RestartPerfCntrs 256 2 countQuery2 2 countStore1 = Except.ok countStore2
    ∧ (DeltaInfo countStore2 0).InterruptCount = 1073741824
    ∧ (DeltaInfo countStore2 1).InterruptCount = 1073741824
    ∧ (DeltaInfo countStore2 256).InterruptCount = -2147483648
    ∧ (DeltaInfo countStore2 256).InterruptCount
        ≠ (DeltaInfo countStore2 0).InterruptCount + (DeltaInfo countStore2 1).InterruptCount := by
  refine ⟨rfl, rfl, by decide, by decide, by decide, by decide⟩

/-- C4, amended. For every `N ≤ MAXCPUS` and two successive successful samples of
`N` processors, the delta of the aggregate slot `MAXCPUS` is, in each of the six
fields, the sum of the deltas of the processors `0 .. N-1` reduced to the width of
the field (64 bits for the times, 32 bits for the interrupt count); it is that sum
itself whenever the sum is representable at that width. -/
theorem C4_aggregate_delta_sum (MAXCPUS N : Nat) (q1 q2 : QueryResult) (c1 c2 : Int)
    (p0 p1 p2 : PerfObj) (hN : N ≤ MAXCPUS)
    (h1 : RestartPerfCntrs MAXCPUS N q1 c1 p0 = Except.ok p1)
    (h2 : RestartPerfCntrs MAXCPUS N q2 c2 p1 = Except.ok p2) (f : Field) :
    f.get (DeltaInfo p2 MAXCPUS) = f.wrap (sumField f (DeltaInfo p2) N)
    ∧ (-(2 : Int) ^ (f.bits - 1) ≤ sumField f (DeltaInfo p2) N →
        sumField f (DeltaInfo p2) N < 2 ^ (f.bits - 1) →
        f.get (DeltaInfo p2 MAXCPUS) = sumField f (DeltaInfo p2) N) := by
  have key := aggregate_delta MAXCPUS N q1 q2 c1 c2 p0 p1 p2 hN h1 h2 f
  refine ⟨key, ?_⟩
  intro hlo hhi
  rw [key, Field.wrap_of_inRange f _ hlo hhi]

/-- C4, witness: the kernel time of the sample run, whose delta is 300. -/
theorem C4_aggregate_delta_sum_witness :
    1 ≤ 256
    ∧ RestartPerfCntrs 256 1 sampleQuery 20000000 zeroPerfObj = Except.ok sampleStore
    ∧ RestartPerfCntrs 256 1 sampleQueryLater 30000000 sampleStore = Except.ok sampleStoreLater
    ∧ (DeltaInfo sampleStoreLater 256).KernelTime = 300
    ∧ Field.get Field.KernelTime (DeltaInfo sampleStoreLater 256)
        = sumField Field.KernelTime (DeltaInfo sampleStoreLater) 1 := by
  have h := C4_aggregate_delta_sum 256 1 sampleQuery sampleQueryLater 20000000 30000000
    zeroPerfObj sampleStore sampleStoreLater (by decide) rfl rfl Field.KernelTime
  refine ⟨by decide, rfl, rfl, by decide, h.2 ?_ ?_⟩
  · simp only [sumField, Finset.sum_range_one]; decide
  · simp only [sumField, Finset.sum_range_one]; decide

/-- C5. After every successful sample of `N ≤ MAXCPUS` processors each entry
`i < N` of `EndInfo` holds the record the source reported, with the kernel time
replaced by the 64-bit difference kernel - idle (the difference itself whenever it
is representable) and every other field as reported. -/
theorem C5_kernel_corrected_once (MAXCPUS N : Nat) (q : QueryResult) (Counter : Int)
    (p p' : PerfObj) (h : RestartPerfCntrs MAXCPUS N q Counter p = Except.ok p')
    (hN : N ≤ MAXCPUS) (i : Nat) (hi : i < N) :
    p'.EndInfo i
      = { IdleTime := (q.info i).IdleTime,
          KernelTime := i64 ((q.info i).KernelTime - (q.info i).IdleTime),
          UserTime := (q.info i).UserTime,
          DpcTime := (q.info i).DpcTime,
          InterruptTime := (q.info i).InterruptTime,
          InterruptCount := (q.info i).InterruptCount }
    ∧ (-(2 : Int) ^ 63 ≤ (q.info i).KernelTime - (q.info i).IdleTime →
        (q.info i).KernelTime - (q.info i).IdleTime < 2 ^ 63 →
        (p'.EndInfo i).KernelTime = (q.info i).KernelTime - (q.info i).IdleTime) := by
  have key := RestartPerfCntrs_end_lt MAXCPUS N q Counter p p' h hN i hi
  refine ⟨by rw [key]; rfl, ?_⟩
  intro hlo hhi
  rw [key]
  exact i64_of_inRange _ hlo hhi

/-- C5, witness: the second sample of the sample run reports kernel 1200 and idle
700 and leaves kernel 500. -/
theorem C5_kernel_corrected_once_witness :
    RestartPerfCntrs 256 1 sampleQueryLater 30000000 sampleStore = Except.ok sampleStoreLater
    ∧ 1 ≤ 256 ∧ 0 < 1
    ∧ sampleStoreLater.EndInfo 0
        = { IdleTime := 700, KernelTime := 500, UserTime := 300, DpcTime := 40,
            InterruptTime := 20, InterruptCount := 7 } := by
  have h := (C5_kernel_corrected_once 256 1 sampleQueryLater 30000000 sampleStore
    sampleStoreLater rfl (by decide) 0 (by decide)).1
  refine ⟨rfl, by decide, by decide, ?_⟩
  rw [h]
  decide

/-- C6. After every successful sample of `N` processors, whatever the store held
before, every entry `i` of `EndInfo` with `N ≤ i < MAXCPUS` (there is one exactly
when `N < MAXCPUS`) is zero in every field. -/
theorem C6_unreported_entries_zero (MAXCPUS N : Nat) (q : QueryResult) (Counter : Int)
    (p p' : PerfObj) (h : RestartPerfCntrs MAXCPUS N q Counter p = Except.ok p')
    (i : Nat) (hi1 : N ≤ i) (hi2 : i < MAXCPUS) :
    p'.EndInfo i = zeroInfo ∧ ∀ f : Field, f.get (p'.EndInfo i) = 0 := by
  have key := RestartPerfCntrs_end_zero MAXCPUS N q Counter p p' h i hi1 hi2
  refine ⟨key, ?_⟩
  intro f
  rw [key]
  cases f <;> rfl

/-- C6, witness: entry 1 holds an interrupt count after a sample of two
processors and is zero after the next sample, of one processor. -/
theorem C6_unreported_entries_zero_witness :
    (countStore2.EndInfo 1).InterruptCount = 1073741824
    ∧ RestartPerfCntrs 256 1 sampleQuery 3 countStore2 = Except.ok shrunkStore
    ∧ 1 ≤ 1 ∧ 1 < 256
    ∧ (shrunkStore.EndInfo 1 = zeroInfo
        ∧ ∀ f : Field, f.get (shrunkStore.EndInfo 1) = 0) :=
  ⟨by decide, rfl, by decide, by decide,
    C6_unreported_entries_zero 256 1 sampleQuery 3 countStore2 shrunkStore rfl 1
      (by decide) (by decide)⟩

/-- C7. `RestartPerfCntrs` stops with a fatal error whenever the byte count of the
source is not a multiple of the record size, and whenever the record count (byte
count / record size) differs from the processor count; when the source reports
success (status 0) within the buffer of `MAXCPUS` records it was given, the call
stops in no other case. -/
theorem C7_fatal_cases (MAXCPUS : Nat) (numberOfProcessors : Nat) (q : QueryResult)
    (Counter : Int) (p : PerfObj) :
    (q.returnLength % sizeofSPPI ≠ 0 →
      ∃ e, RestartPerfCntrs MAXCPUS numberOfProcessors q Counter p = Except.error e)
    ∧ (q.returnLength / sizeofSPPI ≠ numberOfProcessors →
      ∃ e, RestartPerfCntrs MAXCPUS numberOfProcessors q Counter p = Except.error e)
    ∧ (q.status = 0 → q.returnLength ≤ sizeofSPPI * MAXCPUS →
      ((∃ e, RestartPerfCntrs MAXCPUS numberOfProcessors q Counter p = Except.error e)
        ↔ (q.returnLength % sizeofSPPI ≠ 0
            ∨ q.returnLength / sizeofSPPI ≠ numberOfProcessors))) := by
  have fails : ∀ (P : Prop),
      (∀ p', RestartPerfCntrs MAXCPUS numberOfProcessors q Counter p = Except.ok p' → ¬ P) →
      P → ∃ e, RestartPerfCntrs MAXCPUS numberOfProcessors q Counter p = Except.error e := by
    intro P hP hp
    cases hr : RestartPerfCntrs MAXCPUS numberOfProcessors q Counter p with
    | error e => exact ⟨e, rfl⟩
    | ok p' => exact absurd hp (hP p' hr)
  have hA : q.returnLength % sizeofSPPI ≠ 0 →
      ∃ e, RestartPerfCntrs MAXCPUS numberOfProcessors q Counter p = Except.error e :=
    fails _ (fun p' hr hne => hne (RestartPerfCntrs_ok _ _ _ _ _ _ hr).2.1)
  have hB : q.returnLength / sizeofSPPI ≠ numberOfProcessors →
      ∃ e, RestartPerfCntrs MAXCPUS numberOfProcessors q Counter p = Except.error e :=
    fails _ (fun p' hr hne => hne (RestartPerfCntrs_ok _ _ _ _ _ _ hr).2.2.1)
  refine ⟨hA, hB, ?_⟩
  intro hst hfit
  constructor
  · rintro ⟨e, he⟩
    by_contra hcon
    push_neg at hcon
    have hle : numberOfProcessors ≤ MAXCPUS + 1 := by
      have h48 : sizeofSPPI = 48 := rfl
      rw [← hcon.2]
      rw [h48] at hfit ⊢
      omega
    obtain ⟨p', hp'⟩ := RestartPerfCntrs_succeeds MAXCPUS numberOfProcessors q Counter p hst
      hcon.1 hcon.2 hle
    rw [hp'] at he
    cases he
  · rintro (h | h)
    · exact hA h
    · exact hB h

/-- C7, witness: a byte count of 50 stops the call, one record against two
processors stops the call, and one record against one processor does not. -/
theorem C7_fatal_cases_witness :
    (∃ e, RestartPerfCntrs 256 1 raggedQuery 1 zeroPerfObj = Except.error e)
    ∧ (∃ e, RestartPerfCntrs 256 2 sampleQuery 1 zeroPerfObj = Except.error e)
    ∧ ¬ (∃ e, RestartPerfCntrs 256 1 sampleQuery 1 zeroPerfObj = Except.error e) :=
  ⟨(C7_fatal_cases 256 1 raggedQuery 1 zeroPerfObj).1 (by decide),
    (C7_fatal_cases 256 2 sampleQuery 1 zeroPerfObj).2.1 (by decide),
    fun h =>
      absurd (((C7_fatal_cases 256 1 sampleQuery 1 zeroPerfObj).2.2 rfl (by decide)).mp h)
        (by decide)⟩

/-- C8, counterexample. With the measured busy figure 50 of the sample store, a
requested time of 3 and a measured time of 4, `calc_cpu_util_internal` returns the
`float` `4369067 / 65536`, not `50 * (1 + (4 - 3) / 3)`; with a requested time of
`1 / 2` and a measured time of `2 ^ 127` it returns a value that is not a finite
number. -/
theorem C8_correction_counterexample :
    ReportPerfCntrs 256 0 1 10000000 sampleStore = some ([], some 50)
    ∧ (3 : ℚ) ≠ 0
    ∧ (calc_cpu_util_internal 256 0 1 10000000 0 (some 4) sampleStore (some 3)).map Prod.snd
        = some (some (4369067 / 65536))
    ∧ (4369067 / 65536 : ℚ) ≠ 50 * (1 + (4 - 3) / 3)
    ∧ (1 / 2 : ℚ) ≠ 0
    ∧ (calc_cpu_util_internal 256 0 1 10000000 0
          (some 170141183460469231731687303715884105728) sampleStore (some (1 / 2))).map
          Prod.snd
        = some none := by
  have h50 : rnd32 (50 : ℚ) = some 50 := by
    simpa using rnd32_int 50 (by norm_num)
  refine ⟨sampleStore_report, by norm_num, ?_, by norm_num, by norm_num, ?_⟩
  · rw [calc_cpu_util_internal_value, sampleStore_report, correction_factor_four_thirds]
    simp only [Option.map_some', F32.ofF64, h50, F32.mul, rnd32_two_thirds_of_100]
  · rw [calc_cpu_util_internal_value, sampleStore_report, correction_factor_overflow]
    simp [F32.mul_nonfinite]

/-- C8, amended. When `ReportPerfCntrs` returns the value `u`, then for every
requested elapsed time `r ≠ 0` and every measured elapsed time `a` (`lib_elapsed`),
`calc_cpu_util_internal` returns the `float` product of `(float)u` and the factor
`1.0f + (a - r) / r`, each of the four operations and the narrowing rounded to
nearest, a value that is not a finite number when one of them overflows.  For
`2 ^ (-20) ≤ r ≤ a ≤ 2 ^ 20` and a finite `u = p` that is zero or of a size between
`2 ^ (-60)` and `2 ^ 60`, the result is finite and within `2 ^ (-21)` of the size of
`p * (1 + (a - r) / r)` from it; it is exactly `p * (1 + (a - r) / r)` when no step
rounds. -/
theorem C8_correction_formula (MAXCPUS : Nat) (verbosity : Int) (numberOfProcessors : Nat)
    (TickHz : Int) (debug : Int) (p : PerfObj) (out : List Out) (u : Dbl) (r a : ℚ)
    (hrep : ReportPerfCntrs MAXCPUS verbosity numberOfProcessors TickHz p = some (out, u))
    (hr : r ≠ 0) :
    correction_factor (some a) (some r)
        = F32.add (some 1) (F32.div (F32.sub (some a) (some r)) (some r))
    ∧ (calc_cpu_util_internal MAXCPUS verbosity numberOfProcessors TickHz debug (some a) p
        (some r)).map Prod.snd
      = some (F32.mul (F32.ofF64 u)
          (F32.add (some 1) (F32.div (F32.sub (some a) (some r)) (some r))))
    ∧ (∀ x : ℚ, u = some x → 1 / 2 ^ 20 ≤ r → r ≤ a → a ≤ 2 ^ 20 →
        (x = 0 ∨ 1 / 2 ^ 60 ≤ |x|) → |x| ≤ 2 ^ 60 →
        ∃ w : ℚ,
          (calc_cpu_util_internal MAXCPUS verbosity numberOfProcessors TickHz debug (some a) p
            (some r)).map Prod.snd = some (some w)
          ∧ |w - x * (1 + (a - r) / r)| ≤ |x * (1 + (a - r) / r)| / 2 ^ 21)
    ∧ (∀ x : ℚ, u = some x → rnd32 x = some x → rnd32 (a - r) = some (a - r) →
        rnd32 ((a - r) / r) = some ((a - r) / r) →
        rnd32 (1 + (a - r) / r) = some (1 + (a - r) / r) →
        rnd32 (x * (1 + (a - r) / r)) = some (x * (1 + (a - r) / r)) →
        (calc_cpu_util_internal MAXCPUS verbosity numberOfProcessors TickHz debug (some a) p
          (some r)).map Prod.snd = some (some (x * (1 + (a - r) / r)))) := by
  have hne : (some r : Dbl) ≠ some 0 := fun h => hr (Option.some.inj h)
  have hf : correction_factor (some a) (some r)
      = F32.add (some 1) (F32.div (F32.sub (some a) (some r)) (some r)) := by
    unfold correction_factor
    rw [if_pos hne]
  have hc : (calc_cpu_util_internal MAXCPUS verbosity numberOfProcessors TickHz debug (some a)
      p (some r)).map Prod.snd
      = some (F32.mul (F32.ofF64 u) (correction_factor (some a) (some r))) := by
    rw [calc_cpu_util_internal_value, hrep]
    rfl
  refine ⟨hf, by rw [hc, hf], ?_, ?_⟩
  · intro x hu h1 h2 h3 h4 h5
    obtain ⟨f, hfv, ef⟩ := correction_factor_bound a r h1 h2 h3
    have hrpos : 0 < r := lt_of_lt_of_le (by positivity) h1
    have hQ0 : 0 ≤ (a - r) / r := div_nonneg (by linarith) hrpos.le
    have hQU : (a - r) / r ≤ 2 ^ 40 := by
      rw [div_le_iff₀ hrpos]
      have : (2 : ℚ) ^ 40 * (1 / 2 ^ 20) ≤ 2 ^ 40 * r :=
        mul_le_mul_of_nonneg_left h1 (by positivity)
      have e : (2 : ℚ) ^ 40 * (1 / 2 ^ 20) = 2 ^ 20 := by norm_num
      linarith
    have habs : |1 + (a - r) / r| = 1 + (a - r) / r := abs_of_nonneg (by linarith)
    obtain ⟨w, hw, ew⟩ := corrected_value_bound x f (1 + (a - r) / r) h4 h5 ef
      (by rw [habs]; linarith)
      (by
        rw [habs]
        have : (2 : ℚ) ^ 40 + 1 ≤ 2 ^ 41 := by norm_num
        linarith)
    exact ⟨w, by rw [hc, hfv, hu, hw], ew⟩
  · intro x hu h1 h2 h3 h4 h5
    rw [hc, hf, hu]
    simp only [F32.ofF64, h1, F32.sub, h2, F32.div, if_neg hr, h3, F32.add, h4, F32.mul, h5]

/-- C8, witness: a measured 50 with 10 requested and 20 elapsed gives 100. -/
theorem C8_correction_formula_witness :
    ReportPerfCntrs 256 0 1 10000000 sampleStore = some ([], some 50)
    ∧ (10 : ℚ) ≠ 0
    ∧ (calc_cpu_util_internal 256 0 1 10000000 0 (some 20) sampleStore (some 10)).map Prod.snd
        = some (some 100) := by
  refine ⟨sampleStore_report, by norm_num, ?_⟩
  rw [(C8_correction_formula 256 0 1 10000000 0 sampleStore [] (some 50) 10 20
    sampleStore_report (by norm_num)).2.2.2 50 rfl
      (by simpa using rnd32_int 50 (by norm_num))
      (by norm_num; simpa using rnd32_int 10 (by norm_num))
      (by norm_num; exact rnd32_one)
      (by norm_num; simpa using rnd32_int 2 (by norm_num))
      (by norm_num; simpa using rnd32_int 100 (by norm_num))]
  norm_num

/-- C11, counterexample. The sample answer of the counter source taken twice: the
deltas are zero, and the busy figure of processor 0, of the aggregate, and the value
`ReportPerfCntrs` returns are quotients by zero, not the value 0. -/
theorem C11_unchanged_source_counterexample :
    RestartPerfCntrs 256 1 sampleQuery 20000000 zeroPerfObj = Except.ok sampleStore
    ∧ RestartPerfCntrs 256 1 sampleQuery 30000000 sampleStore = Except.ok sampleStoreTwice
    ∧ DeltaInfo sampleStoreTwice 0 = zeroInfo
    ∧ DeltaInfo sampleStoreTwice 256 = zeroInfo
    ∧ busyPct sampleStoreTwice 0 = none
    ∧ busyPct sampleStoreTwice 0 ≠ some 0
    ∧ busyPct sampleStoreTwice 256 = none
    ∧ busyPct sampleStoreTwice 256 ≠ some 0
    ∧ (ReportPerfCntrs 256 2 1 10000000 sampleStoreTwice).map Prod.snd ≠ some (some 0) := by
  have h0 := slot_of_equal_snapshots sampleStoreTwice 0 (by decide)
  have hM := slot_of_equal_snapshots sampleStoreTwice 256 (by decide)
  refine ⟨rfl, rfl, h0.1, hM.1, h0.2.2.1, ?_, hM.2.2.1, ?_, ?_⟩
  · rw [h0.2.2.1]; simp
  · rw [hM.2.2.1]; simp
  · rw [ReportPerfCntrs_eq 256 2 1 10000000 sampleStoreTwice (by decide) (by decide),
      hM.2.2.1]
    simp

/-- C11, amended. For every store and every `N ≤ MAXCPUS`, two successive
successful samples in which the source returns the same `N` records leave every
delta and every `TotalCPUTime[i]` zero, and the busy figure of every processor and
of the aggregate is then the quotient of a division by zero, a value that is not a
finite number; with a positive tick frequency and a processor count within the
arrays `ReportPerfCntrs` returns that value. -/
theorem C11_unchanged_source_not_finite (MAXCPUS N : Nat) (q1 q2 : QueryResult)
    (c1 c2 : Int) (p0 p1 p2 : PerfObj) (verbosity : Int) (numberOfProcessors : Nat)
    (TickHz : Int) (hN : N ≤ MAXCPUS)
    (h1 : RestartPerfCntrs MAXCPUS N q1 c1 p0 = Except.ok p1)
    (h2 : RestartPerfCntrs MAXCPUS N q2 c2 p1 = Except.ok p2)
    (hsame : ∀ i, i < N → q2.info i = q1.info i)
    (hHz : 0 < TickHz) (hn : numberOfProcessors ≤ MAXCPUS + 1) :
    (∀ i, i ≤ MAXCPUS →
        DeltaInfo p2 i = zeroInfo ∧ TotalCPUTime p2 i = 0 ∧ busyPct p2 i = none)
    ∧ (ReportPerfCntrs MAXCPUS verbosity numberOfProcessors TickHz p2).map Prod.snd
        = some none := by
  have heq := RestartPerfCntrs_same_records MAXCPUS N q1 q2 c1 c2 p0 p1 p2 hN h1 h2 hsame
  have key : ∀ i, i ≤ MAXCPUS →
      DeltaInfo p2 i = zeroInfo ∧ TotalCPUTime p2 i = 0 ∧ busyPct p2 i = none := by
    intro i hi
    obtain ⟨a, b, c, -, -⟩ := slot_of_equal_snapshots p2 i (heq i hi)
    exact ⟨a, b, c⟩
  refine ⟨key, ?_⟩
  rw [ReportPerfCntrs_eq MAXCPUS verbosity numberOfProcessors TickHz p2 hHz hn,
    (key MAXCPUS (le_refl _)).2.2]
  rfl

/-- C11, witness: the sample answer taken twice after a sample of two processors. -/
theorem C11_unchanged_source_not_finite_witness :
    1 ≤ 256
    ∧ RestartPerfCntrs 256 1 sampleQuery 3 countStore2 = Except.ok shrunkStore
    ∧ RestartPerfCntrs 256 1 sampleQuery 4 shrunkStore = Except.ok shrunkStoreTwice
    ∧ (∀ i, i < 1 → sampleQuery.info i = sampleQuery.info i)
    ∧ (0 : Int) < 10000000 ∧ 2 ≤ 256 + 1
    ∧ ((∀ i, i ≤ 256 →
          DeltaInfo shrunkStoreTwice i = zeroInfo ∧ TotalCPUTime shrunkStoreTwice i = 0
          ∧ busyPct shrunkStoreTwice i = none)
      ∧ (ReportPerfCntrs 256 2 2 10000000 shrunkStoreTwice).map Prod.snd = some none) :=
  ⟨by decide, rfl, rfl, fun _ _ => rfl, by decide, by decide,
    C11_unchanged_source_not_finite 256 1 sampleQuery sampleQuery 3 4 countStore2 shrunkStore
      shrunkStoreTwice 2 2 10000000 (by decide) rfl rfl (fun _ _ => rfl) (by decide)
      (by decide)⟩

/-- C12, counterexample. One successful sample from the zeroed store while the
clock reads 0 (a non-negative, non-decreasing sequence of readings) leaves both
timestamps zero after the first advance. -/
theorem C12_timestamps_counterexample :
    clockReadings (zeroClockRun.map Advance.Counter)
    ∧ zeroClockRun ≠ []
    ∧ runAdvances 256 zeroClockRun zeroPerfObj = Except.ok zeroClockStore
    ∧ zeroClockStore.StartTime = 0
    ∧ zeroClockStore.EndTime = 0 := by
  refine ⟨?_, List.cons_ne_nil _ _, rfl, by decide, by decide⟩
  simp [clockReadings, zeroClockRun]

/-- C12, amended. In every state reached from the zeroed store by a sequence of
successful samples against a clock whose readings are non-negative and
non-decreasing, `StartTime ≤ EndTime`; when the readings are positive, both
timestamps are zero only in the state before the first sample. -/
theorem C12_timestamps_ordered (MAXCPUS : Nat) (steps : List Advance) (p : PerfObj)
    (hclock : clockReadings (steps.map Advance.Counter))
    (hrun : runAdvances MAXCPUS steps zeroPerfObj = Except.ok p) :
    p.StartTime ≤ p.EndTime
    ∧ ((∀ a, a ∈ steps → 0 < a.Counter) →
        ((p.StartTime = 0 ∧ p.EndTime = 0) ↔ steps = [])) := by
  refine ⟨runAdvances_times MAXCPUS steps zeroPerfObj p (le_refl _) hclock hrun, ?_⟩
  intro hpos
  constructor
  · rintro ⟨-, hE⟩
    by_contra hne
    have := runAdvances_endTime_pos MAXCPUS steps zeroPerfObj p hpos hne hrun
    omega
  · intro hnil
    subst hnil
    simp only [runAdvances] at hrun
    cases hrun
    exact ⟨rfl, rfl⟩

/-- C12, witness: the run of three samples at the readings 1, 2, 3. -/
theorem C12_timestamps_ordered_witness :
    clockReadings (sampleRun.map Advance.Counter)
    ∧ runAdvances 256 sampleRun zeroPerfObj = Except.ok shrunkStore
    ∧ shrunkStore.StartTime ≤ shrunkStore.EndTime := by
  have hc : clockReadings (sampleRun.map Advance.Counter) := by
    simp [clockReadings, sampleRun]
  exact ⟨hc, rfl, (C12_timestamps_ordered 256 sampleRun shrunkStore hc rfl).1⟩

/-- C13, counterexample. One sample taken from the zeroed store at the counter
reading 1000, with ten million ticks per second: `ActualDuration` is 1 tenth of a
millisecond and `duration` is the `double` quotient `1 / 10.0`, which is the number
`3602879701896397 / 2 ^ 55`: it is not `floor(1000 * 10000 / 10000000) / 10` and it
exceeds the exact duration of 0.1 ms. -/
theorem C13_elapsed_duration_counterexample :
    RestartPerfCntrs 256 1 sampleQuery 1000 zeroPerfObj = Except.ok tenthStore
    ∧ tenthStore.StartTime = 0 ∧ tenthStore.EndTime = 1000
    ∧ tenthStore.StartTime ≤ tenthStore.EndTime
    ∧ (0 : Int) < 10000000
    ∧ (tenthStore.EndTime - tenthStore.StartTime) * 10000 < 2 ^ 63
    ∧ ActualDuration 10000000 tenthStore = some 1
    ∧ duration 10000000 tenthStore = some (some (3602879701896397 / 36028797018963968))
    ∧ tenthsFloor (tenthStore.EndTime - tenthStore.StartTime) 10000000 = 1 / 10
    ∧ (3602879701896397 / 36028797018963968 : ℚ) ≠ 1 / 10
    ∧ ((1000 : Int) : ℚ) * 1000 / ((10000000 : Int) : ℚ)
        < 3602879701896397 / 36028797018963968 := by
  have hS : tenthStore.StartTime = 0 := by decide
  have hE : tenthStore.EndTime = 1000 := by decide
  have hA : ActualDuration 10000000 tenthStore = some 1 := by
    unfold ActualDuration
    rw [hS, hE]
    decide
  have r1 : rnd64 ((1 : Int) : ℚ) = some 1 := by
    simpa using rnd64_int 1 (by norm_num)
  refine ⟨rfl, hS, hE, by decide, by decide, by decide, hA, ?_, ?_, by norm_num, by norm_num⟩
  · unfold duration
    rw [hA]
    simp only [Option.map_some', F64.ofInt, r1, F64.div, if_neg (by norm_num : (10 : ℚ) ≠ 0),
      rnd64_tenth]
  · rw [hS, hE]
    unfold tenthsFloor
    norm_num

/-- C13, amended. For a store with `StartTime ≤ EndTime`, a tick frequency above
zero and no 64-bit overflow of `(EndTime - StartTime) * 10000`, the integer
`ActualDuration` computed by `ReportPerfCntrs` is
`floor((EndTime - StartTime) * 10000 / TickHz)`, a whole number of tenths of a
millisecond that does not exceed the exact duration and is less than 0.1 ms below
it.  The `double` `duration` is the quotient `(double)ActualDuration / 10.0` with the
conversion and the division rounded to nearest: a finite number within `2 ^ (-51)`
of the size of `ActualDuration / 10` from it, equal to it when neither step rounds;
the detailed report is made with that `duration`. -/
theorem C13_elapsed_duration (MAXCPUS : Nat) (verbosity : Int) (numberOfProcessors : Nat)
    (TickHz : Int) (p : PerfObj) (hle : p.StartTime ≤ p.EndTime) (hHz : 0 < TickHz)
    (hov : (p.EndTime - p.StartTime) * 10000 < 2 ^ 63) :
    ActualDuration TickHz p
        = some ⌊((((p.EndTime - p.StartTime) * 10000 : Int) : ℚ)) / (TickHz : ℚ)⌋
    ∧ tenthsFloor (p.EndTime - p.StartTime) TickHz
        = ((⌊((((p.EndTime - p.StartTime) * 10000 : Int) : ℚ)) / (TickHz : ℚ)⌋ : Int) : ℚ) / 10
    ∧ tenthsFloor (p.EndTime - p.StartTime) TickHz
        ≤ ((p.EndTime - p.StartTime : Int) : ℚ) * 1000 / (TickHz : ℚ)
    ∧ ((p.EndTime - p.StartTime : Int) : ℚ) * 1000 / (TickHz : ℚ)
        - tenthsFloor (p.EndTime - p.StartTime) TickHz < 1 / 10
    ∧ ∃ d : ℚ,
        duration TickHz p = some (some d)
        ∧ |d - tenthsFloor (p.EndTime - p.StartTime) TickHz|
            ≤ tenthsFloor (p.EndTime - p.StartTime) TickHz / 2 ^ 51
        ∧ (rnd64 (10 * tenthsFloor (p.EndTime - p.StartTime) TickHz)
              = some (10 * tenthsFloor (p.EndTime - p.StartTime) TickHz) →
            rnd64 (tenthsFloor (p.EndTime - p.StartTime) TickHz)
              = some (tenthsFloor (p.EndTime - p.StartTime) TickHz) →
            d = tenthsFloor (p.EndTime - p.StartTime) TickHz)
        ∧ (numberOfProcessors ≤ MAXCPUS + 1 →
            ReportPerfCntrs MAXCPUS verbosity numberOfProcessors TickHz p
              = some
                  (if 1 < verbosity then
                    reportLines MAXCPUS (i32 (numberOfProcessors : Int)) (some d) p
                  else [],
                  busyPct p MAXCPUS)) := by
  have hA := ActualDuration_eq TickHz p hle hHz hov
  have hb := tenthsFloor_bounds (p.EndTime - p.StartTime) TickHz hHz
  have hr := floor_ticks_range ((p.EndTime - p.StartTime) * 10000) TickHz
    (by
      have : 0 ≤ p.EndTime - p.StartTime := by omega
      omega)
    hHz hov
  obtain ⟨d, hd, ed, ex⟩ := duration_value_bound _ hr.1 hr.2
  have h10 : 10 * tenthsFloor (p.EndTime - p.StartTime) TickHz
      = ((⌊((((p.EndTime - p.StartTime) * 10000 : Int) : ℚ)) / (TickHz : ℚ)⌋ : Int) : ℚ) := by
    unfold tenthsFloor
    field_simp
  refine ⟨hA, rfl, hb.1, hb.2, d, ?_, ed, ?_, ?_⟩
  · unfold duration
    rw [hA, Option.map_some', hd]
  · intro r1 r2
    rw [h10] at r1
    exact ex r1 r2
  · intro hn
    rw [ReportPerfCntrs_eq MAXCPUS verbosity numberOfProcessors TickHz p hHz hn]
    unfold ActualDuration at hA
    rw [sdiv64_pos _ _ hHz] at hA
    rw [Option.some.inj hA, hd]

/-- C13, witness: ten million ticks at ten million ticks per second are 10000 tenths
of a millisecond and a `duration` of 1000 ms. -/
theorem C13_elapsed_duration_witness :
    sampleStoreLater.StartTime ≤ sampleStoreLater.EndTime
    ∧ (0 : Int) < 10000000
    ∧ (sampleStoreLater.EndTime - sampleStoreLater.StartTime) * 10000 < 2 ^ 63
    ∧ sampleStoreLater.EndTime - sampleStoreLater.StartTime = 10000000
    ∧ tenthsFloor 10000000 10000000 = 1000
    ∧ duration 10000000 sampleStoreLater = some (some 1000) := by
  have hT : sampleStoreLater.EndTime - sampleStoreLater.StartTime = 10000000 := by decide
  have hF : tenthsFloor 10000000 10000000 = 1000 := by unfold tenthsFloor; norm_num
  obtain ⟨-, -, -, -, d, hd, -, hx, -⟩ := C13_elapsed_duration 256 0 1 10000000
    sampleStoreLater (by decide) (by decide) (by decide)
  rw [hT, hF] at hx
  have hd1000 : d = 1000 :=
    hx (by norm_num; simpa using rnd64_int 10000 (by norm_num))
      (by simpa using rnd64_int 1000 (by norm_num))
  rw [hd1000] at hd
  exact ⟨by decide, by decide, by decide, hT, hF, hd⟩

/-- C15. With a positive tick frequency, `ReportPerfCntrs` called with
`verbosity ≤ 1` makes no call on the report sink; the value it returns is the busy
figure of the aggregate slot whatever the verbosity: two calls that differ in
verbosity only return the same value, and with a processor count within the arrays
every verbosity returns. -/
theorem C15_quiet_below_threshold (MAXCPUS : Nat) (verbosity : Int)
    (numberOfProcessors : Nat) (TickHz : Int) (p : PerfObj) (hHz : 0 < TickHz) :
    (verbosity ≤ 1 →
      ReportPerfCntrs MAXCPUS verbosity numberOfProcessors TickHz p
        = some ([], busyPct p MAXCPUS))
    ∧ (∀ (v1 v2 : Int) (r1 r2 : List Out × Dbl),
        ReportPerfCntrs MAXCPUS v1 numberOfProcessors TickHz p = some r1 →
        ReportPerfCntrs MAXCPUS v2 numberOfProcessors TickHz p = some r2 → r1.2 = r2.2)
    ∧ (numberOfProcessors ≤ MAXCPUS + 1 →
        ∀ v : Int, (ReportPerfCntrs MAXCPUS v numberOfProcessors TickHz p).map Prod.snd
          = some (busyPct p MAXCPUS)) := by
  refine ⟨?_, ?_, ?_⟩
  · intro hv
    have hv2 : ¬ (1 < verbosity) := by omega
    unfold ReportPerfCntrs
    simp only [sdiv64_pos _ _ hHz]
    rw [if_neg hv2]
  · intro v1 v2 r1 r2 h1 h2
    rw [ReportPerfCntrs_value _ _ _ _ _ _ h1, ReportPerfCntrs_value _ _ _ _ _ _ h2]
  · intro hn v
    rw [ReportPerfCntrs_eq MAXCPUS v numberOfProcessors TickHz p hHz hn]
    rfl

/-- C15, witness: the sample store at verbosity 1 and at verbosity 2. -/
theorem C15_quiet_below_threshold_witness :
    (0 : Int) < 10000000
    ∧ ReportPerfCntrs 256 1 1 10000000 sampleStore = some ([], busyPct sampleStore 256)
    ∧ (ReportPerfCntrs 256 2 1 10000000 sampleStore).map Prod.snd
        = some (busyPct sampleStore 256) :=
  ⟨by decide,
    (C15_quiet_below_threshold 256 1 1 10000000 sampleStore (by decide)).1 (by decide),
    (C15_quiet_below_threshold 256 1 1 10000000 sampleStore (by decide)).2.2 (by decide) 2⟩

/-- C16, counterexample. One processor reported with idle and user time `2 ^ 62`:
the three deltas of the aggregate slot are non-negative, their 64-bit total is
`-2 ^ 63`, not zero, and `ReportPerfCntrs` returns 150. -/
theorem C16_busy_range_counterexample :
    RestartPerfCntrs 256 1 bigQuery 1 zeroPerfObj = Except.ok bigStore
    ∧ 0 ≤ (DeltaInfo bigStore 256).IdleTime
    ∧ 0 ≤ (DeltaInfo bigStore 256).KernelTime
    ∧ 0 ≤ (DeltaInfo bigStore 256).UserTime
    ∧ TotalCPUTime bigStore 256 ≠ 0
    ∧ (ReportPerfCntrs 256 0 1 10000000 bigStore).map Prod.snd = some (some 150)
    ∧ ¬ ((150 : ℚ) ≤ 100) := by
  refine ⟨rfl, by decide, by decide, by decide, by decide, ?_, by norm_num⟩
  rw [ReportPerfCntrs_eq 256 0 1 10000000 bigStore (by decide) (by decide),
    (bigStore_figures 256 (Or.inr rfl)).2.2.2.2.1]
  rfl

/-- C16, amended. For a store whose aggregate deltas of idle, kernel and user time
are non-negative, sum without 64-bit overflow and give a non-zero total, the busy
figure returned by `ReportPerfCntrs` (positive tick frequency, processor count
within the arrays) lies in the closed interval from 0 to 100. -/
theorem C16_busy_range (MAXCPUS : Nat) (verbosity : Int) (numberOfProcessors : Nat)
    (TickHz : Int) (p : PerfObj) (hHz : 0 < TickHz)
    (hn : numberOfProcessors ≤ MAXCPUS + 1)
    (hI : 0 ≤ (DeltaInfo p MAXCPUS).IdleTime)
    (hK : 0 ≤ (DeltaInfo p MAXCPUS).KernelTime)
    (hU : 0 ≤ (DeltaInfo p MAXCPUS).UserTime)
    (hsum : (DeltaInfo p MAXCPUS).IdleTime + (DeltaInfo p MAXCPUS).KernelTime
      + (DeltaInfo p MAXCPUS).UserTime < 2 ^ 63)
    (htot : TotalCPUTime p MAXCPUS ≠ 0) :
    ∃ u : ℚ,
      (ReportPerfCntrs MAXCPUS verbosity numberOfProcessors TickHz p).map Prod.snd
        = some (some u)
      ∧ 0 ≤ u ∧ u ≤ 100 := by
  have hT := TotalCPUTime_of_inRange p MAXCPUS (by norm_num; omega) hsum
  have hTpos : 0 < TotalCPUTime p MAXCPUS := by omega
  have hIle : (DeltaInfo p MAXCPUS).IdleTime ≤ TotalCPUTime p MAXCPUS := by omega
  obtain ⟨u, hu, hu0, hu1⟩ := busy_value_range _ _ hI hIle hTpos (by omega)
  refine ⟨u, ?_, hu0, hu1⟩
  rw [ReportPerfCntrs_eq MAXCPUS verbosity numberOfProcessors TickHz p hHz hn]
  unfold busyPct
  rw [hu]
  rfl

/-- C16, witness: the sample store, whose busy figure is 50. -/
theorem C16_busy_range_witness :
    (0 : Int) < 10000000 ∧ 1 ≤ 256 + 1
    ∧ 0 ≤ (DeltaInfo sampleStore 256).IdleTime
    ∧ 0 ≤ (DeltaInfo sampleStore 256).KernelTime
    ∧ 0 ≤ (DeltaInfo sampleStore 256).UserTime
    ∧ (DeltaInfo sampleStore 256).IdleTime + (DeltaInfo sampleStore 256).KernelTime
        + (DeltaInfo sampleStore 256).UserTime < 2 ^ 63
    ∧ TotalCPUTime sampleStore 256 ≠ 0
    ∧ ∃ u : ℚ, (ReportPerfCntrs 256 0 1 10000000 sampleStore).map Prod.snd = some (some u)
        ∧ 0 ≤ u ∧ u ≤ 100 :=
  ⟨by decide, by decide, by decide, by decide, by decide, by decide, by decide,
    C16_busy_range 256 0 1 10000000 sampleStore (by decide) (by decide) (by decide)
      (by decide) (by decide) (by decide) (by decide)⟩

/-- C17. In every state reached from the zeroed store by a sequence of successful
samples, each within the buffer of `MAXCPUS` records handed to the source and
with any processor counts, both snapshots have in slot `MAXCPUS`, for each of the
six fields, the sum over the slots `0 .. MAXCPUS-1` reduced to the width of the
field; hence the aggregate delta is the likewise reduced sum of the deltas of all
`MAXCPUS` real slots. -/
theorem C17_aggregate_invariant (MAXCPUS : Nat) (steps : List Advance) (p : PerfObj)
    (hfit : ∀ a, a ∈ steps → a.q.returnLength ≤ sizeofSPPI * MAXCPUS)
    (hrun : runAdvances MAXCPUS steps zeroPerfObj = Except.ok p) (f : Field) :
    f.get (p.StartInfo MAXCPUS) = f.wrap (sumField f p.StartInfo MAXCPUS)
    ∧ f.get (p.EndInfo MAXCPUS) = f.wrap (sumField f p.EndInfo MAXCPUS)
    ∧ f.get (DeltaInfo p MAXCPUS) = f.wrap (sumField f (DeltaInfo p) MAXCPUS) := by
  have h := runAdvances_keeps_sums MAXCPUS steps zeroPerfObj p hfit
    (zeroPerfObj_sums MAXCPUS) hrun f
  exact ⟨h.1, h.2, DeltaInfo_agg_of_sums MAXCPUS MAXCPUS p f h.1 h.2⟩

/-- C17, witness: the interrupt count after samples of two, two and one
processors. -/
theorem C17_aggregate_invariant_witness :
    (∀ a, a ∈ sampleRun → a.q.returnLength ≤ sizeofSPPI * 256)
    ∧ runAdvances 256 sampleRun zeroPerfObj = Except.ok shrunkStore
    ∧ (shrunkStore.StartInfo 256).InterruptCount = -2147483648
    ∧ Field.get Field.InterruptCount (shrunkStore.StartInfo 256)
        = Field.wrap Field.InterruptCount
            (sumField Field.InterruptCount shrunkStore.StartInfo 256) := by
  have hfit : ∀ a, a ∈ sampleRun → a.q.returnLength ≤ sizeofSPPI * 256 := by
    intro a ha
    simp only [sampleRun, List.mem_cons, List.mem_singleton, List.not_mem_nil, or_false] at ha
    rcases ha with h | h | h <;> subst h <;> decide
  exact ⟨hfit, rfl, by decide,
    (C17_aggregate_invariant 256 sampleRun shrunkStore hfit rfl Field.InterruptCount).1⟩

/-- C18. Over arrays `StartInfo` and `EndInfo` of the declared length `MAXCPUS + 1`
(a length below `2 ^ 32`), when the source has written no more than the `MAXCPUS`
records of its buffer and the record count `N` passes both checks, `N ≤ MAXCPUS`
and the `DWORD` length of the zero-fill is `MAXCPUS + 1 - N ≥ 1`.  The sampler over
checked memory does not end with an access out of bounds, and after a successful
source call it returns: after the copy and the source call its accesses to `EndInfo`
are the writes of the zero-fill to the slots `N .. MAXCPUS` and then, for each
`i < N`, the accesses of the loop to the slots `i` and `MAXCPUS`; every slot it
accesses lies in `0 .. MAXCPUS`, and a zero-fill of one entry more would be out of
bounds.  The store it leaves is the one `RestartPerfCntrs`
returns on the functions of the slot index, which does not take its out-of-range
branch. -/
theorem C18_indices_in_range (MAXCPUS N : Nat) (q : QueryResult) (Counter : Int)
    (m : PerfMem) (hS : m.StartInfo.cells.length = MAXCPUS + 1)
    (hE : m.EndInfo.cells.length = MAXCPUS + 1) (hM : MAXCPUS + 1 < 4294967296)
    (hfit : q.returnLength ≤ sizeofSPPI * MAXCPUS)
    (hmult : q.returnLength % sizeofSPPI = 0) (hcnt : q.returnLength / sizeofSPPI = N) :
    N ≤ MAXCPUS
    ∧ zeroFillCount MAXCPUS N = MAXCPUS + 1 - N
    ∧ 1 ≤ MAXCPUS + 1 - N
    ∧ (∀ E : Arr, E.cells.length = MAXCPUS + 1 →
        ZeroMemoryMem E N (MAXCPUS + 1 - N + 1) = Except.error Fatal.OutOfBounds)
    ∧ RestartPerfCntrsMem MAXCPUS N q Counter m ≠ Except.error Fatal.OutOfBounds
    ∧ RestartPerfCntrs MAXCPUS N q Counter m.toPerfObj ≠ Except.error Fatal.OutOfBounds
    ∧ (q.status = 0 →
        ∃ m', RestartPerfCntrsMem MAXCPUS N q Counter m = Except.ok m'
          ∧ RestartPerfCntrs MAXCPUS N q Counter m.toPerfObj = Except.ok m'.toPerfObj
          ∧ m'.EndInfo.log
              = m.EndInfo.log ++ (List.range (MAXCPUS + 1)).map Access.read
                ++ (List.range N).map Access.write
                ++ (List.range' N (MAXCPUS + 1 - N)).map Access.write
                ++ (List.range N).flatMap (totalStepLog MAXCPUS)
          ∧ (∀ a, a ∈ m'.EndInfo.log.drop m.EndInfo.log.length → a.slot ≤ MAXCPUS)
          ∧ (∀ a, a ∈ m'.StartInfo.log.drop m.StartInfo.log.length → a.slot ≤ MAXCPUS)) := by
  have hN : N ≤ MAXCPUS := by
    have h48 : sizeofSPPI = 48 := rfl
    rw [← hcnt]
    rw [h48] at hfit ⊢
    omega
  have key : q.status = 0 →
      ∃ m', RestartPerfCntrsMem MAXCPUS N q Counter m = Except.ok m'
        ∧ RestartPerfCntrs MAXCPUS N q Counter m.toPerfObj = Except.ok m'.toPerfObj
        ∧ m'.EndInfo.log
            = m.EndInfo.log ++ (List.range (MAXCPUS + 1)).map Access.read
              ++ (List.range N).map Access.write
              ++ (List.range' N (MAXCPUS + 1 - N)).map Access.write
              ++ (List.range N).flatMap (totalStepLog MAXCPUS)
        ∧ (∀ a, a ∈ m'.EndInfo.log.drop m.EndInfo.log.length → a.slot ≤ MAXCPUS)
        ∧ (∀ a, a ∈ m'.StartInfo.log.drop m.StartInfo.log.length → a.slot ≤ MAXCPUS) := by
    intro hst
    obtain ⟨m', h1, -, -, h2, gS, gE⟩ := RestartPerfCntrsMem_ok MAXCPUS N q Counter m hS hE hM
      hst hmult hcnt (by omega)
    refine ⟨m', h1, h2, gE, ?_, ?_⟩
    · intro a ha
      rw [gE, List.append_assoc, List.append_assoc, List.append_assoc, List.drop_left] at ha
      apply sampler_accesses_in_range MAXCPUS N (by omega) a
      simpa [List.append_assoc] using ha
    · intro a ha
      rw [gS, List.drop_left] at ha
      simp only [List.mem_map, List.mem_range] at ha
      obtain ⟨i, hi, rfl⟩ := ha
      simp only [Access.slot]
      omega
  refine ⟨hN, zeroFillCount_eq MAXCPUS N (by omega) hM, by omega,
    fun E hEl => ZeroMemoryMem_beyond E N (MAXCPUS + 1 - N) (by omega), ?_, ?_, key⟩
  · by_cases hst : q.status = 0
    · obtain ⟨m', h1, -⟩ := key hst
      rw [h1]
      exact fun hc => Except.noConfusion hc
    · obtain ⟨d, s, h1, -⟩ := CopyMemoryMem_ok m.StartInfo m.EndInfo (MAXCPUS + 1)
        (by omega) (by omega)
      unfold RestartPerfCntrsMem
      rw [h1]
      simp only
      rw [if_pos hst]
      intro hc
      injection hc with hc
      exact Fatal.noConfusion hc
  · by_cases hst : q.status = 0
    · obtain ⟨m', -, h2, -⟩ := key hst
      rw [h2]
      exact fun hc => Except.noConfusion hc
    · unfold RestartPerfCntrs
      simp only
      rw [if_pos hst]
      intro hc
      injection hc with hc
      exact Fatal.noConfusion hc

/-- C18, witness: one record in a buffer of 256, from the zeroed store in memory. -/
theorem C18_indices_in_range_witness :
    (memOf 256 zeroPerfObj).StartInfo.cells.length = 256 + 1
    ∧ (memOf 256 zeroPerfObj).EndInfo.cells.length = 256 + 1
    ∧ 256 + 1 < 4294967296
    ∧ sampleQuery.returnLength ≤ sizeofSPPI * 256
    ∧ sampleQuery.returnLength % sizeofSPPI = 0
    ∧ sampleQuery.returnLength / sizeofSPPI = 1
    ∧ sampleQuery.status = 0
    ∧ zeroFillCount 256 1 = 256
    ∧ ∃ m', RestartPerfCntrsMem 256 1 sampleQuery 1 (memOf 256 zeroPerfObj) = Except.ok m'
        ∧ (∀ a, a ∈ m'.EndInfo.log.drop (memOf 256 zeroPerfObj).EndInfo.log.length →
            a.slot ≤ 256) := by
  have h := C18_indices_in_range 256 1 sampleQuery 1 (memOf 256 zeroPerfObj)
    (memOf_length 256 zeroPerfObj).1 (memOf_length 256 zeroPerfObj).2 (by decide) (by decide)
    (by decide) (by decide)
  obtain ⟨m', h1, -, -, h4, -⟩ := h.2.2.2.2.2.2 rfl
  exact ⟨(memOf_length 256 zeroPerfObj).1, (memOf_length 256 zeroPerfObj).2, by decide,
    by decide, by decide, by decide, rfl, h.2.1, m', h1, h4⟩

/-- C19, counterexample. In the store `bigStore` the total of processor 0 is
`-2 ^ 63`, not zero; its busy figure is 150 while its kernel and user figures are 0
and -50.  In the store `sixthStore` the deltas of processor 0 are idle 1, kernel 0
and user 5, their total 6 does not overflow, and the busy figure is the `double`
`5864062014805334 / 2 ^ 46` while the kernel and user figures are 0 and
`5864062014805333 / 2 ^ 46`. -/
theorem C19_partition_counterexample :
    RestartPerfCntrs 256 1 bigQuery 1 zeroPerfObj = Except.ok bigStore
    ∧ TotalCPUTime bigStore 0 ≠ 0
    ∧ busyPct bigStore 0 = some 150
    ∧ pctOf bigStore (DeltaInfo bigStore 0).KernelTime 0 = some 0
    ∧ pctOf bigStore (DeltaInfo bigStore 0).UserTime 0 = some (-50)
    ∧ (150 : ℚ) ≠ 0 + -50
    ∧ RestartPerfCntrs 256 1 sixthQuery 1 zeroPerfObj = Except.ok sixthStore
    ∧ (DeltaInfo sixthStore 0).IdleTime = 1
    ∧ (DeltaInfo sixthStore 0).KernelTime = 0
    ∧ (DeltaInfo sixthStore 0).UserTime = 5
    ∧ TotalCPUTime sixthStore 0 = 6
    ∧ busyPct sixthStore 0 = some (5864062014805334 / 70368744177664)
    ∧ pctOf sixthStore (DeltaInfo sixthStore 0).KernelTime 0 = some 0
    ∧ pctOf sixthStore (DeltaInfo sixthStore 0).UserTime 0
        = some (5864062014805333 / 70368744177664)
    ∧ (5864062014805334 / 70368744177664 : ℚ) ≠ 0 + 5864062014805333 / 70368744177664 := by
  have h := bigStore_figures 0 (Or.inl rfl)
  have g := sixthStore_figures 0 (Or.inl rfl)
  exact ⟨rfl, by decide, h.2.2.2.2.1, h.2.2.2.2.2.1, h.2.2.2.2.2.2, by norm_num, rfl, g.1,
    g.2.1, g.2.2.1, g.2.2.2.1, g.2.2.2.2.1, g.2.2.2.2.2.1, g.2.2.2.2.2.2, by norm_num⟩

/-- C19, amended. For every slot `i` whose three deltas sum without 64-bit overflow
to a non-zero total, the exact quotients satisfy
`100 * (1 - idle/total) = 100 * kernel/total + 100 * user/total`, and the idle, kernel
and user quotients sum to 100.  The figures of the program are `double`s computed
with rounding: the busy figure is finite and within `(1 + |idle/total|) / 2 ^ 43` of
its exact quotient, and the kernel, user, DPC and interrupt figures are finite and
within `2 ^ (-50)` of the size of theirs; with non-negative deltas the busy figure
differs from the sum of the kernel and user figures by at most `2 ^ (-41)`.  The DPC
and interrupt figures are quotients by the same total and take no part in the
sum. -/
theorem C19_partition (p : PerfObj) (i : Nat)
    (hlo : -(2 : Int) ^ 63 ≤ (DeltaInfo p i).IdleTime + (DeltaInfo p i).KernelTime
      + (DeltaInfo p i).UserTime)
    (hhi : (DeltaInfo p i).IdleTime + (DeltaInfo p i).KernelTime + (DeltaInfo p i).UserTime
      < 2 ^ 63)
    (htot : TotalCPUTime p i ≠ 0) :
    100 * (1 - ((DeltaInfo p i).IdleTime : ℚ) / (TotalCPUTime p i : ℚ))
      = 100 * ((DeltaInfo p i).KernelTime : ℚ) / (TotalCPUTime p i : ℚ)
        + 100 * ((DeltaInfo p i).UserTime : ℚ) / (TotalCPUTime p i : ℚ)
    ∧ 100 * ((DeltaInfo p i).IdleTime : ℚ) / (TotalCPUTime p i : ℚ)
        + 100 * ((DeltaInfo p i).KernelTime : ℚ) / (TotalCPUTime p i : ℚ)
        + 100 * ((DeltaInfo p i).UserTime : ℚ) / (TotalCPUTime p i : ℚ) = 100
    ∧ ∃ b k u d t : ℚ,
        busyPct p i = some b
        ∧ pctOf p (DeltaInfo p i).KernelTime i = some k
        ∧ pctOf p (DeltaInfo p i).UserTime i = some u
        ∧ pctOf p (DeltaInfo p i).DpcTime i = some d
        ∧ pctOf p (DeltaInfo p i).InterruptTime i = some t
        ∧ |b - 100 * (1 - ((DeltaInfo p i).IdleTime : ℚ) / (TotalCPUTime p i : ℚ))|
            ≤ (1 + |((DeltaInfo p i).IdleTime : ℚ) / (TotalCPUTime p i : ℚ)|) / 2 ^ 43
        ∧ |k - 100 * ((DeltaInfo p i).KernelTime : ℚ) / (TotalCPUTime p i : ℚ)|
            ≤ |100 * ((DeltaInfo p i).KernelTime : ℚ) / (TotalCPUTime p i : ℚ)| / 2 ^ 50
        ∧ |u - 100 * ((DeltaInfo p i).UserTime : ℚ) / (TotalCPUTime p i : ℚ)|
            ≤ |100 * ((DeltaInfo p i).UserTime : ℚ) / (TotalCPUTime p i : ℚ)| / 2 ^ 50
        ∧ |d - 100 * ((DeltaInfo p i).DpcTime : ℚ) / (TotalCPUTime p i : ℚ)|
            ≤ |100 * ((DeltaInfo p i).DpcTime : ℚ) / (TotalCPUTime p i : ℚ)| / 2 ^ 50
        ∧ |t - 100 * ((DeltaInfo p i).InterruptTime : ℚ) / (TotalCPUTime p i : ℚ)|
            ≤ |100 * ((DeltaInfo p i).InterruptTime : ℚ) / (TotalCPUTime p i : ℚ)| / 2 ^ 50
        ∧ (0 ≤ (DeltaInfo p i).IdleTime → 0 ≤ (DeltaInfo p i).KernelTime →
            0 ≤ (DeltaInfo p i).UserTime → |b - (k + u)| ≤ 1 / 2 ^ 41) := by
  have hT := TotalCPUTime_of_inRange p i hlo hhi
  have h0 : ((TotalCPUTime p i : Int) : ℚ) ≠ 0 := by exact_mod_cast htot
  have hTq : ((TotalCPUTime p i : Int) : ℚ)
      = ((DeltaInfo p i).IdleTime : ℚ) + ((DeltaInfo p i).KernelTime : ℚ)
        + ((DeltaInfo p i).UserTime : ℚ) := by
    rw [hT]; push_cast; ring
  have id1 : 100 * (1 - ((DeltaInfo p i).IdleTime : ℚ) / (TotalCPUTime p i : ℚ))
      = 100 * ((DeltaInfo p i).KernelTime : ℚ) / (TotalCPUTime p i : ℚ)
        + 100 * ((DeltaInfo p i).UserTime : ℚ) / (TotalCPUTime p i : ℚ) := by
    field_simp
    rw [hTq]; ring
  have id2 : 100 * ((DeltaInfo p i).IdleTime : ℚ) / (TotalCPUTime p i : ℚ)
        + 100 * ((DeltaInfo p i).KernelTime : ℚ) / (TotalCPUTime p i : ℚ)
        + 100 * ((DeltaInfo p i).UserTime : ℚ) / (TotalCPUTime p i : ℚ) = 100 := by
    field_simp
    rw [hTq]; ring
  obtain ⟨b, hb, eb⟩ := busyPct_bound p i htot
  obtain ⟨k, hk, ek⟩ := pctOf_bound p (DeltaInfo p i).KernelTime i (i64_abs_le _) htot
  obtain ⟨u, hu, eu⟩ := pctOf_bound p (DeltaInfo p i).UserTime i (i64_abs_le _) htot
  obtain ⟨d, hd, ed⟩ := pctOf_bound p (DeltaInfo p i).DpcTime i (i64_abs_le _) htot
  obtain ⟨t, ht, et⟩ := pctOf_bound p (DeltaInfo p i).InterruptTime i (i64_abs_le _) htot
  refine ⟨id1, id2, b, k, u, d, t, hb, hk, hu, hd, ht, eb, ek, eu, ed, et, ?_⟩
  intro hI hK hU
  have hTpos : 0 < TotalCPUTime p i := by omega
  have hTp : (0 : ℚ) < (TotalCPUTime p i : ℚ) := by exact_mod_cast hTpos
  have hIq : (0 : ℚ) ≤ ((DeltaInfo p i).IdleTime : ℚ) := by exact_mod_cast hI
  have hKq : (0 : ℚ) ≤ ((DeltaInfo p i).KernelTime : ℚ) := by exact_mod_cast hK
  have hUq : (0 : ℚ) ≤ ((DeltaInfo p i).UserTime : ℚ) := by exact_mod_cast hU
  have hI1 : ((DeltaInfo p i).IdleTime : ℚ) / (TotalCPUTime p i : ℚ) ≤ 1 := by
    rw [div_le_one hTp]; linarith
  have hI0 : 0 ≤ ((DeltaInfo p i).IdleTime : ℚ) / (TotalCPUTime p i : ℚ) :=
    div_nonneg hIq hTp.le
  have hK1 : 100 * ((DeltaInfo p i).KernelTime : ℚ) / (TotalCPUTime p i : ℚ) ≤ 100 := by
    rw [div_le_iff₀ hTp]; linarith
  have hK0 : 0 ≤ 100 * ((DeltaInfo p i).KernelTime : ℚ) / (TotalCPUTime p i : ℚ) :=
    div_nonneg (by linarith) hTp.le
  have hU1 : 100 * ((DeltaInfo p i).UserTime : ℚ) / (TotalCPUTime p i : ℚ) ≤ 100 := by
    rw [div_le_iff₀ hTp]; linarith
  have hU0 : 0 ≤ 100 * ((DeltaInfo p i).UserTime : ℚ) / (TotalCPUTime p i : ℚ) :=
    div_nonneg (by linarith) hTp.le
  rw [abs_of_nonneg hI0] at eb
  rw [abs_of_nonneg hK0] at ek
  rw [abs_of_nonneg hU0] at eu
  have eb' := abs_le.mp eb
  have ek' := abs_le.mp ek
  have eu' := abs_le.mp eu
  rw [abs_le]
  constructor <;> linarith

/-- C19, witness: processor 0 of the later sample store, with idle 400, kernel 300
and user 200 out of 900. -/
theorem C19_partition_witness :
    -(2 : Int) ^ 63 ≤ (DeltaInfo sampleStoreLater 0).IdleTime
        + (DeltaInfo sampleStoreLater 0).KernelTime + (DeltaInfo sampleStoreLater 0).UserTime
    ∧ (DeltaInfo sampleStoreLater 0).IdleTime + (DeltaInfo sampleStoreLater 0).KernelTime
        + (DeltaInfo sampleStoreLater 0).UserTime < 2 ^ 63
    ∧ TotalCPUTime sampleStoreLater 0 = 900
    ∧ (DeltaInfo sampleStoreLater 0).IdleTime = 400
    ∧ (DeltaInfo sampleStoreLater 0).KernelTime = 300
    ∧ (DeltaInfo sampleStoreLater 0).UserTime = 200
    ∧ ∃ b k u : ℚ,
        busyPct sampleStoreLater 0 = some b
        ∧ pctOf sampleStoreLater (DeltaInfo sampleStoreLater 0).KernelTime 0 = some k
        ∧ pctOf sampleStoreLater (DeltaInfo sampleStoreLater 0).UserTime 0 = some u
        ∧ |b - (k + u)| ≤ 1 / 2 ^ 41 := by
  have hT : TotalCPUTime sampleStoreLater 0 = 900 := by decide
  have hI : (DeltaInfo sampleStoreLater 0).IdleTime = 400 := by decide
  have hK : (DeltaInfo sampleStoreLater 0).KernelTime = 300 := by decide
  have hU : (DeltaInfo sampleStoreLater 0).UserTime = 200 := by decide
  obtain ⟨-, -, b, k, u, -, -, hb, hk, hu, -, -, -, -, -, -, -, hsum⟩ :=
    C19_partition sampleStoreLater 0 (by decide) (by decide) (by rw [hT]; decide)
  exact ⟨by decide, by decide, hT, hI, hK, hU, b, k, u, hb, hk, hu,
    hsum (by rw [hI]; decide) (by rw [hK]; decide) (by rw [hU]; decide)⟩

/-- C20. For a mask of `bits > 0` bits, `CountSetBits` returns the number of bit
positions below `bits` at which the mask has a 1, which are all its 1 bits when the
mask fits the width; it returns 0 for the mask 0 and `bits` for the all-ones mask;
the loop tests the positions `bits-1` down to 0, each once. -/
theorem C20_CountSetBits_popcount (bits m : Nat) (hb : 0 < bits) :
    CountSetBits bits m = ((List.range bits).filter (fun i => m.testBit i)).length
    ∧ (m < 2 ^ bits → ∀ i, m.testBit i = true → i < bits)
    ∧ CountSetBits bits 0 = 0
    ∧ CountSetBits bits (2 ^ bits - 1) = bits
    ∧ CountSetBits.bitTests (bits - 1 + 1) (1 <<< (bits - 1))
        = ((List.range bits).reverse).map (fun i => 2 ^ i) := by
  refine ⟨CountSetBits_eq bits m hb, ?_, ?_, ?_, ?_⟩
  · intro hm i hi
    by_contra hge
    have hle : bits ≤ i := by omega
    have hlt : m < 2 ^ i := lt_of_lt_of_le hm (Nat.pow_le_pow_right (by decide) hle)
    rw [Nat.testBit_lt_two_pow hlt] at hi
    cases hi
  · rw [CountSetBits_eq bits 0 hb]
    simp
  · rw [CountSetBits_eq bits _ hb]
    have : (List.range bits).filter (fun i => (2 ^ bits - 1).testBit i) = List.range bits := by
      apply List.filter_eq_self.mpr
      intro i hi
      simp only [Nat.testBit_two_pow_sub_one, decide_eq_true_eq]
      exact List.mem_range.mp hi
    rw [this, List.length_range]
  · obtain ⟨k, rfl⟩ : ∃ k, bits = k + 1 := ⟨bits - 1, by omega⟩
    simp only [Nat.add_sub_cancel, Nat.one_shiftLeft]
    exact CountSetBits.bitTests_top k

/-- C20, witness: the 64-bit mask 1011 (binary) has three bits set. -/
theorem C20_CountSetBits_popcount_witness :
    0 < 64 ∧ CountSetBits 64 11 = 3
    ∧ ((List.range 64).filter (fun i => Nat.testBit 11 i)).length = 3 := by
  have h := (C20_CountSetBits_popcount 64 11 (by decide)).1
  have h3 : CountSetBits 64 11 = 3 := by decide
  exact ⟨by decide, h3, by rw [← h, h3]⟩

end NetcpuNtperf
